import Mathlib

/-!
coffee-machine: a verification development

A shallow embedding of the Go sources of the coffee machine
(`src/entities`, `src/repository/resourcemanager`,
`src/repository/reservationmanager`, `src/services/vendingmachine`)
together with theorems about them.

Modelling conventions.

* Go's `int` is a 64-bit machine integer whose additions and subtractions wrap
  around.  The stores and the steps of the machine are embedded twice.  The
  definitions under the source's names read the arithmetic over the integers:
  they are what the program computes as long as no result leaves the range of
  `int`.  The definitions in the namespaces `wrapping` are the same functions
  with every addition and subtraction wrapped (`GoInt.wrap`); the statements
  about unbounded refills and reservations are made about these, and the two
  embeddings are proved equal wherever the results stay in range.
* A Go `map[string]int` is modelled by an association list (`GoMap`) in which
  the first binding of a key is the live one.  The functions do not require
  the keys to be distinct; every map built from the empty map by `assign`
  has distinct keys.
* A Go `error` result is an `Option`: `none` is `nil`.
* The sequential model runs one call at a time, so every `Lock()` finds its
  mutex free and `Lock`/`Unlock` leave no trace in the state; the registry of
  mutexes (`mutexesMap`) is part of the state.  `time.Sleep` and the `ctx`
  argument have no effect on results and are left out.
-/

set_option linter.dupNamespace false

deriving instance DecidableEq for Except

/-! ## Go maps -/

/-- A Go `map[string]int`. -/
abbrev GoMap := List (String × Int)

namespace GoMap

/-- The comma-ok lookup `v, ok := m[k]`: `none` when the key is absent. -/
def commaOk : GoMap → String → Option Int
  | [], _ => none
  | (k, v) :: m, id => if k = id then some v else commaOk m id

/-- The index expression `m[k]`: the zero value when the key is absent. -/
def index (m : GoMap) (id : String) : Int :=
  match commaOk m id with
  | some v => v
  | none => 0

/-- The assignment `m[k] = v`: overwrites the binding of `k` or adds one. -/
def assign : GoMap → String → Int → GoMap
  | [], id, v => [(id, v)]
  | (k, w) :: m, id, v => if k = id then (k, v) :: m else (k, w) :: assign m id v

/-- The sum of all quantities stored in the map. -/
def total (m : GoMap) : Int := (m.map Prod.snd).sum

end GoMap

/-! ## Go integers -/

namespace GoInt

/-- `math.MaxInt` on a 64-bit platform. -/
def MaxInt : Int := 9223372036854775807

/-- `math.MinInt` on a 64-bit platform. -/
def MinInt : Int := -9223372036854775808

/-- The value an `int` holds after an addition or a subtraction whose exact
result is `x`: two's complement wrap-around at 64 bits. -/
def wrap (x : Int) : Int :=
  (x + 9223372036854775808) % 18446744073709551616 - 9223372036854775808

/-- The integer `x` is the value of an `int`. -/
def inRange (x : Int) : Prop := MinInt ≤ x ∧ x ≤ MaxInt

instance (x : Int) : Decidable (inRange x) := by
  unfold inRange
  infer_instance

end GoInt

/-! ## `src/entities` -/

namespace entities

/-- `entities.Ingredient`. -/
structure Ingredient where
  ID : String
  Quantity : Int
  deriving DecidableEq, Repr

/-- `entities.Item`. -/
structure Item where
  ID : String
  Ingredients : List Ingredient
  deriving DecidableEq, Repr

/-- `entities.RejectReason`. -/
structure RejectReason where
  RejectReasonMsg : String
  deriving DecidableEq, Repr

/-- `entities.GetItemOutcome` with its two values `"PREPARED"` and
`"NOT_PREPARED"`. -/
inductive GetItemOutcome where
  | GetItemOutcomePrepared
  | GetItemOutcomeNotPrepared
  deriving DecidableEq, Repr

/-- `entities.GetItemResponse`; a nil `RejectReasons` slice is the empty
list. -/
structure GetItemResponse where
  Item : Item
  Outcome : GetItemOutcome
  RejectReasons : List RejectReason
  deriving DecidableEq, Repr

/-- The three error types of `errors.go`, one constructor per struct type. -/
inductive Error where
  | ErrResourceTemporarilyNotAvailable (ResourceID : String)
  | ErrInsufficientResource (ResourceID : String)
  | ErrResourceNotAvailable (ResourceID : String)
  deriving DecidableEq, Repr

/-- The `Error()` methods of `errors.go`. -/
def Error.Error : Error → String
  | .ErrResourceTemporarilyNotAvailable id =>
      "resource temporarily unavailable, resource-id : " ++ id
  | .ErrInsufficientResource id => "resource is insufficient, resource-id : " ++ id
  | .ErrResourceNotAvailable id => "resource not available, resource-id : " ++ id

end entities

open entities

/-! ## `src/repository/resourcemanager` -/

namespace resourcemanager

/-- `resourcemanager.UpdateType` is a string type. -/
abbrev UpdateType := String

/-- `UpdateTypeConsume`. -/
def UpdateTypeConsume : UpdateType := "CONSUME"

/-- `UpdateTypeRefill`. -/
def UpdateTypeRefill : UpdateType := "REFILL"

/-- `resourcemanager.UpdateRequest`. -/
structure UpdateRequest where
  IngredientID : String
  UpdateType : UpdateType
  ResourceQuantity : Int
  deriving DecidableEq, Repr

/-- `resourcemanager.GetRequest`. -/
structure GetRequest where
  IngredientID : String
  deriving DecidableEq, Repr

/-- `resourcemanager.repositoryImpl` (the mutex carries no data). -/
structure repositoryImpl where
  availableResources : GoMap
  deriving DecidableEq, Repr

/-- `resourcemanager.New`. -/
def New : repositoryImpl := { availableResources := [] }

/-- `UpdateIngredient`: the store after the call and the returned
`(*entities.Ingredient, error)` pair, of which exactly one is non-nil.  The
subtraction and the addition are read over the integers;
`wrapping.UpdateIngredient` is the call on machine integers, equal to this one
when the result stays in the range of `int`. -/
def UpdateIngredient (m : repositoryImpl) (updateReq : UpdateRequest) :
    repositoryImpl × Except Error Ingredient :=
  if updateReq.UpdateType = UpdateTypeConsume then
    match m.availableResources.commaOk updateReq.IngredientID with
    | none => (m, .error (.ErrResourceNotAvailable updateReq.IngredientID))
    | some val =>
      if val < updateReq.ResourceQuantity then
        (m, .error (.ErrResourceNotAvailable updateReq.IngredientID))
      else
        let m1 : repositoryImpl :=
          { availableResources :=
              m.availableResources.assign updateReq.IngredientID
                (m.availableResources.index updateReq.IngredientID
                  - updateReq.ResourceQuantity) }
        (m1, .ok { ID := updateReq.IngredientID,
                   Quantity := m1.availableResources.index updateReq.IngredientID })
  else if updateReq.UpdateType = UpdateTypeRefill then
    let m1 : repositoryImpl :=
      { availableResources :=
          m.availableResources.assign updateReq.IngredientID
            (m.availableResources.index updateReq.IngredientID
              + updateReq.ResourceQuantity) }
    (m1, .ok { ID := updateReq.IngredientID,
               Quantity := m1.availableResources.index updateReq.IngredientID })
  else
    (m, .ok { ID := updateReq.IngredientID,
              Quantity := m.availableResources.index updateReq.IngredientID })

/-- `GetIngredient`; it does not write to the store. -/
def GetIngredient (m : repositoryImpl) (getReq : GetRequest) : Except Error Ingredient :=
  match m.availableResources.commaOk getReq.IngredientID with
  | none => .error (.ErrResourceNotAvailable getReq.IngredientID)
  | some _ =>
    .ok { ID := getReq.IngredientID,
          Quantity := m.availableResources.index getReq.IngredientID }

/-- The store after a sequence of `UpdateIngredient` calls made one after the
other. -/
def runUpdates (m : repositoryImpl) (reqs : List UpdateRequest) : repositoryImpl :=
  reqs.foldl (fun m1 req => (UpdateIngredient m1 req).1) m

/-- A call of `UpdateIngredient` touches ingredient `id` when it names `id` and
is a refill or a consume that succeeds. -/
def touches (m : repositoryImpl) (req : UpdateRequest) (id : String) : Bool :=
  decide (req.IngredientID = id) &&
    (decide (req.UpdateType = UpdateTypeRefill) ||
      (decide (req.UpdateType = UpdateTypeConsume) &&
        (match (UpdateIngredient m req).2 with
          | .ok _ => true
          | .error _ => false)))

/-- Whether some call of a sequence of `UpdateIngredient` calls, made one
after the other from the store `m`, touches ingredient `id`. -/
def touched (m : repositoryImpl) : List UpdateRequest → String → Bool
  | [], _ => false
  | req :: reqs, id => touches m req id || touched (UpdateIngredient m req).1 reqs id

/-! ### On machine integers -/

namespace wrapping

/-- `UpdateIngredient` with the subtraction of the consume case and the
addition of the refill case wrapping around as Go's `int` does. -/
def UpdateIngredient (m : repositoryImpl) (updateReq : UpdateRequest) :
    repositoryImpl × Except Error Ingredient :=
  if updateReq.UpdateType = UpdateTypeConsume then
    match m.availableResources.commaOk updateReq.IngredientID with
    | none => (m, .error (.ErrResourceNotAvailable updateReq.IngredientID))
    | some val =>
      if val < updateReq.ResourceQuantity then
        (m, .error (.ErrResourceNotAvailable updateReq.IngredientID))
      else
        let m1 : repositoryImpl :=
          { availableResources :=
              m.availableResources.assign updateReq.IngredientID
                (GoInt.wrap (m.availableResources.index updateReq.IngredientID
                  - updateReq.ResourceQuantity)) }
        (m1, .ok { ID := updateReq.IngredientID,
                   Quantity := m1.availableResources.index updateReq.IngredientID })
  else if updateReq.UpdateType = UpdateTypeRefill then
    let m1 : repositoryImpl :=
      { availableResources :=
          m.availableResources.assign updateReq.IngredientID
            (GoInt.wrap (m.availableResources.index updateReq.IngredientID
              + updateReq.ResourceQuantity)) }
    (m1, .ok { ID := updateReq.IngredientID,
               Quantity := m1.availableResources.index updateReq.IngredientID })
  else
    (m, .ok { ID := updateReq.IngredientID,
              Quantity := m.availableResources.index updateReq.IngredientID })

/-- The store after a sequence of `UpdateIngredient` calls made one after the
other. -/
def runUpdates (m : repositoryImpl) (reqs : List UpdateRequest) : repositoryImpl :=
  reqs.foldl (fun m1 req => (UpdateIngredient m1 req).1) m

/-- No refill of the sequence, made from the store `m` on, takes the quantity
of its ingredient beyond `math.MaxInt`. -/
def refillsFit (m : repositoryImpl) : List UpdateRequest → Bool
  | [] => true
  | req :: reqs =>
    decide (req.UpdateType = UpdateTypeRefill →
        m.availableResources.index req.IngredientID + req.ResourceQuantity ≤ GoInt.MaxInt) &&
      refillsFit (UpdateIngredient m req).1 reqs

end wrapping

end resourcemanager

/-! ## `src/repository/reservationmanager` -/

namespace reservationmanager

/-- `reservationmanager.CreateReservationRequest`. -/
structure CreateReservationRequest where
  IngredientID : String
  ReserveQuantity : Int
  deriving DecidableEq, Repr

/-- `reservationmanager.GetReservationRequest`. -/
structure GetReservationRequest where
  IngredientID : String
  deriving DecidableEq, Repr

/-- `reservationmanager.DeleteReservationRequest`. -/
structure DeleteReservationRequest where
  IngredientID : String
  DeleteQuantity : Int
  deriving DecidableEq, Repr

/-- `reservationmanager.repositoryImpl` (the mutex carries no data). -/
structure repositoryImpl where
  reservations : GoMap
  deriving DecidableEq, Repr

/-- `reservationmanager.New`. -/
def New : repositoryImpl := { reservations := [] }

/-- `Create`: `r.reservations[id] += q`, always returning `nil`.  The
addition is read over the integers; `wrapping.Create` is the call on machine
integers, equal to this one when the sum stays in the range of `int`. -/
def Create (r : repositoryImpl) (request : CreateReservationRequest) :
    repositoryImpl × Option Error :=
  ({ reservations :=
       r.reservations.assign request.IngredientID
         (r.reservations.index request.IngredientID + request.ReserveQuantity) },
   none)

/-- `Get`; it does not write to the store and always returns a nil error. -/
def Get (r : repositoryImpl) (request : GetReservationRequest) : Except Error Ingredient :=
  .ok { ID := request.IngredientID,
        Quantity := r.reservations.index request.IngredientID }

/-- `Delete`.  The subtraction is read over the integers; `wrapping.Delete`
is the call on machine integers, equal to this one when the difference stays
in the range of `int`. -/
def Delete (r : repositoryImpl) (request : DeleteReservationRequest) :
    repositoryImpl × Option Error :=
  let curVal := r.reservations.index request.IngredientID
  if request.DeleteQuantity > curVal then
    (r, some (.ErrInsufficientResource request.IngredientID))
  else
    ({ reservations :=
         r.reservations.assign request.IngredientID
           (r.reservations.index request.IngredientID - request.DeleteQuantity) },
     none)

/-- A call of `Create` or of `Delete`. -/
inductive Call where
  | create (request : CreateReservationRequest)
  | delete (request : DeleteReservationRequest)
  deriving DecidableEq, Repr

/-- The quantity a call asks to reserve or to release. -/
def Call.quantity : Call → Int
  | .create request => request.ReserveQuantity
  | .delete request => request.DeleteQuantity

/-- The store after one call of `Create` or `Delete`. -/
def applyCall (r : repositoryImpl) : Call → repositoryImpl
  | .create request => (Create r request).1
  | .delete request => (Delete r request).1

/-- The store after a sequence of `Create` and `Delete` calls made one after
the other. -/
def runCalls (r : repositoryImpl) (calls : List Call) : repositoryImpl :=
  calls.foldl applyCall r

/-! ### On machine integers -/

namespace wrapping

/-- `Create` with `+=` wrapping around as Go's `int` does. -/
def Create (r : repositoryImpl) (request : CreateReservationRequest) :
    repositoryImpl × Option Error :=
  ({ reservations :=
       r.reservations.assign request.IngredientID
         (GoInt.wrap (r.reservations.index request.IngredientID + request.ReserveQuantity)) },
   none)

/-- `Delete` with `-=` wrapping around as Go's `int` does. -/
def Delete (r : repositoryImpl) (request : DeleteReservationRequest) :
    repositoryImpl × Option Error :=
  let curVal := r.reservations.index request.IngredientID
  if request.DeleteQuantity > curVal then
    (r, some (.ErrInsufficientResource request.IngredientID))
  else
    ({ reservations :=
         r.reservations.assign request.IngredientID
           (GoInt.wrap (r.reservations.index request.IngredientID - request.DeleteQuantity)) },
     none)

/-- The store after one call of `Create` or `Delete`. -/
def applyCall (r : repositoryImpl) : Call → repositoryImpl
  | .create request => (Create r request).1
  | .delete request => (Delete r request).1

/-- The store after a sequence of `Create` and `Delete` calls made one after
the other. -/
def runCalls (r : repositoryImpl) (calls : List Call) : repositoryImpl :=
  calls.foldl applyCall r

/-- No `Create` of the sequence, made from the store `r` on, takes the counter
of its ingredient beyond `math.MaxInt`. -/
def createsFit (r : repositoryImpl) : List Call → Bool
  | [] => true
  | .create request :: calls =>
    decide (r.reservations.index request.IngredientID + request.ReserveQuantity
        ≤ GoInt.MaxInt) &&
      createsFit (Create r request).1 calls
  | .delete request :: calls => createsFit (Delete r request).1 calls

end wrapping

end reservationmanager

/-! ## Go errors and the retry library -/

/-- Go's `error` interface: a type with an `Error() string` method. -/
class GoError (ε : Type) where
  Error : ε → String

instance : GoError entities.Error where
  Error := entities.Error.Error

namespace retry

/-- Modelled from the spec: `retry.Error` of the third-party library
`github.com/avast/retry-go`, which is not part of the sources.  It is the
value `retry.Do` returns when no attempt succeeded: the errors of the attempts
made, in order (spec 4.4, step 4, "retried up to 3 total attempts"). -/
abbrev Error := List entities.Error

/-- Modelled from the spec: the message of a `retry.Error`, which lists the
message of every attempt made under a one-line header, so that it carries the
message of the final error (spec 4.4, step 5). -/
def Error.Error (e : Error) : String :=
  "All attempts fail:\n" ++
    "\n".intercalate (e.enum.map fun p => "#" ++ toString (p.1 + 1) ++ ": " ++ p.2.Error)

instance : GoError Error where
  Error := Error.Error

/-- What a call of `retry.Do` leaves behind: the final state, the errors of
the failed attempts in order, and whether the last attempt succeeded (in which
case `retry.Do` returns `nil`). -/
structure Outcome (σ : Type) where
  state : σ
  errorLog : Error
  succeeded : Bool

/-- The number of times `retry.Do` called the retried function. -/
def Outcome.calls {σ : Type} (o : Outcome σ) : Nat :=
  o.errorLog.length + (if o.succeeded then 1 else 0)

/-- The results of the calls `retry.Do` made, in order: the logged errors,
followed by `nil` if the last call succeeded. -/
def Outcome.trace {σ : Type} (o : Outcome σ) : List (Option entities.Error) :=
  o.errorLog.map some ++ (if o.succeeded then [none] else [])

/-- The `error` value returned by `retry.Do`. -/
def Outcome.err {σ : Type} (o : Outcome σ) : Option Error :=
  if o.succeeded then none else some o.errorLog

/-- Modelled from the spec: the loop of `retry.Do` with `remaining` attempts
left (spec 4.4, step 4): call the function; on success return `nil`; on
failure log the error and go round again only if `retryIf` accepts the error
and an attempt is left. -/
def doLoop {σ : Type} (retryableFunc : σ → σ × Option entities.Error)
    (retryIf : entities.Error → Bool) : Nat → σ → Error → Outcome σ
  | 0, s, errorLog => { state := s, errorLog := errorLog, succeeded := false }
  | remaining + 1, s, errorLog =>
    match retryableFunc s with
    | (s1, none) => { state := s1, errorLog := errorLog, succeeded := true }
    | (s1, some err) =>
      if retryIf err then doLoop retryableFunc retryIf remaining s1 (errorLog ++ [err])
      else { state := s1, errorLog := errorLog ++ [err], succeeded := false }

/-- Modelled from the spec: `retry.Do(f, retry.RetryIf(retryIf),
retry.Attempts(attempts))`. -/
def Do {σ : Type} (retryableFunc : σ → σ × Option entities.Error)
    (retryIf : entities.Error → Bool) (attempts : Nat) (s : σ) : Outcome σ :=
  doLoop retryableFunc retryIf attempts s []

end retry

/-! ## `src/services/vendingmachine` -/

namespace vendingmachine

/-- A `*sync.Mutex`: the pointer is modelled by its allocation number. -/
abbrev MutexRef := Nat

/-- The comma-ok lookup in a `map[string]*sync.Mutex`. -/
def lookupMutex : List (String × MutexRef) → String → Option MutexRef
  | [], _ => none
  | (k, mu) :: m, id => if k = id then some mu else lookupMutex m id

/-- `coffeeMachineImpl`: the two stores, the outlet count and the registry of
per-ingredient mutexes. -/
structure coffeeMachineImpl where
  resourceManager : resourcemanager.repositoryImpl
  reservationManager : reservationmanager.repositoryImpl
  numOfOutlets : Int
  mutexesMap : List (String × MutexRef)
  deriving DecidableEq, Repr

/-- `vendingmachine.Params`. -/
structure Params where
  ReservationManager : reservationmanager.repositoryImpl
  ResourceManager : resourcemanager.repositoryImpl
  NumOfOutlets : Int

/-- `vendingmachine.New`. -/
def New (p : Params) : coffeeMachineImpl :=
  { resourceManager := p.ResourceManager
    numOfOutlets := p.NumOfOutlets
    mutexesMap := []
    reservationManager := p.ReservationManager }

/-- `getOrCreateMutex`: the mutex registered for the ingredient id, allocated
and registered on first request. -/
def getOrCreateMutex (c : coffeeMachineImpl) (ingredient : Ingredient) :
    coffeeMachineImpl × MutexRef :=
  match lookupMutex c.mutexesMap ingredient.ID with
  | some mu => (c, mu)
  | none =>
    ({ c with mutexesMap := c.mutexesMap ++ [(ingredient.ID, c.mutexesMap.length)] },
     c.mutexesMap.length)

/-- `reserveIngredientIfPossible`. -/
def reserveIngredientIfPossible (c : coffeeMachineImpl) (toReserveIngredient : Ingredient) :
    coffeeMachineImpl × Option Error :=
  let c1 := (getOrCreateMutex c toReserveIngredient).1
  match resourcemanager.GetIngredient c1.resourceManager
      { IngredientID := toReserveIngredient.ID } with
  | .error err => (c1, some err)
  | .ok availableIngredient =>
    match reservationmanager.Get c1.reservationManager
        { IngredientID := toReserveIngredient.ID } with
    | .error err => (c1, some err)
    | .ok reservedIngredient =>
      if availableIngredient.Quantity - reservedIngredient.Quantity
          ≥ toReserveIngredient.Quantity then
        match reservationmanager.Create c1.reservationManager
            { IngredientID := toReserveIngredient.ID
              ReserveQuantity := toReserveIngredient.Quantity } with
        | (r1, some err) => ({ c1 with reservationManager := r1 }, some err)
        | (r1, none) => ({ c1 with reservationManager := r1 }, none)
      else if availableIngredient.Quantity ≥ toReserveIngredient.Quantity then
        (c1, some (.ErrResourceTemporarilyNotAvailable toReserveIngredient.ID))
      else
        (c1, some (.ErrInsufficientResource toReserveIngredient.ID))

/-- The body of the loop of `deleteReservations` for one ingredient: the
`Delete` call made under the ingredient's mutex. -/
def deleteReservation (c : coffeeMachineImpl) (ingredient : Ingredient) :
    coffeeMachineImpl × Option Error :=
  let c1 := (getOrCreateMutex c ingredient).1
  match reservationmanager.Delete c1.reservationManager
      { IngredientID := ingredient.ID, DeleteQuantity := ingredient.Quantity } with
  | (r1, err) => ({ c1 with reservationManager := r1 }, err)

/-- `deleteReservations`: stops at the first `Delete` that fails. -/
def deleteReservations (c : coffeeMachineImpl) :
    List Ingredient → coffeeMachineImpl × Option Error
  | [] => (c, none)
  | ingredient :: rest =>
    match deleteReservation c ingredient with
    | (c1, some err) => (c1, some err)
    | (c1, none) => deleteReservations c1 rest

/-- `consumeIngredient`. -/
def consumeIngredient (c : coffeeMachineImpl) (ingredient : Ingredient) :
    coffeeMachineImpl × Option Error :=
  let c1 := (getOrCreateMutex c ingredient).1
  match resourcemanager.UpdateIngredient c1.resourceManager
      { IngredientID := ingredient.ID
        UpdateType := resourcemanager.UpdateTypeConsume
        ResourceQuantity := ingredient.Quantity } with
  | (m1, .error err) => ({ c1 with resourceManager := m1 }, some err)
  | (m1, .ok _) => ({ c1 with resourceManager := m1 }, none)

/-- `Refill`.  The source locks the ingredient's mutex and unlocks it again
before the call of `UpdateIngredient`; with one call running at a time neither
leaves a trace in the state.  The addition is read over the integers;
`wrapping.Refill` is the call on machine integers, equal to this one when the
refilled quantity stays in the range of `int`. -/
def Refill (c : coffeeMachineImpl) (ingredient : Ingredient) :
    coffeeMachineImpl × Option Error :=
  let c1 := (getOrCreateMutex c ingredient).1
  match resourcemanager.UpdateIngredient c1.resourceManager
      { IngredientID := ingredient.ID
        UpdateType := resourcemanager.UpdateTypeRefill
        ResourceQuantity := ingredient.Quantity } with
  | (m1, .error err) => ({ c1 with resourceManager := m1 }, some err)
  | (m1, .ok _) => ({ c1 with resourceManager := m1 }, none)

/-- The first loop of `attemptPouringDrink`, from index `idx` on: reserves the
ingredients in order and stops at the first failure, returning its index and
error. -/
def reserveLoop (c : coffeeMachineImpl) :
    List Ingredient → Nat → coffeeMachineImpl × Option (Nat × Error)
  | [], _ => (c, none)
  | ingredient :: rest, idx =>
    match reserveIngredientIfPossible c ingredient with
    | (c1, some err) => (c1, some (idx, err))
    | (c1, none) => reserveLoop c1 rest (idx + 1)

/-- The second loop of `attemptPouringDrink`: consumes the ingredients in
order and stops at the first failure. -/
def consumeLoop (c : coffeeMachineImpl) :
    List Ingredient → coffeeMachineImpl × Option Error
  | [] => (c, none)
  | ingredient :: rest =>
    match consumeIngredient c ingredient with
    | (c1, some err) => (c1, some err)
    | (c1, none) => consumeLoop c1 rest

/-- The two loops of `attemptPouringDrink` before the deferred function runs:
the state, the value of `reservedItemsIdx` and the error about to be
returned. -/
def attemptBody (c : coffeeMachineImpl) (item : Item) :
    coffeeMachineImpl × Nat × Option Error :=
  match reserveLoop c item.Ingredients 0 with
  | (c1, some (idx, err)) => (c1, idx, some err)
  | (c1, none) =>
    match consumeLoop c1 item.Ingredients with
    | (c2, err) => (c2, item.Ingredients.length, err)

/-- `attemptPouringDrink`: the two loops, then the deferred deletion of the
reservations of `item.Ingredients[:reservedItemsIdx]`, whose error replaces
the one being returned. -/
def attemptPouringDrink (c : coffeeMachineImpl) (item : Item) :
    coffeeMachineImpl × Option Error :=
  match attemptBody c item with
  | (c1, reservedItemsIdx, err) =>
    match deleteReservations c1 (item.Ingredients.take reservedItemsIdx) with
    | (c2, some deleteErr) => (c2, some deleteErr)
    | (c2, none) => (c2, err)

/-- `toPourDrinkResponse`. -/
def toPourDrinkResponse {ε : Type} [GoError ε] (item : Item) (err : Option ε) :
    GetItemResponse :=
  match err with
  | none =>
    { Item := item, Outcome := .GetItemOutcomePrepared, RejectReasons := [] }
  | some e =>
    { Item := item, Outcome := .GetItemOutcomeNotPrepared,
      RejectReasons := [{ RejectReasonMsg := GoError.Error e }] }

/-- The predicate given to `retry.RetryIf` in `pourDrink`. -/
def retryIf (err : Error) : Bool :=
  match err with
  | .ErrResourceTemporarilyNotAvailable _ => true
  | _ => false

/-- The call of `retry.Do` in `pourDrink`. -/
def pourDrinkRetry (c : coffeeMachineImpl) (item : Item) : retry.Outcome coffeeMachineImpl :=
  retry.Do (fun c1 => attemptPouringDrink c1 item) retryIf 3 c

/-- `pourDrink`: the state after the last attempt and the response. -/
def pourDrink (c : coffeeMachineImpl) (item : Item) : coffeeMachineImpl × GetItemResponse :=
  ((pourDrinkRetry c item).state, toPourDrinkResponse item (pourDrinkRetry c item).err)

/-! ### Vocabulary of the statements -/

/-- The machine state after `k` consecutive attempts on the same item. -/
def attemptState (c : coffeeMachineImpl) (item : Item) : Nat → coffeeMachineImpl
  | 0 => c
  | k + 1 => (attemptPouringDrink (attemptState c item k) item).1

/-- The error returned by attempt number `k` (counted from zero) in a run of
consecutive attempts on the same item. -/
def attemptResult (c : coffeeMachineImpl) (item : Item) (k : Nat) : Option Error :=
  (attemptPouringDrink (attemptState c item k) item).2

/-- The available quantity of an ingredient: `availableResources[id]`, zero
for an ingredient without an entry. -/
def coffeeMachineImpl.available (c : coffeeMachineImpl) (id : String) : Int :=
  c.resourceManager.availableResources.index id

/-- The reserved counter of an ingredient: `reservations[id]`, zero for an
ingredient without an entry. -/
def coffeeMachineImpl.reserved (c : coffeeMachineImpl) (id : String) : Int :=
  c.reservationManager.reservations.index id

/-- An ingredient is stocked when the inventory map has an entry for it. -/
def coffeeMachineImpl.stocked (c : coffeeMachineImpl) (id : String) : Bool :=
  (c.resourceManager.availableResources.commaOk id).isSome

/-- The total available inventory. -/
def coffeeMachineImpl.totalAvailable (c : coffeeMachineImpl) : Int :=
  c.resourceManager.availableResources.total

/-- The quantity of ingredient `id` that a list of requirements asks for. -/
def required (l : List Ingredient) (id : String) : Int :=
  (l.map fun i => if i.ID = id then i.Quantity else 0).sum

/-- The sum of the quantities of a list of requirements. -/
def totalRequired (l : List Ingredient) : Int :=
  (l.map fun i => i.Quantity).sum

/-- The order with all zero- and negative-quantity requirements removed. -/
def withoutNonPositive (item : Item) : Item :=
  { item with Ingredients := item.Ingredients.filter (fun i => decide (0 < i.Quantity)) }

/-- The entries of the two maps under an ingredient id: the comma-ok lookups
in `availableResources` and in `reservations`. -/
def coffeeMachineImpl.entriesAt (c : coffeeMachineImpl) (id : String) :
    Option Int × Option Int :=
  (c.resourceManager.availableResources.commaOk id,
   c.reservationManager.reservations.commaOk id)

/-- A sequence of calls of `getOrCreateMutex`, one per ingredient of the
list, in order: the machine after the last call. -/
def getOrCreateMutexes (c : coffeeMachineImpl) : List Ingredient → coffeeMachineImpl
  | [] => c
  | ingredient :: rest => getOrCreateMutexes (getOrCreateMutex c ingredient).1 rest

/-! ### Lock discipline

What one call does to the per-ingredient mutexes and to the two stores, in
program order.  A deferred `Unlock` runs when the function returns, after the
store calls of its body. -/

/-- One operation of a goroutine on a mutex or on a store. -/
inductive Op where
  | Lock (mutex : MutexRef)
  | Unlock (mutex : MutexRef)
  | GetIngredient (req : resourcemanager.GetRequest)
  | UpdateIngredient (req : resourcemanager.UpdateRequest)
  | Get (req : reservationmanager.GetReservationRequest)
  | Create (req : reservationmanager.CreateReservationRequest)
  | Delete (req : reservationmanager.DeleteReservationRequest)
  deriving DecidableEq, Repr

/-- The operations of `Refill`, in the order of its statements:
`mutex.Lock()`, `mutex.Unlock()`, then `c.resourceManager.UpdateIngredient`. -/
def RefillOps (c : coffeeMachineImpl) (ingredient : Ingredient) : List Op :=
  let mutex := (getOrCreateMutex c ingredient).2
  [.Lock mutex,
   .Unlock mutex,
   .UpdateIngredient
     { IngredientID := ingredient.ID
       UpdateType := resourcemanager.UpdateTypeRefill
       ResourceQuantity := ingredient.Quantity }]

/-- The operations of `consumeIngredient`: `mutex.Lock()`, the call of
`UpdateIngredient`, and the deferred `mutex.Unlock()` on return. -/
def consumeIngredientOps (c : coffeeMachineImpl) (ingredient : Ingredient) : List Op :=
  let mutex := (getOrCreateMutex c ingredient).2
  [.Lock mutex,
   .UpdateIngredient
     { IngredientID := ingredient.ID
       UpdateType := resourcemanager.UpdateTypeConsume
       ResourceQuantity := ingredient.Quantity },
   .Unlock mutex]

/-- The operations of `reserveIngredientIfPossible`: `mutex.Lock()`, the
store calls made on the path the state selects, and the deferred
`mutex.Unlock()` on return. -/
def reserveIngredientIfPossibleOps (c : coffeeMachineImpl)
    (toReserveIngredient : Ingredient) : List Op :=
  let mutex := (getOrCreateMutex c toReserveIngredient).2
  let getIngredient : Op := .GetIngredient { IngredientID := toReserveIngredient.ID }
  let get : Op := .Get { IngredientID := toReserveIngredient.ID }
  match resourcemanager.GetIngredient c.resourceManager
      { IngredientID := toReserveIngredient.ID } with
  | .error _ => [.Lock mutex, getIngredient, .Unlock mutex]
  | .ok availableIngredient =>
    match reservationmanager.Get c.reservationManager
        { IngredientID := toReserveIngredient.ID } with
    | .error _ => [.Lock mutex, getIngredient, get, .Unlock mutex]
    | .ok reservedIngredient =>
      if availableIngredient.Quantity - reservedIngredient.Quantity
          ≥ toReserveIngredient.Quantity then
        [.Lock mutex, getIngredient, get,
         .Create
           { IngredientID := toReserveIngredient.ID
             ReserveQuantity := toReserveIngredient.Quantity },
         .Unlock mutex]
      else
        [.Lock mutex, getIngredient, get, .Unlock mutex]

/-- An operation on one of the two stores. -/
def Op.onStore : Op → Bool
  | .Lock _ => false
  | .Unlock _ => false
  | _ => true

/-- Every store operation of the sequence is made while the goroutine holds
`mutex`; `held` tells whether it holds it at the start. -/
def underLock (mutex : MutexRef) : Bool → List Op → Bool
  | _, [] => true
  | held, .Lock m :: rest => underLock mutex (held || m == mutex) rest
  | held, .Unlock m :: rest => underLock mutex (held && m != mutex) rest
  | held, _ :: rest => held && underLock mutex held rest

/-- Goroutines running side by side: for each mutex that is locked the
goroutine holding it, and for each goroutine the operations it still has to
make. -/
structure Goroutines where
  holder : List (MutexRef × Nat)
  pending : List (List Op)
  deriving DecidableEq, Repr

/-- What was observed when an operation was made: the goroutine making it,
the operation, and who held which mutex at that moment. -/
structure Observed where
  goroutine : Nat
  op : Op
  holder : List (MutexRef × Nat)
  deriving DecidableEq, Repr

/-- Goroutine `t` makes its next operation.  `Lock` waits while the mutex is
held, so it is no step then; `Unlock` releases the mutex; a store call is one
step, the stores being guarded by their own mutexes. -/
def Goroutines.step (s : Goroutines) (t : Nat) : Option (Goroutines × Observed) :=
  match s.pending[t]? with
  | none => none
  | some [] => none
  | some (op :: rest) =>
    let seen : Observed := { goroutine := t, op := op, holder := s.holder }
    match op with
    | .Lock m =>
      if (s.holder.lookup m).isSome then none
      else some ({ holder := (m, t) :: s.holder, pending := s.pending.set t rest }, seen)
    | .Unlock m =>
      some ({ holder := s.holder.filter (fun h => h.1 != m),
              pending := s.pending.set t rest }, seen)
    | _ => some ({ s with pending := s.pending.set t rest }, seen)

/-- The goroutines take turns as the schedule says; the result is what was
observed, or nothing when the schedule names a goroutine that cannot step. -/
def Goroutines.run (s : Goroutines) : List Nat → Option (List Observed)
  | [] => some []
  | t :: schedule =>
    match s.step t with
    | none => none
    | some (s1, seen) =>
      match Goroutines.run s1 schedule with
      | none => none
      | some observed => some (seen :: observed)

/-- A store operation made while another goroutine holds `mutex`. -/
def Observed.besideHolder (mutex : MutexRef) (seen : Observed) : Bool :=
  seen.op.onStore &&
    match seen.holder.lookup mutex with
    | some t => t != seen.goroutine
    | none => false

/-! ### Interleaved orders

The attempts of several orders run side by side. Each call of
`reserveIngredientIfPossible`, of `consumeIngredient` and of the `Delete` of
one reservation is made under the ingredient's mutex and is one atomic
transition on the shared stores; an order in flight remembers where it stands
in `attemptPouringDrink`. -/

/-- Where an order in flight stands in `attemptPouringDrink`: in the first
loop at index `idx`, in the second loop at index `idx`, in the deferred
`deleteReservations(item.Ingredients[:reservedItemsIdx])` at index `idx` with
the error `err` about to be returned, or returned with `err`. -/
inductive Phase where
  | reserving (idx : Nat)
  | consuming (idx : Nat)
  | deleting (reservedItemsIdx : Nat) (idx : Nat) (err : Option Error)
  | done (err : Option Error)
  deriving DecidableEq, Repr

/-- An order in flight: its item and where its attempt stands. -/
structure Order where
  item : Item
  phase : Phase
  deriving DecidableEq, Repr

/-- The next atomic transition of an order in flight on the shared
machine. -/
def Order.step (c : coffeeMachineImpl) (o : Order) : coffeeMachineImpl × Order :=
  match o.phase with
  | .reserving idx =>
    match o.item.Ingredients[idx]? with
    | none => (c, { o with phase := .consuming 0 })
    | some ingredient =>
      match reserveIngredientIfPossible c ingredient with
      | (c1, some err) => (c1, { o with phase := .deleting idx 0 (some err) })
      | (c1, none) => (c1, { o with phase := .reserving (idx + 1) })
  | .consuming idx =>
    match o.item.Ingredients[idx]? with
    | none => (c, { o with phase := .deleting o.item.Ingredients.length 0 none })
    | some ingredient =>
      match consumeIngredient c ingredient with
      | (c1, some err) =>
        (c1, { o with phase := .deleting o.item.Ingredients.length 0 (some err) })
      | (c1, none) => (c1, { o with phase := .consuming (idx + 1) })
  | .deleting reservedItemsIdx idx err =>
    match (o.item.Ingredients.take reservedItemsIdx)[idx]? with
    | none => (c, { o with phase := .done err })
    | some ingredient =>
      match deleteReservation c ingredient with
      | (c1, some deleteErr) => (c1, { o with phase := .done (some deleteErr) })
      | (c1, none) => (c1, { o with phase := .deleting reservedItemsIdx (idx + 1) err })
  | .done _ => (c, o)

/-- An order in flight making `n` transitions with no other order
interfering. -/
def Order.runAlone (c : coffeeMachineImpl) (o : Order) : Nat → coffeeMachineImpl × Order
  | 0 => (c, o)
  | n + 1 => Order.runAlone (o.step c).1 (o.step c).2 n

/-- The shared machine and the orders in flight. -/
structure Shared where
  machine : coffeeMachineImpl
  orders : List Order
  deriving DecidableEq, Repr

/-- What can happen next: the order at position `i` makes its next
transition, a new order starts its attempt, or an ingredient is refilled. -/
inductive Event where
  | step (i : Nat)
  | submit (item : Item)
  | refill (ingredient : Ingredient)
  deriving DecidableEq, Repr

/-- Orders ask for positive quantities and refills add non-negative ones. -/
def Event.admissible : Event → Prop
  | .step _ => True
  | .submit item => ∀ ingredient ∈ item.Ingredients, 0 < ingredient.Quantity
  | .refill ingredient => 0 ≤ ingredient.Quantity

instance (e : Event) : Decidable e.admissible := by
  cases e <;> unfold Event.admissible <;> infer_instance

/-- The effect of one event. -/
def Shared.apply (s : Shared) : Event → Shared
  | .step i =>
    match s.orders[i]? with
    | none => s
    | some o =>
      { machine := (o.step s.machine).1, orders := s.orders.set i (o.step s.machine).2 }
  | .submit item =>
    { s with orders := s.orders ++ [{ item := item, phase := .reserving 0 }] }
  | .refill ingredient => { s with machine := (Refill s.machine ingredient).1 }

/-- The state after a sequence of events, in any interleaving. -/
def Shared.run (s : Shared) (events : List Event) : Shared :=
  events.foldl Shared.apply s

/-- The requirements whose reservations an order in flight holds in the
reservation store. -/
def Order.held (o : Order) : List Ingredient :=
  match o.phase with
  | .reserving idx => o.item.Ingredients.take idx
  | .consuming _ => o.item.Ingredients
  | .deleting reservedItemsIdx idx _ => (o.item.Ingredients.take reservedItemsIdx).drop idx
  | .done _ => []

/-- The requirements an order in flight has reserved and not yet consumed. -/
def Order.owed (o : Order) : List Ingredient :=
  match o.phase with
  | .reserving idx => o.item.Ingredients.take idx
  | .consuming idx => o.item.Ingredients.drop idx
  | .deleting _ _ _ => []
  | .done _ => []

/-- The quantity of ingredient `id` reserved and not yet consumed by all
orders in flight together. -/
def Shared.owed (s : Shared) (id : String) : Int :=
  (s.orders.map fun o => required o.owed id).sum

/-- The quantity of ingredient `id` for which the orders in flight hold
reservations. -/
def Shared.held (s : Shared) (id : String) : Int :=
  (s.orders.map fun o => required o.held id).sum

/-- The invariant of the interleaved runs: orders ask for positive
quantities; the reserved counter of every ingredient is the sum of the
reservations the orders in flight hold; what the orders have reserved and not
yet consumed is covered by the available quantity; and every ingredient
reserved and not yet consumed is stocked. -/
structure Shared.Inv (s : Shared) : Prop where
  positive : ∀ o ∈ s.orders, ∀ ingredient ∈ o.item.Ingredients, 0 < ingredient.Quantity
  reserved_eq : ∀ id, s.machine.reserved id = s.held id
  owed_le : ∀ id, s.owed id ≤ s.machine.available id
  stocked : ∀ o ∈ s.orders, ∀ ingredient ∈ o.owed, s.machine.stocked ingredient.ID = true

/-- Every available quantity and every reserved counter of the machine lies
between 0 and `math.MaxInt`. -/
def coffeeMachineImpl.Bounded (c : coffeeMachineImpl) : Prop :=
  ∀ id, (0 ≤ c.available id ∧ c.available id ≤ GoInt.MaxInt) ∧
    (0 ≤ c.reserved id ∧ c.reserved id ≤ GoInt.MaxInt)

/-! ### Interleaved orders on machine integers

The same transitions with the arithmetic of the two stores, and the
subtraction in the test of `reserveIngredientIfPossible`, wrapping around. -/

namespace wrapping

/-- `reserveIngredientIfPossible` on machine integers. -/
def reserveIngredientIfPossible (c : coffeeMachineImpl) (toReserveIngredient : Ingredient) :
    coffeeMachineImpl × Option Error :=
  let c1 := (getOrCreateMutex c toReserveIngredient).1
  match resourcemanager.GetIngredient c1.resourceManager
      { IngredientID := toReserveIngredient.ID } with
  | .error err => (c1, some err)
  | .ok availableIngredient =>
    match reservationmanager.Get c1.reservationManager
        { IngredientID := toReserveIngredient.ID } with
    | .error err => (c1, some err)
    | .ok reservedIngredient =>
      if GoInt.wrap (availableIngredient.Quantity - reservedIngredient.Quantity)
          ≥ toReserveIngredient.Quantity then
        match reservationmanager.wrapping.Create c1.reservationManager
            { IngredientID := toReserveIngredient.ID
              ReserveQuantity := toReserveIngredient.Quantity } with
        | (r1, some err) => ({ c1 with reservationManager := r1 }, some err)
        | (r1, none) => ({ c1 with reservationManager := r1 }, none)
      else if availableIngredient.Quantity ≥ toReserveIngredient.Quantity then
        (c1, some (.ErrResourceTemporarilyNotAvailable toReserveIngredient.ID))
      else
        (c1, some (.ErrInsufficientResource toReserveIngredient.ID))

/-- The body of the loop of `deleteReservations` on machine integers. -/
def deleteReservation (c : coffeeMachineImpl) (ingredient : Ingredient) :
    coffeeMachineImpl × Option Error :=
  let c1 := (getOrCreateMutex c ingredient).1
  match reservationmanager.wrapping.Delete c1.reservationManager
      { IngredientID := ingredient.ID, DeleteQuantity := ingredient.Quantity } with
  | (r1, err) => ({ c1 with reservationManager := r1 }, err)

/-- `consumeIngredient` on machine integers. -/
def consumeIngredient (c : coffeeMachineImpl) (ingredient : Ingredient) :
    coffeeMachineImpl × Option Error :=
  let c1 := (getOrCreateMutex c ingredient).1
  match resourcemanager.wrapping.UpdateIngredient c1.resourceManager
      { IngredientID := ingredient.ID
        UpdateType := resourcemanager.UpdateTypeConsume
        ResourceQuantity := ingredient.Quantity } with
  | (m1, .error err) => ({ c1 with resourceManager := m1 }, some err)
  | (m1, .ok _) => ({ c1 with resourceManager := m1 }, none)

/-- `Refill` on machine integers. -/
def Refill (c : coffeeMachineImpl) (ingredient : Ingredient) :
    coffeeMachineImpl × Option Error :=
  let c1 := (getOrCreateMutex c ingredient).1
  match resourcemanager.wrapping.UpdateIngredient c1.resourceManager
      { IngredientID := ingredient.ID
        UpdateType := resourcemanager.UpdateTypeRefill
        ResourceQuantity := ingredient.Quantity } with
  | (m1, .error err) => ({ c1 with resourceManager := m1 }, some err)
  | (m1, .ok _) => ({ c1 with resourceManager := m1 }, none)

/-- The next atomic transition of an order in flight, on machine integers. -/
def stepOrder (c : coffeeMachineImpl) (o : Order) : coffeeMachineImpl × Order :=
  match o.phase with
  | .reserving idx =>
    match o.item.Ingredients[idx]? with
    | none => (c, { o with phase := .consuming 0 })
    | some ingredient =>
      match reserveIngredientIfPossible c ingredient with
      | (c1, some err) => (c1, { o with phase := .deleting idx 0 (some err) })
      | (c1, none) => (c1, { o with phase := .reserving (idx + 1) })
  | .consuming idx =>
    match o.item.Ingredients[idx]? with
    | none => (c, { o with phase := .deleting o.item.Ingredients.length 0 none })
    | some ingredient =>
      match consumeIngredient c ingredient with
      | (c1, some err) =>
        (c1, { o with phase := .deleting o.item.Ingredients.length 0 (some err) })
      | (c1, none) => (c1, { o with phase := .consuming (idx + 1) })
  | .deleting reservedItemsIdx idx err =>
    match (o.item.Ingredients.take reservedItemsIdx)[idx]? with
    | none => (c, { o with phase := .done err })
    | some ingredient =>
      match deleteReservation c ingredient with
      | (c1, some deleteErr) => (c1, { o with phase := .done (some deleteErr) })
      | (c1, none) => (c1, { o with phase := .deleting reservedItemsIdx (idx + 1) err })
  | .done _ => (c, o)

/-- The effect of one event, on machine integers. -/
def applyEvent (s : Shared) : Event → Shared
  | .step i =>
    match s.orders[i]? with
    | none => s
    | some o =>
      { machine := (stepOrder s.machine o).1, orders := s.orders.set i (stepOrder s.machine o).2 }
  | .submit item =>
    { s with orders := s.orders ++ [{ item := item, phase := .reserving 0 }] }
  | .refill ingredient => { s with machine := (Refill s.machine ingredient).1 }

/-- The state after a sequence of events, in any interleaving, on machine
integers. -/
def runEvents (s : Shared) (events : List Event) : Shared :=
  events.foldl applyEvent s

/-- No refill of the sequence of events, run from the state `s` on, takes the
available quantity of its ingredient beyond `math.MaxInt`. -/
def refillsFit (s : Shared) : List Event → Bool
  | [] => true
  | .step i :: events => refillsFit (applyEvent s (.step i)) events
  | .submit item :: events => refillsFit (applyEvent s (.submit item)) events
  | .refill ingredient :: events =>
    decide (s.machine.available ingredient.ID + ingredient.Quantity ≤ GoInt.MaxInt) &&
      refillsFit (applyEvent s (.refill ingredient)) events

end wrapping

/-! ### `PourDrinks` and its workers

`PourDrinks` is modelled as a transition system: the main goroutine and the
worker goroutines take turns in any order, and a goroutine that would block
on a channel or on the wait group has no transition.  The two channels are
queues; `inputCh` has capacity 5 and `result` has capacity `len(items)`.  The
call `c.pourDrink(ctx, item)` is one transition of its worker: the response
carries the worker's item whatever the other workers do meanwhile, which is
all the statements about `PourDrinks` use. -/

/-- The capacity of `inputCh`. -/
def inputChCap : Nat := 5

/-- A goroutine running `worker`: waiting to receive from `inputCh`, inside
`c.pourDrink(ctx, item)`, about to send the response on `result`, or past the
end of its loop (after `wg.Done()`). -/
inductive Worker where
  | receiving
  | pouring (item : Item)
  | sending (resp : GetItemResponse)
  | exited
  deriving DecidableEq, Repr

/-- Where the goroutine running `PourDrinks` stands: in the loop that starts
the workers, in the loop that sends the items (with the items still to send),
at `wg.Wait()` after `close(inputCh)`, or returned after `close(result)`. -/
inductive MainPc where
  | spawning (i : Nat)
  | sending (rest : List Item)
  | waiting
  | returned
  deriving DecidableEq, Repr

/-- The state of a call of `PourDrinks`. -/
structure Pool where
  machine : coffeeMachineImpl
  items : List Item
  main : MainPc
  inputCh : List Item
  inputClosed : Bool
  result : List GetItemResponse
  resultClosed : Bool
  workers : List Worker
  deriving DecidableEq, Repr

/-- The state in which `PourDrinks` is entered. -/
def Pool.init (c : coffeeMachineImpl) (items : List Item) : Pool :=
  { machine := c, items := items, main := .spawning 0, inputCh := [], inputClosed := false,
    result := [], resultClosed := false, workers := [] }

/-- The goroutine that takes the next turn. -/
inductive Turn where
  | main
  | worker (w : Nat)
  deriving DecidableEq, Repr

/-- The next transition of the main goroutine, `none` when it is blocked or
has returned. -/
def Pool.stepMain (s : Pool) : Option Pool :=
  match s.main with
  | .spawning i =>
    if (i : Int) < s.machine.numOfOutlets then
      some { s with workers := s.workers ++ [Worker.receiving], main := .spawning (i + 1) }
    else
      some { s with main := .sending s.items }
  | .sending (item :: rest) =>
    if s.inputCh.length < inputChCap then
      some { s with inputCh := s.inputCh ++ [item], main := .sending rest }
    else none
  | .sending [] => some { s with inputClosed := true, main := .waiting }
  | .waiting =>
    if s.workers.all (fun w => decide (w = Worker.exited)) then
      some { s with resultClosed := true, main := .returned }
    else none
  | .returned => none

/-- The next transition of worker `w`, `none` when it is blocked or has
exited. -/
def Pool.stepWorker (s : Pool) (w : Nat) : Option Pool :=
  match s.workers[w]? with
  | none => none
  | some .receiving =>
    match s.inputCh with
    | item :: rest =>
      some { s with inputCh := rest, workers := s.workers.set w (.pouring item) }
    | [] =>
      if s.inputClosed then some { s with workers := s.workers.set w .exited }
      else none
  | some (.pouring item) =>
    some { s with machine := (pourDrink s.machine item).1,
                  workers := s.workers.set w (.sending (pourDrink s.machine item).2) }
  | some (.sending resp) =>
    if s.result.length < s.items.length then
      some { s with result := s.result ++ [resp], workers := s.workers.set w .receiving }
    else none
  | some .exited => none

/-- One turn. -/
def Pool.step (s : Pool) : Turn → Option Pool
  | .main => s.stepMain
  | .worker w => s.stepWorker w

/-- A schedule: the turns taken one after the other; `none` when a goroutine
is given a turn it cannot take. -/
def Pool.run (s : Pool) : List Turn → Option Pool
  | [] => some s
  | t :: schedule =>
    match s.step t with
    | none => none
    | some s1 => s1.run schedule

/-- The item a worker holds. -/
def Worker.holds : Worker → List Item
  | .receiving => []
  | .pouring item => [item]
  | .sending resp => [resp.Item]
  | .exited => []

/-- The items the main goroutine has still to send. -/
def MainPc.toSend (items : List Item) : MainPc → List Item
  | .spawning _ => items
  | .sending rest => rest
  | .waiting => []
  | .returned => []

/-- The items of a call that are on their way: answered, held by a worker,
queued in `inputCh`, or still to send. -/
def Pool.inFlight (s : Pool) : List Item :=
  s.result.map (fun r => r.Item) ++ (s.workers.map Worker.holds).flatten
    ++ s.inputCh ++ s.main.toSend s.items

/-- The number of turns a worker can still take on its own account. -/
def Worker.weight : Worker → Nat
  | .receiving => 1
  | .pouring _ => 3
  | .sending _ => 2
  | .exited => 0

/-- A bound on the number of turns left. -/
def Pool.measure (s : Pool) : Nat :=
  (match s.main with
    | .spawning i => 2 * (s.machine.numOfOutlets.toNat - i) + 4 * s.items.length + 3
    | .sending rest => 4 * rest.length + 2
    | .waiting => 1
    | .returned => 0)
  + 3 * s.inputCh.length + (s.workers.map Worker.weight).sum

/-- The invariant of `PourDrinks`: every item of the batch is in exactly one
place; `inputCh` is closed exactly when the main goroutine is past its sending
loop; a worker has exited only if `inputCh` is closed and drained; the main
goroutine has returned only if every worker has exited and `result` is
closed; and the workers started are those the spawning loop has reached. -/
structure Pool.Inv (s : Pool) : Prop where
  perm : s.inFlight.Perm s.items
  closed_iff : s.inputClosed = true ↔ (s.main = .waiting ∨ s.main = .returned)
  drained : Worker.exited ∈ s.workers → s.inputCh = [] ∧ s.inputClosed = true
  returned : s.main = .returned → (∀ w ∈ s.workers, w = Worker.exited) ∧ s.resultClosed = true
  spawning : ∀ i, s.main = .spawning i →
    s.workers.length = i ∧ i ≤ s.machine.numOfOutlets.toNat
  spawned : (∀ i, s.main ≠ .spawning i) → s.workers.length = s.machine.numOfOutlets.toNat

end vendingmachine

/-! # Theorems -/

/-! ## Go maps -/

namespace GoMap

@[simp] theorem commaOk_assign (m : GoMap) (k k1 : String) (v : Int) :
    commaOk (assign m k v) k1 = if k = k1 then some v else commaOk m k1 := by
  induction m with
  | nil => simp [assign, commaOk]
  | cons p m ih =>
    obtain ⟨a, w⟩ := p
    by_cases h : a = k
    · subst h
      by_cases h1 : a = k1 <;> simp [assign, commaOk, h1]
    · by_cases h1 : a = k1
      · subst h1
        have : ¬ k = a := fun e => h e.symm
        simp [assign, commaOk, h, this]
      · simp [assign, commaOk, h, h1, ih]

@[simp] theorem index_assign (m : GoMap) (k k1 : String) (v : Int) :
    index (assign m k v) k1 = if k = k1 then v else index m k1 := by
  unfold index
  rw [commaOk_assign]
  by_cases h : k = k1 <;> simp [h]

theorem total_assign (m : GoMap) (k : String) (v : Int) :
    total (assign m k v) = total m - index m k + v := by
  induction m with
  | nil => simp [assign, total, index, commaOk]
  | cons p m ih =>
    obtain ⟨a, w⟩ := p
    by_cases h : a = k
    · simp [assign, total, index, commaOk, h]
      ring
    · simp only [assign, h, if_false]
      have h1 : total ((a, w) :: assign m k v) = w + total (assign m k v) := by
        simp [total]
      have h2 : total ((a, w) :: m) = w + total m := by simp [total]
      have h3 : index ((a, w) :: m) k = index m k := by simp [index, commaOk, h]
      rw [h1, h2, h3, ih]; ring

theorem index_eq_of_commaOk {m : GoMap} {k : String} {v : Int}
    (h : commaOk m k = some v) : index m k = v := by
  simp [index, h]

end GoMap

/-! ## The sequential steps -/

namespace vendingmachine

@[simp] theorem getOrCreateMutex_resourceManager (c : coffeeMachineImpl) (i : Ingredient) :
    (getOrCreateMutex c i).1.resourceManager = c.resourceManager := by
  unfold getOrCreateMutex
  split <;> rfl

@[simp] theorem getOrCreateMutex_reservationManager (c : coffeeMachineImpl) (i : Ingredient) :
    (getOrCreateMutex c i).1.reservationManager = c.reservationManager := by
  unfold getOrCreateMutex
  split <;> rfl

theorem getOrCreateMutex_mk (c : coffeeMachineImpl) (i : Ingredient) :
    ({ resourceManager := c.resourceManager
       reservationManager := c.reservationManager
       numOfOutlets := (getOrCreateMutex c i).1.numOfOutlets
       mutexesMap := (getOrCreateMutex c i).1.mutexesMap } : coffeeMachineImpl)
      = (getOrCreateMutex c i).1 := by
  unfold getOrCreateMutex
  split <;> rfl

@[simp] theorem required_nil (id : String) : required [] id = 0 := rfl

@[simp] theorem required_cons (i : Ingredient) (l : List Ingredient) (id : String) :
    required (i :: l) id = (if i.ID = id then i.Quantity else 0) + required l id := by
  simp [required]

theorem required_nonneg {l : List Ingredient} (h : ∀ i ∈ l, 0 ≤ i.Quantity) (id : String) :
    0 ≤ required l id := by
  induction l with
  | nil => simp
  | cons i l ih =>
    have h1 : 0 ≤ i.Quantity := h i (List.mem_cons_self _ _)
    have h2 := ih (fun j hj => h j (List.mem_cons_of_mem _ hj))
    rw [required_cons]
    split <;> omega

theorem stocked_iff (c : coffeeMachineImpl) (id : String) :
    c.stocked id = true ↔ ∃ a, c.resourceManager.availableResources.commaOk id = some a := by
  unfold coffeeMachineImpl.stocked
  cases c.resourceManager.availableResources.commaOk id <;> simp

/-! ### `reserveIngredientIfPossible` -/

/-- The reserve step in closed form. -/
theorem reserve_eq (c : coffeeMachineImpl) (i : Ingredient) :
    reserveIngredientIfPossible c i =
      if c.stocked i.ID = true then
        if c.available i.ID - c.reserved i.ID ≥ i.Quantity then
          ({ (getOrCreateMutex c i).1 with
              reservationManager :=
                { reservations :=
                    c.reservationManager.reservations.assign i.ID
                      (c.reserved i.ID + i.Quantity) } }, none)
        else if c.available i.ID ≥ i.Quantity then
          ((getOrCreateMutex c i).1, some (.ErrResourceTemporarilyNotAvailable i.ID))
        else
          ((getOrCreateMutex c i).1, some (.ErrInsufficientResource i.ID))
      else
        ((getOrCreateMutex c i).1, some (.ErrResourceNotAvailable i.ID)) := by
  unfold coffeeMachineImpl.stocked coffeeMachineImpl.available coffeeMachineImpl.reserved
  unfold reserveIngredientIfPossible
  simp only [resourcemanager.GetIngredient, reservationmanager.Get, reservationmanager.Create,
    getOrCreateMutex_resourceManager, getOrCreateMutex_reservationManager]
  cases h : c.resourceManager.availableResources.commaOk i.ID with
  | none => simp
  | some a =>
    simp only [Option.isSome_some, if_true]

@[simp] theorem reserve_resourceManager (c : coffeeMachineImpl) (i : Ingredient) :
    (reserveIngredientIfPossible c i).1.resourceManager = c.resourceManager := by
  rw [reserve_eq]
  split_ifs <;> simp

theorem reserve_ok_iff (c : coffeeMachineImpl) (i : Ingredient) :
    (reserveIngredientIfPossible c i).2 = none ↔
      c.stocked i.ID = true ∧ c.available i.ID - c.reserved i.ID ≥ i.Quantity := by
  rw [reserve_eq]
  split_ifs <;> simp_all

theorem reserve_reserved_of_ok (c : coffeeMachineImpl) (i : Ingredient)
    (h : (reserveIngredientIfPossible c i).2 = none) (id : String) :
    (reserveIngredientIfPossible c i).1.reserved id =
      c.reserved id + (if i.ID = id then i.Quantity else 0) := by
  rw [reserve_eq] at h ⊢
  split_ifs at h ⊢ <;> simp_all [coffeeMachineImpl.reserved]

theorem reserve_reservationManager_of_fail (c : coffeeMachineImpl) (i : Ingredient)
    (h : (reserveIngredientIfPossible c i).2 ≠ none) :
    (reserveIngredientIfPossible c i).1.reservationManager = c.reservationManager := by
  rw [reserve_eq] at h ⊢
  split_ifs at h ⊢ <;> simp_all

/-! ### The deletion of one reservation -/

/-- The deletion step in closed form. -/
theorem delete_eq (c : coffeeMachineImpl) (i : Ingredient) :
    deleteReservation c i =
      if i.Quantity > c.reserved i.ID then
        ((getOrCreateMutex c i).1, some (.ErrInsufficientResource i.ID))
      else
        ({ (getOrCreateMutex c i).1 with
            reservationManager :=
              { reservations :=
                  c.reservationManager.reservations.assign i.ID
                    (c.reserved i.ID - i.Quantity) } }, none) := by
  unfold coffeeMachineImpl.reserved deleteReservation reservationmanager.Delete
  simp only [getOrCreateMutex_reservationManager]
  split_ifs
  · simp [getOrCreateMutex_mk]
  · rfl

@[simp] theorem delete_resourceManager (c : coffeeMachineImpl) (i : Ingredient) :
    (deleteReservation c i).1.resourceManager = c.resourceManager := by
  rw [delete_eq]
  split_ifs <;> simp

theorem delete_ok_iff (c : coffeeMachineImpl) (i : Ingredient) :
    (deleteReservation c i).2 = none ↔ i.Quantity ≤ c.reserved i.ID := by
  rw [delete_eq]
  split_ifs with h
  · simp only [reduceCtorEq, false_iff]; omega
  · simp only [true_iff]; omega

theorem delete_reserved_of_ok (c : coffeeMachineImpl) (i : Ingredient)
    (h : (deleteReservation c i).2 = none) (id : String) :
    (deleteReservation c i).1.reserved id =
      c.reserved id - (if i.ID = id then i.Quantity else 0) := by
  rw [delete_eq] at h ⊢
  split_ifs at h ⊢ <;> simp_all [coffeeMachineImpl.reserved]

theorem delete_reservationManager_of_fail (c : coffeeMachineImpl) (i : Ingredient)
    (h : (deleteReservation c i).2 ≠ none) :
    (deleteReservation c i).1.reservationManager = c.reservationManager := by
  rw [delete_eq] at h ⊢
  split_ifs at h ⊢ <;> simp_all

/-! ### `consumeIngredient` -/

/-- The consume step in closed form. -/
theorem consume_eq (c : coffeeMachineImpl) (i : Ingredient) :
    consumeIngredient c i =
      if c.stocked i.ID = true ∧ i.Quantity ≤ c.available i.ID then
        ({ (getOrCreateMutex c i).1 with
            resourceManager :=
              { availableResources :=
                  c.resourceManager.availableResources.assign i.ID
                    (c.available i.ID - i.Quantity) } }, none)
      else
        ((getOrCreateMutex c i).1, some (.ErrResourceNotAvailable i.ID)) := by
  have h0 := getOrCreateMutex_mk c i
  unfold coffeeMachineImpl.stocked coffeeMachineImpl.available
  unfold consumeIngredient resourcemanager.UpdateIngredient
  simp only [getOrCreateMutex_resourceManager, resourcemanager.UpdateTypeConsume, if_true]
  cases h : c.resourceManager.availableResources.commaOk i.ID with
  | none => simp [h0]
  | some a =>
    have hidx := GoMap.index_eq_of_commaOk h
    simp only [Option.isSome_some, true_and, hidx]
    by_cases h1 : a < i.Quantity
    · have h2 : ¬ i.Quantity ≤ a := by omega
      simp [h1, h2, h0]
    · have h2 : i.Quantity ≤ a := by omega
      simp [h1, h2]

@[simp] theorem consume_reservationManager (c : coffeeMachineImpl) (i : Ingredient) :
    (consumeIngredient c i).1.reservationManager = c.reservationManager := by
  rw [consume_eq]
  split_ifs <;> simp

theorem consume_ok_iff (c : coffeeMachineImpl) (i : Ingredient) :
    (consumeIngredient c i).2 = none ↔
      c.stocked i.ID = true ∧ i.Quantity ≤ c.available i.ID := by
  rw [consume_eq]
  split_ifs with h <;> simp [h]

theorem consume_available_of_ok (c : coffeeMachineImpl) (i : Ingredient)
    (h : (consumeIngredient c i).2 = none) (id : String) :
    (consumeIngredient c i).1.available id =
      c.available id - (if i.ID = id then i.Quantity else 0) := by
  rw [consume_eq] at h ⊢
  split_ifs at h ⊢ <;> simp_all [coffeeMachineImpl.available]

theorem consume_total_of_ok (c : coffeeMachineImpl) (i : Ingredient)
    (h : (consumeIngredient c i).2 = none) :
    (consumeIngredient c i).1.totalAvailable = c.totalAvailable - i.Quantity := by
  rw [consume_eq] at h ⊢
  split_ifs at h ⊢
  · simp only [coffeeMachineImpl.totalAvailable, coffeeMachineImpl.available,
      GoMap.total_assign]
    ring

theorem consume_resourceManager_of_fail (c : coffeeMachineImpl) (i : Ingredient)
    (h : (consumeIngredient c i).2 ≠ none) :
    (consumeIngredient c i).1.resourceManager = c.resourceManager := by
  rw [consume_eq] at h ⊢
  split_ifs at h ⊢ <;> simp_all

theorem consume_stocked (c : coffeeMachineImpl) (i : Ingredient) (id : String) :
    (consumeIngredient c i).1.stocked id = c.stocked id := by
  rw [consume_eq]
  split_ifs with h
  · simp only [coffeeMachineImpl.stocked, GoMap.commaOk_assign]
    by_cases h1 : i.ID = id
    · subst h1
      simp only [if_true, Option.isSome_some]
      exact h.1.symm
    · simp [h1]
  · simp [coffeeMachineImpl.stocked]

/-! ### The loops of `attemptPouringDrink` -/

@[simp] theorem reserveLoop_resourceManager (c : coffeeMachineImpl) (l : List Ingredient)
    (k : Nat) : (reserveLoop c l k).1.resourceManager = c.resourceManager := by
  induction l generalizing c k with
  | nil => rfl
  | cons i l ih =>
    unfold reserveLoop
    cases h : reserveIngredientIfPossible c i with
    | mk c1 e =>
      have h1 : c1.resourceManager = c.resourceManager := by
        have := reserve_resourceManager c i
        rw [h] at this
        exact this
      cases e with
      | none => simp only []; rw [ih, h1]
      | some err => exact h1

theorem reserveLoop_reserved_of_ok (c : coffeeMachineImpl) (l : List Ingredient) (k : Nat)
    (h : (reserveLoop c l k).2 = none) (id : String) :
    (reserveLoop c l k).1.reserved id = c.reserved id + required l id := by
  induction l generalizing c k with
  | nil => simp [reserveLoop]
  | cons i l ih =>
    unfold reserveLoop at h ⊢
    have h2 := reserve_reserved_of_ok c i
    cases hr : reserveIngredientIfPossible c i with
    | mk c1 e =>
      rw [hr] at h h2
      cases e with
      | none =>
        simp only [] at h ⊢
        rw [ih c1 (k + 1) h, h2 rfl id, required_cons]
        ring
      | some err => simp at h

theorem reserveLoop_reserved_of_fail (c : coffeeMachineImpl) (l : List Ingredient) (k : Nat)
    (idx : Nat) (err : Error) (h : (reserveLoop c l k).2 = some (idx, err)) :
    k ≤ idx ∧ idx < k + l.length ∧
      ∀ id, (reserveLoop c l k).1.reserved id = c.reserved id + required (l.take (idx - k)) id := by
  induction l generalizing c k with
  | nil => simp [reserveLoop] at h
  | cons i l ih =>
    unfold reserveLoop at h ⊢
    have h2 := reserve_reserved_of_ok c i
    have h3 := reserve_reservationManager_of_fail c i
    cases hr : reserveIngredientIfPossible c i with
    | mk c1 e =>
      rw [hr] at h h2 h3
      cases e with
      | none =>
        simp only [] at h ⊢
        obtain ⟨hk, hlt, hres⟩ := ih c1 (k + 1) h
        refine ⟨by omega, by simp only [List.length_cons]; omega, fun id => ?_⟩
        have e1 : idx - k = (idx - (k + 1)) + 1 := by omega
        rw [hres id, h2 rfl id, e1, List.take_succ_cons, required_cons]
        ring
      | some err1 =>
        simp only [Option.some.injEq, Prod.mk.injEq] at h
        obtain ⟨hk, _⟩ := h
        subst hk
        refine ⟨le_refl _, by simp, fun id => ?_⟩
        have : c1.reservationManager = c.reservationManager := h3 (by simp)
        simp [coffeeMachineImpl.reserved, this]

@[simp] theorem deleteReservations_resourceManager (c : coffeeMachineImpl)
    (l : List Ingredient) : (deleteReservations c l).1.resourceManager = c.resourceManager := by
  induction l generalizing c with
  | nil => rfl
  | cons i l ih =>
    unfold deleteReservations
    have h1 := delete_resourceManager c i
    cases h : deleteReservation c i with
    | mk c1 e =>
      rw [h] at h1
      cases e with
      | none => simp only []; rw [ih, h1]
      | some err => exact h1

/-- Deleting reservations whose per-ingredient totals are covered by the
reserved counters succeeds and subtracts exactly those totals. -/
theorem deleteReservations_ok (c : coffeeMachineImpl) (l : List Ingredient)
    (hq : ∀ i ∈ l, 0 ≤ i.Quantity) (hcov : ∀ id, required l id ≤ c.reserved id) :
    (deleteReservations c l).2 = none ∧
      ∀ id, (deleteReservations c l).1.reserved id = c.reserved id - required l id := by
  induction l generalizing c with
  | nil => simp [deleteReservations]
  | cons i l ih =>
    have hq0 : 0 ≤ i.Quantity := hq i (List.mem_cons_self _ _)
    have hql : ∀ j ∈ l, 0 ≤ j.Quantity := fun j hj => hq j (List.mem_cons_of_mem _ hj)
    have hok : (deleteReservation c i).2 = none := by
      rw [delete_ok_iff]
      have h1 := hcov i.ID
      have h2 := required_nonneg hql i.ID
      rw [required_cons] at h1
      simp only [if_true] at h1
      omega
    have hres := delete_reserved_of_ok c i hok
    unfold deleteReservations
    cases hd : deleteReservation c i with
    | mk c1 e =>
      rw [hd] at hok hres
      simp only [] at hok hres
      subst hok
      simp only []
      have hcov1 : ∀ id, required l id ≤ c1.reserved id := by
        intro id
        have h1 := hcov id
        rw [required_cons] at h1
        rw [hres id]
        omega
      obtain ⟨h1, h2⟩ := ih c1 hql hcov1
      refine ⟨h1, fun id => ?_⟩
      rw [h2 id, hres id, required_cons]
      ring

@[simp] theorem consumeLoop_reservationManager (c : coffeeMachineImpl)
    (l : List Ingredient) : (consumeLoop c l).1.reservationManager = c.reservationManager := by
  induction l generalizing c with
  | nil => rfl
  | cons i l ih =>
    unfold consumeLoop
    have h1 := consume_reservationManager c i
    cases h : consumeIngredient c i with
    | mk c1 e =>
      rw [h] at h1
      cases e with
      | none => simp only []; rw [ih, h1]
      | some err => exact h1

/-- Consuming requirements of stocked ingredients whose per-ingredient totals
are covered by the available quantities succeeds and subtracts exactly those
totals. -/
theorem consumeLoop_ok (c : coffeeMachineImpl) (l : List Ingredient)
    (hq : ∀ i ∈ l, 0 ≤ i.Quantity)
    (hcov : ∀ i ∈ l, c.stocked i.ID = true ∧ required l i.ID ≤ c.available i.ID) :
    (consumeLoop c l).2 = none ∧
      (∀ id, (consumeLoop c l).1.available id = c.available id - required l id) ∧
      (consumeLoop c l).1.totalAvailable = c.totalAvailable - totalRequired l := by
  induction l generalizing c with
  | nil => simp [consumeLoop, totalRequired]
  | cons i l ih =>
    have hq0 : 0 ≤ i.Quantity := hq i (List.mem_cons_self _ _)
    have hql : ∀ j ∈ l, 0 ≤ j.Quantity := fun j hj => hq j (List.mem_cons_of_mem _ hj)
    have hok : (consumeIngredient c i).2 = none := by
      rw [consume_ok_iff]
      obtain ⟨h0, h1⟩ := hcov i (List.mem_cons_self _ _)
      have h2 := required_nonneg hql i.ID
      rw [required_cons] at h1
      simp only [if_true] at h1
      exact ⟨h0, by omega⟩
    have hav := consume_available_of_ok c i hok
    have htot := consume_total_of_ok c i hok
    have hst := consume_stocked c i
    unfold consumeLoop
    cases hd : consumeIngredient c i with
    | mk c1 e =>
      rw [hd] at hok hav htot hst
      simp only [] at hok hav htot hst
      subst hok
      simp only []
      have hcov1 : ∀ j ∈ l, c1.stocked j.ID = true ∧ required l j.ID ≤ c1.available j.ID := by
        intro j hj
        obtain ⟨h0, h1⟩ := hcov j (List.mem_cons_of_mem _ hj)
        rw [required_cons] at h1
        rw [hst j.ID, hav j.ID]
        exact ⟨h0, by omega⟩
      obtain ⟨h1, h2, h3⟩ := ih c1 hql hcov1
      refine ⟨h1, fun id => ?_, ?_⟩
      · rw [h2 id, hav id, required_cons]
        ring
      · rw [h3, htot]
        simp only [totalRequired, List.map_cons, List.sum_cons]
        ring

/-! ### `attemptPouringDrink` -/

/-- When the deferred function starts, the reserved counters exceed their
initial values by exactly the requirements before `reservedItemsIdx`. -/
theorem attemptBody_reserved (c : coffeeMachineImpl) (item : Item) (id : String) :
    (attemptBody c item).1.reserved id =
      c.reserved id + required (item.Ingredients.take (attemptBody c item).2.1) id := by
  unfold attemptBody
  cases hr : reserveLoop c item.Ingredients 0 with
  | mk c1 e =>
    cases e with
    | none =>
      have h := reserveLoop_reserved_of_ok c item.Ingredients 0 (by rw [hr]) id
      rw [hr] at h
      simp only [List.take_length]
      rw [← h]
      simp [coffeeMachineImpl.reserved]
    | some p =>
      obtain ⟨idx, err⟩ := p
      have h := (reserveLoop_reserved_of_fail c item.Ingredients 0 idx err (by rw [hr])).2.2 id
      rw [hr] at h
      simpa using h

/-- With non-negative reserved counters and non-negative quantities the
deferred deletion succeeds: the attempt returns the error of its two loops,
the reserved counters are back at their initial values and the inventory is
the one the two loops left. -/
theorem attemptPouringDrink_cleanup (c : coffeeMachineImpl) (item : Item)
    (hres : ∀ id, 0 ≤ c.reserved id) (hq : ∀ i ∈ item.Ingredients, 0 ≤ i.Quantity) :
    (attemptPouringDrink c item).2 = (attemptBody c item).2.2 ∧
      (∀ id, (attemptPouringDrink c item).1.reserved id = c.reserved id) ∧
      (attemptPouringDrink c item).1.resourceManager = (attemptBody c item).1.resourceManager := by
  have hb := attemptBody_reserved c item
  unfold attemptPouringDrink
  cases hbody : attemptBody c item with
  | mk c1 p =>
    obtain ⟨reservedItemsIdx, err⟩ := p
    rw [hbody] at hb
    simp only [] at hb ⊢
    have hq1 : ∀ i ∈ item.Ingredients.take reservedItemsIdx, 0 ≤ i.Quantity :=
      fun i hi => hq i (List.mem_of_mem_take hi)
    have hcov : ∀ id, required (item.Ingredients.take reservedItemsIdx) id ≤ c1.reserved id := by
      intro id
      have := hres id
      rw [hb id]
      omega
    obtain ⟨h1, h2⟩ := deleteReservations_ok c1 _ hq1 hcov
    have h3 := deleteReservations_resourceManager c1 (item.Ingredients.take reservedItemsIdx)
    cases hd : deleteReservations c1 (item.Ingredients.take reservedItemsIdx) with
    | mk c2 e =>
      rw [hd] at h1 h2 h3
      simp only [] at h1 h2 h3
      subst h1
      refine ⟨rfl, fun id => ?_, h3⟩
      simp only []
      rw [h2 id, hb id]
      ring

theorem required_ge_of_mem {l : List Ingredient} (h : ∀ i ∈ l, 0 ≤ i.Quantity)
    {i : Ingredient} (hi : i ∈ l) : i.Quantity ≤ required l i.ID := by
  induction l with
  | nil => simp at hi
  | cons j l ih =>
    have hj : 0 ≤ j.Quantity := h j (List.mem_cons_self _ _)
    have hl : ∀ x ∈ l, 0 ≤ x.Quantity := fun x hx => h x (List.mem_cons_of_mem _ hx)
    rw [required_cons]
    rcases List.mem_cons.mp hi with rfl | hmem
    · have := required_nonneg hl i.ID
      simp only [if_true]
      omega
    · have := ih hl hmem
      split <;> omega

theorem stocked_of_available_pos (c : coffeeMachineImpl) (id : String)
    (h : 0 < c.available id) : c.stocked id = true := by
  unfold coffeeMachineImpl.available GoMap.index at h
  unfold coffeeMachineImpl.stocked
  cases hc : c.resourceManager.availableResources.commaOk id with
  | none => rw [hc] at h; simp at h
  | some a => rfl

/-- The reserve loop succeeds when every requirement names a stocked
ingredient whose free quantity covers the list's total for that ingredient. -/
theorem reserveLoop_ok_of (c : coffeeMachineImpl) (l : List Ingredient) (k : Nat)
    (hq : ∀ i ∈ l, 0 ≤ i.Quantity)
    (hsat : ∀ i ∈ l, c.stocked i.ID = true ∧
      c.available i.ID - c.reserved i.ID ≥ required l i.ID) :
    (reserveLoop c l k).2 = none := by
  induction l generalizing c k with
  | nil => rfl
  | cons i l ih =>
    have hq0 : 0 ≤ i.Quantity := hq i (List.mem_cons_self _ _)
    have hql : ∀ j ∈ l, 0 ≤ j.Quantity := fun j hj => hq j (List.mem_cons_of_mem _ hj)
    have hok : (reserveIngredientIfPossible c i).2 = none := by
      rw [reserve_ok_iff]
      obtain ⟨h0, h1⟩ := hsat i (List.mem_cons_self _ _)
      have h2 := required_nonneg hql i.ID
      rw [required_cons] at h1
      simp only [if_true] at h1
      exact ⟨h0, by omega⟩
    have hres := reserve_reserved_of_ok c i hok
    have hrm := reserve_resourceManager c i
    unfold reserveLoop
    cases hd : reserveIngredientIfPossible c i with
    | mk c1 e =>
      rw [hd] at hok hres hrm
      simp only [] at hok hres hrm
      subst hok
      simp only []
      apply ih c1 (k + 1) hql
      intro j hj
      obtain ⟨h0, h1⟩ := hsat j (List.mem_cons_of_mem _ hj)
      rw [required_cons] at h1
      have e1 : c1.stocked j.ID = c.stocked j.ID := by simp [coffeeMachineImpl.stocked, hrm]
      have e2 : c1.available j.ID = c.available j.ID := by
        simp [coffeeMachineImpl.available, hrm]
      rw [e1, e2, hres j.ID]
      exact ⟨h0, by omega⟩

theorem reserveLoop_append (c : coffeeMachineImpl) (pre rest : List Ingredient) (k : Nat) :
    reserveLoop c (pre ++ rest) k =
      if (reserveLoop c pre k).2 = none then
        reserveLoop (reserveLoop c pre k).1 rest (k + pre.length)
      else reserveLoop c pre k := by
  induction pre generalizing c k with
  | nil => simp [reserveLoop]
  | cons i pre ih =>
    simp only [List.cons_append, List.length_cons]
    cases hd : reserveIngredientIfPossible c i with
    | mk c1 e =>
      cases e with
      | none =>
        have e1 : ∀ l, reserveLoop c (i :: l) k = reserveLoop c1 l (k + 1) := by
          intro l
          rw [reserveLoop, hd]
        have : k + 1 + pre.length = k + (pre.length + 1) := by omega
        rw [e1, e1, ih c1 (k + 1), this]
      | some err =>
        have e1 : ∀ l, reserveLoop c (i :: l) k = (c1, some (k, err)) := by
          intro l
          rw [reserveLoop, hd]
        rw [e1, e1]
        simp

/-- The reserve loop fails when some requirement asks for more than the
available quantity of its ingredient. -/
theorem reserveLoop_fail_of (c : coffeeMachineImpl) (l : List Ingredient) (k : Nat)
    (hres : ∀ id, 0 ≤ c.reserved id) (hq : ∀ i ∈ l, 0 ≤ i.Quantity)
    (i0 : Ingredient) (hi0 : i0 ∈ l) (hlack : i0.Quantity > c.available i0.ID) :
    (reserveLoop c l k).2 ≠ none := by
  induction l generalizing c k with
  | nil => simp at hi0
  | cons i l ih =>
    have hq0 : 0 ≤ i.Quantity := hq i (List.mem_cons_self _ _)
    have hql : ∀ j ∈ l, 0 ≤ j.Quantity := fun j hj => hq j (List.mem_cons_of_mem _ hj)
    have hiff := reserve_ok_iff c i
    have hres1 := reserve_reserved_of_ok c i
    have hrm := reserve_resourceManager c i
    unfold reserveLoop
    cases hd : reserveIngredientIfPossible c i with
    | mk c1 e =>
      rw [hd] at hiff hres1 hrm
      simp only [] at hiff hres1 hrm
      cases e with
      | some err => simp
      | none =>
        simp only []
        have hok := hiff.mp rfl
        rcases List.mem_cons.mp hi0 with rfl | hmem
        · have := hres i0.ID
          omega
        · apply ih c1 (k + 1) _ hql hmem
          · simpa [coffeeMachineImpl.available, hrm] using hlack
          · intro id
            have := hres id
            rw [hres1 rfl id]
            split <;> omega

theorem attemptBody_of_reserve_fail (c : coffeeMachineImpl) (item : Item)
    (h : (reserveLoop c item.Ingredients 0).2 ≠ none) :
    (attemptBody c item).2.2 ≠ none ∧
      (attemptBody c item).1.resourceManager = c.resourceManager := by
  have hrm := reserveLoop_resourceManager c item.Ingredients 0
  unfold attemptBody
  cases hr : reserveLoop c item.Ingredients 0 with
  | mk c1 e =>
    rw [hr] at h hrm
    cases e with
    | none => simp at h
    | some p => exact ⟨by simp, hrm⟩

/-- The retry loop does not succeed from a state in a set of states that is
closed under the retried function and on which the function fails. -/
theorem doLoop_not_succeeded {σ : Type} (f : σ → σ × Option Error) (rif : Error → Bool)
    (P : σ → Prop) (hP : ∀ s, P s → (f s).2 ≠ none ∧ P (f s).1)
    (n : Nat) (s : σ) (log : retry.Error) (hs : P s) :
    (retry.doLoop f rif n s log).succeeded = false := by
  induction n generalizing s log with
  | zero => rfl
  | succ n ih =>
    unfold retry.doLoop
    obtain ⟨h1, h2⟩ := hP s hs
    cases hf : f s with
    | mk s1 e =>
      rw [hf] at h1 h2
      cases e with
      | none => simp at h1
      | some err =>
        simp only []
        split
        · exact ih s1 _ h2
        · rfl

/-- A first attempt that succeeds is the only attempt `pourDrink` makes. -/
theorem pourDrinkRetry_of_ok (c : coffeeMachineImpl) (item : Item)
    (h : (attemptPouringDrink c item).2 = none) :
    pourDrinkRetry c item =
      { state := (attemptPouringDrink c item).1, errorLog := [], succeeded := true } := by
  unfold pourDrinkRetry retry.Do retry.doLoop
  cases ha : attemptPouringDrink c item with
  | mk c1 e =>
    rw [ha] at h
    simp only [] at h
    subst h
    rfl

/-- A first attempt that fails with an error that is not retried is the only
attempt `pourDrink` makes. -/
theorem pourDrinkRetry_of_fatal (c : coffeeMachineImpl) (item : Item) (err : Error)
    (h : (attemptPouringDrink c item).2 = some err) (hn : retryIf err = false) :
    pourDrinkRetry c item =
      { state := (attemptPouringDrink c item).1, errorLog := [err], succeeded := false } := by
  unfold pourDrinkRetry retry.Do retry.doLoop
  cases ha : attemptPouringDrink c item with
  | mk c1 e =>
    rw [ha] at h
    simp only [] at h
    subst h
    simp [hn]

/-- C1: for a stocked ingredient with available quantity `a`, reserved
quantity `r` and requirement `q`, `reserveIngredientIfPossible` is a three-way
decision: if `a - r ≥ q` it returns no error and the reserved counter becomes
`r + q`; otherwise, if `a ≥ q`, it returns `ErrResourceTemporarilyNotAvailable`
for the ingredient; otherwise it returns `ErrInsufficientResource` for the
ingredient; in both failing cases the two stores (so the reserved counter and
the available quantity) are unchanged. -/
theorem reserveIngredientIfPossible_three_way (c : coffeeMachineImpl)
    (toReserveIngredient : Ingredient) (a : Int)
    (hstocked : c.resourceManager.availableResources.commaOk toReserveIngredient.ID = some a) :
    (a - c.reservationManager.reservations.index toReserveIngredient.ID
        ≥ toReserveIngredient.Quantity →
      (reserveIngredientIfPossible c toReserveIngredient).2 = none ∧
      (reserveIngredientIfPossible c toReserveIngredient).1.reservationManager.reservations.index
          toReserveIngredient.ID
        = c.reservationManager.reservations.index toReserveIngredient.ID
          + toReserveIngredient.Quantity) ∧
    (¬ a - c.reservationManager.reservations.index toReserveIngredient.ID
        ≥ toReserveIngredient.Quantity → a ≥ toReserveIngredient.Quantity →
      (reserveIngredientIfPossible c toReserveIngredient).2 =
        some (Error.ErrResourceTemporarilyNotAvailable toReserveIngredient.ID) ∧
      (reserveIngredientIfPossible c toReserveIngredient).1.reservationManager
        = c.reservationManager ∧
      (reserveIngredientIfPossible c toReserveIngredient).1.resourceManager
        = c.resourceManager) ∧
    (¬ a - c.reservationManager.reservations.index toReserveIngredient.ID
        ≥ toReserveIngredient.Quantity → ¬ a ≥ toReserveIngredient.Quantity →
      (reserveIngredientIfPossible c toReserveIngredient).2 =
        some (Error.ErrInsufficientResource toReserveIngredient.ID) ∧
      (reserveIngredientIfPossible c toReserveIngredient).1.reservationManager
        = c.reservationManager ∧
      (reserveIngredientIfPossible c toReserveIngredient).1.resourceManager
        = c.resourceManager) := by
  have hidx := GoMap.index_eq_of_commaOk hstocked
  refine ⟨fun h => ?_, fun h h2 => ?_, fun h h2 => ?_⟩
  · simp [reserveIngredientIfPossible, resourcemanager.GetIngredient, reservationmanager.Get,
      reservationmanager.Create, hstocked, hidx, h]
  · simp [reserveIngredientIfPossible, resourcemanager.GetIngredient, reservationmanager.Get,
      reservationmanager.Create, hstocked, hidx, h, h2]
  · simp [reserveIngredientIfPossible, resourcemanager.GetIngredient, reservationmanager.Get,
      reservationmanager.Create, hstocked, hidx, h, h2]

/-- C1, witness: with 10 of water in stock and 3 reserved, reserving 6
succeeds and the reserved counter becomes 9. -/
theorem reserveIngredientIfPossible_three_way_witness :
    (New { ReservationManager := { reservations := [("water", 3)] }
           ResourceManager := { availableResources := [("water", 10)] }
           NumOfOutlets := 1 }).resourceManager.availableResources.commaOk "water" = some 10 ∧
    (reserveIngredientIfPossible
      (New { ReservationManager := { reservations := [("water", 3)] }
             ResourceManager := { availableResources := [("water", 10)] }
             NumOfOutlets := 1 })
      { ID := "water", Quantity := 6 }).1.reservationManager.reservations.index "water" = 9 :=
  ⟨by decide,
   ((reserveIngredientIfPossible_three_way
      (New { ReservationManager := { reservations := [("water", 3)] }
             ResourceManager := { availableResources := [("water", 10)] }
             NumOfOutlets := 1 })
      { ID := "water", Quantity := 6 } 10 (by decide)).1 (by decide)).2⟩

end vendingmachine

/-! ## The attempt as a whole -/

namespace vendingmachine

theorem index_nonneg_of_entries {m : GoMap} (h : ∀ p ∈ m, 0 ≤ p.2) (id : String) :
    0 ≤ GoMap.index m id := by
  induction m with
  | nil => simp [GoMap.index, GoMap.commaOk]
  | cons p m ih =>
    obtain ⟨k, v⟩ := p
    have hv : 0 ≤ v := h (k, v) (List.mem_cons_self _ _)
    have hm := ih (fun q hq => h q (List.mem_cons_of_mem _ hq))
    unfold GoMap.index at hm ⊢
    by_cases hk : k = id
    · simp [GoMap.commaOk, hk, hv]
    · simpa [GoMap.commaOk, hk] using hm

/-- C2, as stated, fails: with 10 of water in stock and nothing reserved,
each of the two requirements of the order `[water: 6, water: 6]` is covered by
`available - reserved`, yet the attempt fails and the order is not prepared.
The same happens with a negative reserved counter (5 in stock, -10 reserved,
10 required: the consume step fails) and with a requirement of 0 of an
ingredient that was never stocked. -/
theorem attemptPouringDrink_each_satisfiable_counterexample :
    ((∀ i ∈ [({ ID := "water", Quantity := 6 } : Ingredient), { ID := "water", Quantity := 6 }],
      (New { ReservationManager := { reservations := [] }
             ResourceManager := { availableResources := [("water", 10)] }
             NumOfOutlets := 1 }).available i.ID
        - (New { ReservationManager := { reservations := [] }
                 ResourceManager := { availableResources := [("water", 10)] }
                 NumOfOutlets := 1 }).reserved i.ID ≥ i.Quantity) ∧
    (attemptPouringDrink
      (New { ReservationManager := { reservations := [] }
             ResourceManager := { availableResources := [("water", 10)] }
             NumOfOutlets := 1 })
      { ID := "tea", Ingredients := [{ ID := "water", Quantity := 6 },
                                     { ID := "water", Quantity := 6 }] }).2
      = some (Error.ErrResourceTemporarilyNotAvailable "water") ∧
    (pourDrink
      (New { ReservationManager := { reservations := [] }
             ResourceManager := { availableResources := [("water", 10)] }
             NumOfOutlets := 1 })
      { ID := "tea", Ingredients := [{ ID := "water", Quantity := 6 },
                                     { ID := "water", Quantity := 6 }] }).2.Outcome
      = GetItemOutcome.GetItemOutcomeNotPrepared) ∧
    ((New { ReservationManager := { reservations := [("water", -10)] }
            ResourceManager := { availableResources := [("water", 5)] }
            NumOfOutlets := 1 }).available "water"
        - (New { ReservationManager := { reservations := [("water", -10)] }
                 ResourceManager := { availableResources := [("water", 5)] }
                 NumOfOutlets := 1 }).reserved "water" ≥ 10 ∧
    (attemptPouringDrink
      (New { ReservationManager := { reservations := [("water", -10)] }
             ResourceManager := { availableResources := [("water", 5)] }
             NumOfOutlets := 1 })
      { ID := "tea", Ingredients := [{ ID := "water", Quantity := 10 }] }).2
      = some (Error.ErrInsufficientResource "water")) ∧
    ((New { ReservationManager := { reservations := [] }
            ResourceManager := { availableResources := [] }
            NumOfOutlets := 1 }).available "water"
        - (New { ReservationManager := { reservations := [] }
                 ResourceManager := { availableResources := [] }
                 NumOfOutlets := 1 }).reserved "water" ≥ 0 ∧
    (attemptPouringDrink
      (New { ReservationManager := { reservations := [] }
             ResourceManager := { availableResources := [] }
             NumOfOutlets := 1 })
      { ID := "tea", Ingredients := [{ ID := "water", Quantity := 0 }] }).2
      = some (Error.ErrResourceNotAvailable "water")) := by
  decide

/-- C2, amended: for every store state with non-negative reserved counters
and every order with positive quantities in which, for each requirement, the
order's total required quantity of that ingredient is covered by
`available - reserved` at attempt time, a sequential `attemptPouringDrink`
returns no error, `pourDrink` makes that single attempt and its outcome is
PREPARED, and the total available inventory decreases by exactly the sum of
the order's required quantities. -/
theorem attemptPouringDrink_prepared (c : coffeeMachineImpl) (item : Item)
    (hres : ∀ id, 0 ≤ c.reserved id) (hq : ∀ i ∈ item.Ingredients, 0 < i.Quantity)
    (hsat : ∀ i ∈ item.Ingredients,
      c.available i.ID - c.reserved i.ID ≥ required item.Ingredients i.ID) :
    (attemptPouringDrink c item).2 = none ∧
      (pourDrink c item).1 = (attemptPouringDrink c item).1 ∧
      (pourDrink c item).2.Outcome = GetItemOutcome.GetItemOutcomePrepared ∧
      (attemptPouringDrink c item).1.totalAvailable
        = c.totalAvailable - totalRequired item.Ingredients := by
  have hq0 : ∀ i ∈ item.Ingredients, 0 ≤ i.Quantity := fun i hi => le_of_lt (hq i hi)
  have hst : ∀ i ∈ item.Ingredients, c.stocked i.ID = true := by
    intro i hi
    apply stocked_of_available_pos
    have h1 := hsat i hi
    have h2 := required_ge_of_mem hq0 hi
    have h3 := hq i hi
    have h4 := hres i.ID
    omega
  have hloop := reserveLoop_ok_of c item.Ingredients 0 hq0
    (fun i hi => ⟨hst i hi, hsat i hi⟩)
  have hrm := reserveLoop_resourceManager c item.Ingredients 0
  obtain ⟨hclean, -, hrm2⟩ := attemptPouringDrink_cleanup c item hres hq0
  have hbody : (attemptBody c item).2.2 = none ∧
      (attemptBody c item).1.totalAvailable
        = c.totalAvailable - totalRequired item.Ingredients := by
    unfold attemptBody
    cases hr : reserveLoop c item.Ingredients 0 with
    | mk c1 e =>
      rw [hr] at hloop hrm
      simp only [] at hloop hrm
      subst hloop
      simp only []
      have hcov : ∀ i ∈ item.Ingredients,
          c1.stocked i.ID = true ∧ required item.Ingredients i.ID ≤ c1.available i.ID := by
        intro i hi
        have e1 : c1.stocked i.ID = c.stocked i.ID := by simp [coffeeMachineImpl.stocked, hrm]
        have e2 : c1.available i.ID = c.available i.ID := by
          simp [coffeeMachineImpl.available, hrm]
        have h1 := hsat i hi
        have h4 := hres i.ID
        rw [e1, e2]
        exact ⟨hst i hi, by omega⟩
      obtain ⟨h1, -, h3⟩ := consumeLoop_ok c1 item.Ingredients hq0 hcov
      refine ⟨h1, ?_⟩
      rw [h3]
      simp [coffeeMachineImpl.totalAvailable, hrm]
  have hok : (attemptPouringDrink c item).2 = none := by rw [hclean]; exact hbody.1
  refine ⟨hok, ?_, ?_, ?_⟩
  · simp [pourDrink, pourDrinkRetry_of_ok c item hok]
  · simp [pourDrink, pourDrinkRetry_of_ok c item hok, retry.Outcome.err, toPourDrinkResponse]
  · rw [← hbody.2]
    simp [coffeeMachineImpl.totalAvailable, hrm2]

/-- C2, witness: tea and sugar from a stock that covers both. -/
theorem attemptPouringDrink_prepared_witness :
    (attemptPouringDrink
      (New { ReservationManager := { reservations := [("water", 1)] }
             ResourceManager := { availableResources := [("water", 10), ("sugar", 4)] }
             NumOfOutlets := 1 })
      { ID := "tea", Ingredients := [{ ID := "water", Quantity := 6 },
                                     { ID := "sugar", Quantity := 2 },
                                     { ID := "water", Quantity := 3 }] }).1.totalAvailable = 3 :=
  (attemptPouringDrink_prepared
      (New { ReservationManager := { reservations := [("water", 1)] }
             ResourceManager := { availableResources := [("water", 10), ("sugar", 4)] }
             NumOfOutlets := 1 })
      { ID := "tea", Ingredients := [{ ID := "water", Quantity := 6 },
                                     { ID := "sugar", Quantity := 2 },
                                     { ID := "water", Quantity := 3 }] }
      (fun id => index_nonneg_of_entries (by decide) id) (by decide) (by decide)).2.2.2

/-- C3, as stated, fails: milk and water are both stocked, 3 of the 5 milk
are reserved, and the order asks for 100 of water against a stock of 10; every
one of the three attempts fails at the milk with
`ErrResourceTemporarilyNotAvailable`, none with `ErrInsufficientResource`.
With a negative quantity the order is even prepared: `[water: -100, water: 50]`
against a stock of 10. -/
theorem pourDrink_insufficient_counterexample :
    ((100 : Int) >
      (New { ReservationManager := { reservations := [("milk", 3)] }
             ResourceManager := { availableResources := [("milk", 5), ("water", 10)] }
             NumOfOutlets := 1 }).available "water" ∧
    (pourDrinkRetry
      (New { ReservationManager := { reservations := [("milk", 3)] }
             ResourceManager := { availableResources := [("milk", 5), ("water", 10)] }
             NumOfOutlets := 1 })
      { ID := "latte", Ingredients := [{ ID := "milk", Quantity := 5 },
                                       { ID := "water", Quantity := 100 }] }).errorLog
      = [Error.ErrResourceTemporarilyNotAvailable "milk",
         Error.ErrResourceTemporarilyNotAvailable "milk",
         Error.ErrResourceTemporarilyNotAvailable "milk"]) ∧
    ((50 : Int) >
      (New { ReservationManager := { reservations := [] }
             ResourceManager := { availableResources := [("water", 10)] }
             NumOfOutlets := 1 }).available "water" ∧
    (pourDrink
      (New { ReservationManager := { reservations := [] }
             ResourceManager := { availableResources := [("water", 10)] }
             NumOfOutlets := 1 })
      { ID := "tea", Ingredients := [{ ID := "water", Quantity := -100 },
                                     { ID := "water", Quantity := 50 }] }).2.Outcome
      = GetItemOutcome.GetItemOutcomePrepared) := by
  decide

/-- C3, amended: for every store state with non-negative reserved counters
and every order with positive quantities that contains a requirement
`(id, q)` with `q` greater than the available stock of `id`, no attempt of
`pourDrink` succeeds and the outcome is NOT_PREPARED; if moreover `id` is
stocked and the reserve phase succeeds on the requirements before `(id, q)`,
`pourDrink` makes a single attempt, whose error is `ErrInsufficientResource`
for `id`, and the one rejection reason is the message of that error log. -/
theorem pourDrink_insufficient (c : coffeeMachineImpl) (item : Item)
    (hres : ∀ id, 0 ≤ c.reserved id) (hq : ∀ i ∈ item.Ingredients, 0 < i.Quantity)
    (i0 : Ingredient) (hi0 : i0 ∈ item.Ingredients)
    (hlack : i0.Quantity > c.available i0.ID) :
    (pourDrinkRetry c item).succeeded = false ∧
      (pourDrink c item).2.Outcome = GetItemOutcome.GetItemOutcomeNotPrepared ∧
      (∀ pre post, item.Ingredients = pre ++ i0 :: post → c.stocked i0.ID = true →
        (reserveLoop c pre 0).2 = none →
          (pourDrinkRetry c item).errorLog = [Error.ErrInsufficientResource i0.ID] ∧
          (pourDrink c item).2.RejectReasons =
            [{ RejectReasonMsg :=
                retry.Error.Error [Error.ErrInsufficientResource i0.ID] }]) := by
  have hq0 : ∀ i ∈ item.Ingredients, 0 ≤ i.Quantity := fun i hi => le_of_lt (hq i hi)
  have hfail : (pourDrinkRetry c item).succeeded = false := by
    unfold pourDrinkRetry retry.Do
    apply doLoop_not_succeeded _ _
      (fun s => (∀ id, 0 ≤ s.reserved id) ∧ i0.Quantity > s.available i0.ID) _ _ _ _
      ⟨hres, hlack⟩
    intro s hs
    obtain ⟨hs1, hs2⟩ := hs
    have hloop := reserveLoop_fail_of s item.Ingredients 0 hs1 hq0 i0 hi0 hs2
    obtain ⟨hb1, hb2⟩ := attemptBody_of_reserve_fail s item hloop
    obtain ⟨hc1, hc2, hc3⟩ := attemptPouringDrink_cleanup s item hs1 hq0
    refine ⟨by rw [hc1]; exact hb1, fun id => by rw [hc2 id]; exact hs1 id, ?_⟩
    simpa [coffeeMachineImpl.available, hc3, hb2] using hs2
  refine ⟨hfail, ?_, ?_⟩
  · simp [pourDrink, retry.Outcome.err, hfail, toPourDrinkResponse]
  · intro pre post hsplit hst hpre
    have hqpre : ∀ i ∈ pre, 0 ≤ i.Quantity := by
      intro i hi
      apply hq0
      rw [hsplit]
      exact List.mem_append_left _ hi
    have hrpre := reserveLoop_reserved_of_ok c pre 0 hpre i0.ID
    have hrmpre := reserveLoop_resourceManager c pre 0
    have hstep : reserveIngredientIfPossible (reserveLoop c pre 0).1 i0 =
        ((getOrCreateMutex (reserveLoop c pre 0).1 i0).1,
          some (Error.ErrInsufficientResource i0.ID)) := by
      have e1 : (reserveLoop c pre 0).1.stocked i0.ID = true := by
        simpa [coffeeMachineImpl.stocked, hrmpre] using hst
      have e2 : (reserveLoop c pre 0).1.available i0.ID = c.available i0.ID := by
        simp [coffeeMachineImpl.available, hrmpre]
      have h1 := hres i0.ID
      have h2 := required_nonneg hqpre i0.ID
      rw [reserve_eq, e1, e2, hrpre]
      have n1 : ¬ c.available i0.ID - (c.reserved i0.ID + required pre i0.ID)
          ≥ i0.Quantity := by omega
      have n2 : ¬ c.available i0.ID ≥ i0.Quantity := by omega
      simp [n1, n2]
    have hbody : (attemptBody c item).2.2 = some (Error.ErrInsufficientResource i0.ID) := by
      unfold attemptBody
      rw [hsplit, reserveLoop_append, if_pos hpre]
      unfold reserveLoop
      rw [hstep]
    have hatt : (attemptPouringDrink c item).2 = some (Error.ErrInsufficientResource i0.ID) := by
      rw [(attemptPouringDrink_cleanup c item hres hq0).1, hbody]
    have hretry := pourDrinkRetry_of_fatal c item _ hatt rfl
    refine ⟨by rw [hretry], ?_⟩
    simp [pourDrink, hretry, retry.Outcome.err, toPourDrinkResponse, GoError.Error]

/-- C3, witness: 100 of water asked against a stock of 10, after a milk
requirement that can be reserved. -/
theorem pourDrink_insufficient_witness :
    (pourDrinkRetry
      (New { ReservationManager := { reservations := [("milk", 3)] }
             ResourceManager := { availableResources := [("milk", 9), ("water", 10)] }
             NumOfOutlets := 1 })
      { ID := "latte", Ingredients := [{ ID := "milk", Quantity := 5 },
                                       { ID := "water", Quantity := 100 }] }).errorLog
      = [Error.ErrInsufficientResource "water"] :=
  ((pourDrink_insufficient
      (New { ReservationManager := { reservations := [("milk", 3)] }
             ResourceManager := { availableResources := [("milk", 9), ("water", 10)] }
             NumOfOutlets := 1 })
      { ID := "latte", Ingredients := [{ ID := "milk", Quantity := 5 },
                                       { ID := "water", Quantity := 100 }] }
      (fun id => index_nonneg_of_entries (by decide) id) (by decide)
      { ID := "water", Quantity := 100 } (by decide) (by decide)).2.2
    [{ ID := "milk", Quantity := 5 }] [] rfl (by decide) (by decide)).1

theorem retryIf_eq_true_iff (err : Error) :
    retryIf err = true ↔ ∃ id, err = Error.ErrResourceTemporarilyNotAvailable id := by
  cases err <;> simp [retryIf]

/-- C6: `pourDrink` runs `attemptPouringDrink` at least once and at most 3
times, each attempt starting from the state the previous one left; an attempt
is followed by another one only if it failed with
`ErrResourceTemporarilyNotAvailable`, so a successful attempt or one that
failed with another error kind is the last; fewer than 3 attempts are made
only if the last one did not fail with `ErrResourceTemporarilyNotAvailable`;
and the outcome reports the last attempt: PREPARED exactly when it succeeded,
otherwise NOT_PREPARED with the log whose last entry is its error. -/
theorem pourDrink_retry_policy (c : coffeeMachineImpl) (item : Item) :
    1 ≤ (pourDrinkRetry c item).calls ∧ (pourDrinkRetry c item).calls ≤ 3 ∧
    (pourDrinkRetry c item).trace =
      (List.range (pourDrinkRetry c item).calls).map (attemptResult c item) ∧
    (pourDrink c item).1 = attemptState c item (pourDrinkRetry c item).calls ∧
    (∀ k, k + 1 < (pourDrinkRetry c item).calls →
      ∃ id, attemptResult c item k = some (Error.ErrResourceTemporarilyNotAvailable id)) ∧
    ((pourDrinkRetry c item).calls < 3 →
      ∀ id, attemptResult c item ((pourDrinkRetry c item).calls - 1)
        ≠ some (Error.ErrResourceTemporarilyNotAvailable id)) ∧
    ((pourDrink c item).2.Outcome = GetItemOutcome.GetItemOutcomePrepared ↔
      attemptResult c item ((pourDrinkRetry c item).calls - 1) = none) ∧
    ((pourDrink c item).2.Outcome = GetItemOutcome.GetItemOutcomeNotPrepared ↔
      ∃ err, attemptResult c item ((pourDrinkRetry c item).calls - 1) = some err ∧
        (pourDrinkRetry c item).errorLog.getLast? = some err ∧
        (pourDrink c item).2.RejectReasons =
          [{ RejectReasonMsg := retry.Error.Error (pourDrinkRetry c item).errorLog }]) := by
  have r0 : attemptResult c item 0 = (attemptPouringDrink c item).2 := rfl
  have r1 : attemptResult c item 1
      = (attemptPouringDrink (attemptPouringDrink c item).1 item).2 := rfl
  have r2 : attemptResult c item 2
      = (attemptPouringDrink (attemptPouringDrink (attemptPouringDrink c item).1 item).1
          item).2 := rfl
  have s1 : attemptState c item 1 = (attemptPouringDrink c item).1 := rfl
  have s2 : attemptState c item 2
      = (attemptPouringDrink (attemptPouringDrink c item).1 item).1 := rfl
  have s3 : attemptState c item 3
      = (attemptPouringDrink (attemptPouringDrink (attemptPouringDrink c item).1 item).1
          item).1 := rfl
  simp only [pourDrink, pourDrinkRetry, retry.Do, retry.doLoop]
  cases h1 : attemptPouringDrink c item with
  | mk c1 e1 =>
  rw [h1] at r0 r1 r2 s1 s2 s3
  simp only [] at r0 r1 r2 s1 s2 s3
  cases e1 with
  | none =>
    simp [retry.Outcome.calls, retry.Outcome.trace, retry.Outcome.err, toPourDrinkResponse,
      List.range_succ, r0, s1]
  | some err1 =>
    simp only []
    cases hr1 : retryIf err1 with
    | false =>
      have hn : ∀ id, err1 ≠ Error.ErrResourceTemporarilyNotAvailable id := by
        intro id hid
        have := (retryIf_eq_true_iff err1).mpr ⟨id, hid⟩
        simp [hr1] at this
      simp [retry.Outcome.calls, retry.Outcome.trace, retry.Outcome.err, toPourDrinkResponse,
        List.range_succ, r0, s1, hn, GoError.Error]
    | true =>
      obtain ⟨id1, hid1⟩ := (retryIf_eq_true_iff err1).mp hr1
      simp only [if_true]
      cases h2 : attemptPouringDrink c1 item with
      | mk c2 e2 =>
      rw [h2] at r1 r2 s2 s3
      simp only [] at r1 r2 s2 s3
      have hk1 : ∀ k, k + 1 < 2 →
          ∃ id, attemptResult c item k
            = some (Error.ErrResourceTemporarilyNotAvailable id) := by
        intro k hk
        have hk0 : k = 0 := by omega
        subst hk0
        exact ⟨id1, by rw [r0, hid1]⟩
      cases e2 with
      | none =>
        simp only [retry.Outcome.calls, retry.Outcome.trace, retry.Outcome.err,
          toPourDrinkResponse]
        exact ⟨by simp, by simp, by simp [List.range_succ, r0, r1], by simp [s2],
          by simpa using hk1, by simp [r1], by simp [r1], by simp [r1]⟩
      | some err2 =>
        simp only []
        cases hr2 : retryIf err2 with
        | false =>
          have hn : ∀ id, err2 ≠ Error.ErrResourceTemporarilyNotAvailable id := by
            intro id hid
            have := (retryIf_eq_true_iff err2).mpr ⟨id, hid⟩
            simp [hr2] at this
          simp only [retry.Outcome.calls, retry.Outcome.trace, retry.Outcome.err,
            toPourDrinkResponse]
          exact ⟨by simp, by simp, by simp [List.range_succ, r0, r1], by simp [s2],
            by simpa using hk1, by simp [r1, hn], by simp [r1],
            by simp [r1, GoError.Error]⟩
        | true =>
          obtain ⟨id2, hid2⟩ := (retryIf_eq_true_iff err2).mp hr2
          simp only [if_true]
          cases h3 : attemptPouringDrink c2 item with
          | mk c3 e3 =>
          rw [h3] at r2 s3
          simp only [] at r2 s3
          have hks : ∀ k, k + 1 < 3 →
              ∃ id, attemptResult c item k
                = some (Error.ErrResourceTemporarilyNotAvailable id) := by
            intro k hk
            have hk0 : k = 0 ∨ k = 1 := by omega
            rcases hk0 with rfl | rfl
            · exact ⟨id1, by rw [r0, hid1]⟩
            · exact ⟨id2, by rw [r1, hid2]⟩
          cases e3 with
          | none =>
            simp only [retry.Outcome.calls, retry.Outcome.trace, retry.Outcome.err,
              toPourDrinkResponse]
            exact ⟨by simp, by simp, by simp [List.range_succ, r0, r1, r2], by simp [s3],
              by simpa using hks, by simp, by simp [r2], by simp [r2]⟩
          | some err3 =>
            have hlast : (if retryIf err3 = true then
                  ({ state := c3, errorLog := [] ++ [err1] ++ [err2] ++ [err3],
                     succeeded := false } : retry.Outcome coffeeMachineImpl)
                else { state := c3, errorLog := [] ++ [err1] ++ [err2] ++ [err3],
                       succeeded := false })
                = { state := c3, errorLog := [err1, err2, err3], succeeded := false } := by
              split <;> rfl
            simp only [hlast]
            simp only [retry.Outcome.calls, retry.Outcome.trace, retry.Outcome.err,
              toPourDrinkResponse]
            exact ⟨by simp, by simp, by simp [List.range_succ, r0, r1, r2], by simp [s3],
              by simpa using hks, by simp, by simp [r2], by simp [r2, GoError.Error]⟩

/-- C4: for every store state with non-negative reserved counters and every
order with positive quantities, after a sequential `attemptPouringDrink`
(whether it succeeds, fails in the reserve phase at any index, or fails in the
commit phase) the reserved counter of every ingredient equals its value before
the attempt. -/
theorem attemptPouringDrink_restores_reserved (c : coffeeMachineImpl) (item : Item)
    (hres : ∀ id, 0 ≤ c.reserved id) (hq : ∀ i ∈ item.Ingredients, 0 < i.Quantity)
    (id : String) :
    (attemptPouringDrink c item).1.reserved id = c.reserved id :=
  (attemptPouringDrink_cleanup c item hres (fun i hi => le_of_lt (hq i hi))).2.1 id

/-- C4, witness: an attempt that fails at its second requirement leaves the
reserved counter of water at 3. -/
theorem attemptPouringDrink_restores_reserved_witness :
    (attemptPouringDrink
      (New { ReservationManager := { reservations := [("water", 3)] }
             ResourceManager := { availableResources := [("water", 10), ("sugar", 1)] }
             NumOfOutlets := 1 })
      { ID := "tea", Ingredients := [{ ID := "water", Quantity := 6 },
                                     { ID := "sugar", Quantity := 2 }] }).1.reserved "water"
      = 3 :=
  attemptPouringDrink_restores_reserved
      (New { ReservationManager := { reservations := [("water", 3)] }
             ResourceManager := { availableResources := [("water", 10), ("sugar", 1)] }
             NumOfOutlets := 1 })
      { ID := "tea", Ingredients := [{ ID := "water", Quantity := 6 },
                                     { ID := "sugar", Quantity := 2 }] }
      (fun id => index_nonneg_of_entries (by decide) id) (by decide) "water"

end vendingmachine

/-! ## The response -/

namespace vendingmachine

/-- C7: for every item and every error value, `toPourDrinkResponse` returns a
response that carries the same item; its outcome is PREPARED with no rejection
reasons exactly when the error is nil, and otherwise its outcome is
NOT_PREPARED with exactly one rejection reason, whose text is the message of
the error handed over. -/
theorem toPourDrinkResponse_spec {ε : Type} [GoError ε] (item : Item) (err : Option ε) :
    (toPourDrinkResponse item err).Item = item ∧
    ((toPourDrinkResponse item err).Outcome = GetItemOutcome.GetItemOutcomePrepared ∧
        (toPourDrinkResponse item err).RejectReasons = [] ↔ err = none) ∧
    (∀ e, err = some e →
      (toPourDrinkResponse item err).Outcome = GetItemOutcome.GetItemOutcomeNotPrepared ∧
      (toPourDrinkResponse item err).RejectReasons
        = [{ RejectReasonMsg := GoError.Error e }]) := by
  cases err with
  | none => simp [toPourDrinkResponse]
  | some e => simp [toPourDrinkResponse]

end vendingmachine

/-! ## The inventory store -/

namespace resourcemanager

/-- A consume call for an ingredient without an entry, or with a quantity
below the delta, fails and leaves the store as it is. -/
theorem UpdateIngredient_consume_fail (m : repositoryImpl) (id : String) (d : Int)
    (h : m.availableResources.commaOk id = none ∨ m.availableResources.index id < d) :
    UpdateIngredient m
        { IngredientID := id, UpdateType := UpdateTypeConsume, ResourceQuantity := d }
      = (m, Except.error (Error.ErrResourceNotAvailable id)) := by
  unfold UpdateIngredient
  simp only [if_true]
  cases hc : m.availableResources.commaOk id with
  | none => rfl
  | some a =>
    have hidx := GoMap.index_eq_of_commaOk hc
    rcases h with h | h
    · rw [hc] at h; simp at h
    · rw [hidx] at h
      simp [h]

/-- C9, as stated, fails: on the empty store the quantity of water counts as
zero, which is not less than the delta 0, yet consuming 0 of water fails with
`ErrResourceNotAvailable` instead of returning the ingredient. -/
theorem UpdateIngredient_consume_counterexample :
    ¬ (New.availableResources.index "water" < 0) ∧
    (UpdateIngredient New
      { IngredientID := "water", UpdateType := UpdateTypeConsume, ResourceQuantity := 0 }).2
      = Except.error (Error.ErrResourceNotAvailable "water") := by
  decide

/-- C9, amended: for every inventory state, ingredient id and delta `d`,
`UpdateIngredient` in consume mode fails with `ErrResourceNotAvailable` if the
ingredient has no entry in the store or its current quantity is less than
`d`, and then the store is unchanged; otherwise it subtracts `d` from the
quantity of that ingredient, leaves every other quantity as it was, and
returns the ingredient with the new quantity. -/
theorem UpdateIngredient_consume (m : repositoryImpl) (id : String) (d : Int) :
    (m.availableResources.commaOk id = none ∨ m.availableResources.index id < d →
      UpdateIngredient m
          { IngredientID := id, UpdateType := UpdateTypeConsume, ResourceQuantity := d }
        = (m, Except.error (Error.ErrResourceNotAvailable id))) ∧
    (m.availableResources.commaOk id ≠ none → ¬ m.availableResources.index id < d →
      (UpdateIngredient m
          { IngredientID := id, UpdateType := UpdateTypeConsume, ResourceQuantity := d }).2
        = Except.ok { ID := id, Quantity := m.availableResources.index id - d } ∧
      ∀ id1,
        (UpdateIngredient m
          { IngredientID := id, UpdateType := UpdateTypeConsume, ResourceQuantity := d }
          ).1.availableResources.index id1
        = if id = id1 then m.availableResources.index id - d
          else m.availableResources.index id1) := by
  unfold UpdateIngredient
  simp only [if_true]
  cases h : m.availableResources.commaOk id with
  | none => simp
  | some a =>
    have hidx := GoMap.index_eq_of_commaOk h
    simp only [hidx]
    by_cases h1 : a < d <;> simp [h1]

/-- C9, witness: consuming 5 of the 10 water in stock leaves 5. -/
theorem UpdateIngredient_consume_witness :
    (UpdateIngredient { availableResources := [("water", 10)] }
      { IngredientID := "water", UpdateType := UpdateTypeConsume, ResourceQuantity := 5 }).2
      = Except.ok { ID := "water", Quantity := 5 } :=
  ((UpdateIngredient_consume { availableResources := [("water", 10)] } "water" 5).2
    (by decide) (by decide)).1

theorem UpdateIngredient_index_nonneg (m : repositoryImpl) (req : UpdateRequest)
    (hd : 0 ≤ req.ResourceQuantity) (hm : ∀ id, 0 ≤ m.availableResources.index id)
    (id : String) : 0 ≤ (UpdateIngredient m req).1.availableResources.index id := by
  have h0 := hm req.IngredientID
  have h1 := hm id
  unfold UpdateIngredient
  split_ifs
  · cases h : m.availableResources.commaOk req.IngredientID with
    | none => exact h1
    | some a =>
      have hidx := GoMap.index_eq_of_commaOk h
      simp only []
      split_ifs with h2
      · exact h1
      · simp only [GoMap.index_assign]
        split_ifs <;> omega
  · simp only [GoMap.index_assign]
    split_ifs <;> omega
  · exact h1

theorem runUpdates_index_nonneg (m : repositoryImpl) (reqs : List UpdateRequest)
    (hd : ∀ req ∈ reqs, 0 ≤ req.ResourceQuantity)
    (hm : ∀ id, 0 ≤ m.availableResources.index id) (id : String) :
    0 ≤ (runUpdates m reqs).availableResources.index id := by
  induction reqs generalizing m with
  | nil => exact hm id
  | cons req reqs ih =>
    simp only [runUpdates, List.foldl_cons]
    exact ih (UpdateIngredient m req).1
      (fun r hr => hd r (List.mem_cons_of_mem _ hr))
      (UpdateIngredient_index_nonneg m req (hd req (List.mem_cons_self _ _)) hm)

end resourcemanager

/-! ## Interleaved orders -/

namespace vendingmachine

theorem sum_map_set {α : Type} (l : List α) (f : α → Int) (i : Nat) (a b : α)
    (h : l[i]? = some a) : ((l.set i b).map f).sum = (l.map f).sum - f a + f b := by
  induction l generalizing i with
  | nil => simp at h
  | cons x l ih =>
    cases i with
    | zero =>
      simp only [List.getElem?_cons_zero, Option.some.injEq] at h
      subst h
      simp only [List.set_cons_zero, List.map_cons, List.sum_cons]
      ring
    | succ i =>
      simp only [List.getElem?_cons_succ] at h
      simp only [List.set_cons_succ, List.map_cons, List.sum_cons, ih i h]
      ring

theorem le_sum_of_getElem {α : Type} (l : List α) (f : α → Int) (i : Nat) (a : α)
    (h : l[i]? = some a) (hn : ∀ x ∈ l, 0 ≤ f x) : f a ≤ (l.map f).sum := by
  induction l generalizing i with
  | nil => simp at h
  | cons x l ih =>
    have hx : 0 ≤ f x := hn x (List.mem_cons_self _ _)
    have hl : ∀ y ∈ l, 0 ≤ f y := fun y hy => hn y (List.mem_cons_of_mem _ hy)
    have hs : 0 ≤ (l.map f).sum := by
      apply List.sum_nonneg
      intro v hv
      obtain ⟨y, hy, rfl⟩ := List.mem_map.mp hv
      exact hl y hy
    cases i with
    | zero =>
      simp only [List.getElem?_cons_zero, Option.some.injEq] at h
      subst h
      simp only [List.map_cons, List.sum_cons]
      omega
    | succ i =>
      simp only [List.getElem?_cons_succ] at h
      have := ih i h hl
      simp only [List.map_cons, List.sum_cons]
      omega

theorem sum_map_le_sum_map {α : Type} (l : List α) (f g : α → Int)
    (h : ∀ x ∈ l, f x ≤ g x) : (l.map f).sum ≤ (l.map g).sum := by
  induction l with
  | nil => simp
  | cons x l ih =>
    have hx := h x (List.mem_cons_self _ _)
    have hl := ih (fun y hy => h y (List.mem_cons_of_mem _ hy))
    simp only [List.map_cons, List.sum_cons]
    omega

theorem mem_of_getElem {α : Type} (l : List α) (i : Nat) (a : α) (h : l[i]? = some a) :
    a ∈ l := by
  induction l generalizing i with
  | nil => simp at h
  | cons x l ih =>
    cases i with
    | zero =>
      simp only [List.getElem?_cons_zero, Option.some.injEq] at h
      subst h
      exact List.mem_cons_self _ _
    | succ i =>
      simp only [List.getElem?_cons_succ] at h
      exact List.mem_cons_of_mem _ (ih i h)

theorem required_take_succ (l : List Ingredient) (k : Nat) (ing : Ingredient)
    (h : l[k]? = some ing) (id : String) :
    required (l.take (k + 1)) id
      = required (l.take k) id + (if ing.ID = id then ing.Quantity else 0) := by
  induction l generalizing k with
  | nil => simp at h
  | cons x l ih =>
    cases k with
    | zero =>
      simp only [List.getElem?_cons_zero, Option.some.injEq] at h
      subst h
      simp
    | succ k =>
      simp only [List.getElem?_cons_succ] at h
      simp only [List.take_succ_cons, required_cons, ih k h]
      ring

theorem required_drop (l : List Ingredient) (k : Nat) (ing : Ingredient)
    (h : l[k]? = some ing) (id : String) :
    required (l.drop k) id
      = (if ing.ID = id then ing.Quantity else 0) + required (l.drop (k + 1)) id := by
  induction l generalizing k with
  | nil => simp at h
  | cons x l ih =>
    cases k with
    | zero =>
      simp only [List.getElem?_cons_zero, Option.some.injEq] at h
      subst h
      simp
    | succ k =>
      simp only [List.getElem?_cons_succ] at h
      simpa using ih k h

theorem take_of_getElem_none {α : Type} (l : List α) (k : Nat) (h : l[k]? = none) :
    l.take k = l := by
  induction l generalizing k with
  | nil => simp
  | cons x l ih =>
    cases k with
    | zero => simp at h
    | succ k =>
      simp only [List.getElem?_cons_succ] at h
      simp [ih k h]

theorem drop_of_getElem_none {α : Type} (l : List α) (k : Nat) (h : l[k]? = none) :
    l.drop k = [] := by
  induction l generalizing k with
  | nil => simp
  | cons x l ih =>
    cases k with
    | zero => simp at h
    | succ k =>
      simp only [List.getElem?_cons_succ] at h
      simp [ih k h]

theorem required_drop_le (l : List Ingredient) (hq : ∀ i ∈ l, 0 ≤ i.Quantity) (k : Nat)
    (id : String) : required (l.drop k) id ≤ required l id := by
  induction l generalizing k with
  | nil => simp
  | cons x l ih =>
    have hx : 0 ≤ x.Quantity := hq x (List.mem_cons_self _ _)
    have hl : ∀ i ∈ l, 0 ≤ i.Quantity := fun i hi => hq i (List.mem_cons_of_mem _ hi)
    cases k with
    | zero => simp
    | succ k =>
      have := ih hl k
      simp only [List.drop_succ_cons, required_cons]
      split <;> omega

theorem Order.held_subset (o : Order) : ∀ ing ∈ o.held, ing ∈ o.item.Ingredients := by
  intro ing h
  unfold Order.held at h
  split at h
  · exact List.mem_of_mem_take h
  · exact h
  · exact List.mem_of_mem_take (List.mem_of_mem_drop h)
  · simp at h

theorem Order.owed_subset (o : Order) : ∀ ing ∈ o.owed, ing ∈ o.item.Ingredients := by
  intro ing h
  unfold Order.owed at h
  split at h
  · exact List.mem_of_mem_take h
  · exact List.mem_of_mem_drop h
  · simp at h
  · simp at h

theorem Order.held_nonneg (o : Order)
    (hpos : ∀ ing ∈ o.item.Ingredients, 0 < ing.Quantity) (id : String) :
    0 ≤ required o.held id :=
  required_nonneg (fun ing h => le_of_lt (hpos ing (o.held_subset ing h))) id

theorem Order.owed_required_nonneg (o : Order)
    (hpos : ∀ ing ∈ o.item.Ingredients, 0 < ing.Quantity) (id : String) :
    0 ≤ required o.owed id :=
  required_nonneg (fun ing h => le_of_lt (hpos ing (o.owed_subset ing h))) id

theorem Order.owed_required_le_held (o : Order)
    (hpos : ∀ ing ∈ o.item.Ingredients, 0 < ing.Quantity) (id : String) :
    required o.owed id ≤ required o.held id := by
  have h0 := o.held_nonneg hpos id
  obtain ⟨item, phase⟩ := o
  cases phase with
  | reserving idx => exact le_refl _
  | consuming idx => exact required_drop_le _ (fun ing h => le_of_lt (hpos ing h)) _ id
  | deleting n idx err => simpa [Order.held, Order.owed] using h0
  | done err => simp [Order.held, Order.owed]

theorem Shared.owed_sum_le_held (s : Shared) (hinv : s.Inv) (id : String) :
    s.owed id ≤ s.held id :=
  sum_map_le_sum_map _ _ _ (fun o ho => o.owed_required_le_held (hinv.positive o ho) id)

/-- The invariant is kept when the order at position `i` moves on, provided
the machine and the order change together as the invariant asks. -/
theorem Shared.Inv.set {s : Shared} (hinv : s.Inv) {i : Nat} {o : Order}
    (hi : s.orders[i]? = some o) (c1 : coffeeMachineImpl) (o1 : Order)
    (hitem : o1.item = o.item)
    (hres : ∀ id, c1.reserved id
      = s.machine.reserved id - required o.held id + required o1.held id)
    (hav : ∀ id, s.owed id - required o.owed id + required o1.owed id ≤ c1.available id)
    (hst : ∀ id, s.machine.stocked id = true → c1.stocked id = true)
    (hst1 : ∀ ing ∈ o1.owed, c1.stocked ing.ID = true) :
    Shared.Inv { machine := c1, orders := s.orders.set i o1 } := by
  have ho : o ∈ s.orders := mem_of_getElem _ _ _ hi
  refine ⟨?_, ?_, ?_, ?_⟩
  · intro o2 h2
    rcases List.mem_or_eq_of_mem_set h2 with h | h
    · exact hinv.positive o2 h
    · subst h
      rw [hitem]
      exact hinv.positive o ho
  · intro id
    simp only [Shared.held]
    rw [sum_map_set _ _ _ _ _ hi, hres id, hinv.reserved_eq id]
    rfl
  · intro id
    simp only [Shared.owed]
    rw [sum_map_set _ _ _ _ _ hi]
    exact hav id
  · intro o2 h2 ing hing
    rcases List.mem_or_eq_of_mem_set h2 with h | h
    · exact hst _ (hinv.stocked o2 h ing hing)
    · subst h
      exact hst1 ing hing

theorem available_congr {c c1 : coffeeMachineImpl}
    (h : c1.resourceManager = c.resourceManager) (id : String) :
    c1.available id = c.available id := by
  simp [coffeeMachineImpl.available, h]

theorem stocked_congr {c c1 : coffeeMachineImpl}
    (h : c1.resourceManager = c.resourceManager) (id : String) :
    c1.stocked id = c.stocked id := by
  simp [coffeeMachineImpl.stocked, h]

theorem reserved_congr {c c1 : coffeeMachineImpl}
    (h : c1.reservationManager = c.reservationManager) (id : String) :
    c1.reserved id = c.reserved id := by
  simp [coffeeMachineImpl.reserved, h]

theorem drop_eq_cons_of_getElem {α : Type} (l : List α) (k : Nat) (a : α)
    (h : l[k]? = some a) : l.drop k = a :: l.drop (k + 1) := by
  induction l generalizing k with
  | nil => simp at h
  | cons x l ih =>
    cases k with
    | zero =>
      simp only [List.getElem?_cons_zero, Option.some.injEq] at h
      subst h
      simp
    | succ k =>
      simp only [List.getElem?_cons_succ] at h
      simpa using ih k h

theorem mem_take_succ_of_getElem {α : Type} (l : List α) (k : Nat) (a b : α)
    (h : l[k]? = some a) (hb : b ∈ l.take (k + 1)) : b ∈ l.take k ∨ b = a := by
  rw [List.take_succ, h] at hb
  simpa using hb

/-- In a state that satisfies the invariant, the consume step of an order in
its second loop succeeds. -/
theorem consume_ok_of_inv {s : Shared} (hinv : s.Inv) {i : Nat} {o : Order}
    (hi : s.orders[i]? = some o) {k : Nat} (hph : o.phase = Phase.consuming k)
    {ing : Ingredient} (hk : o.item.Ingredients[k]? = some ing) :
    (consumeIngredient s.machine ing).2 = none := by
  have ho : o ∈ s.orders := mem_of_getElem _ _ _ hi
  have hpos := hinv.positive o ho
  have howed : o.owed = ing :: o.item.Ingredients.drop (k + 1) := by
    simp only [Order.owed, hph]
    exact drop_eq_cons_of_getElem _ _ _ hk
  rw [consume_ok_iff]
  refine ⟨hinv.stocked o ho ing (by rw [howed]; exact List.mem_cons_self _ _), ?_⟩
  have h1 : required o.owed ing.ID ≤ s.owed ing.ID :=
    le_sum_of_getElem s.orders (fun o => required o.owed ing.ID) i o hi
      (fun x hx => x.owed_required_nonneg (hinv.positive x hx) ing.ID)
  have h2 := hinv.owed_le ing.ID
  have h3 : 0 ≤ required (o.item.Ingredients.drop (k + 1)) ing.ID :=
    required_nonneg (fun x hx => le_of_lt (hpos x (List.mem_of_mem_drop hx))) ing.ID
  rw [howed, required_cons] at h1
  simp only [if_true] at h1
  omega

/-- In a state that satisfies the invariant, the deletion of a reservation by
an order in its deferred cleanup succeeds. -/
theorem delete_ok_of_inv {s : Shared} (hinv : s.Inv) {i : Nat} {o : Order}
    (hi : s.orders[i]? = some o) {n k : Nat} {err : Option Error}
    (hph : o.phase = Phase.deleting n k err)
    {ing : Ingredient} (hk : (o.item.Ingredients.take n)[k]? = some ing) :
    (deleteReservation s.machine ing).2 = none := by
  have ho : o ∈ s.orders := mem_of_getElem _ _ _ hi
  have hpos := hinv.positive o ho
  have hheld : o.held = ing :: (o.item.Ingredients.take n).drop (k + 1) := by
    simp only [Order.held, hph]
    exact drop_eq_cons_of_getElem _ _ _ hk
  rw [delete_ok_iff]
  have h1 : required o.held ing.ID ≤ s.held ing.ID :=
    le_sum_of_getElem s.orders (fun o => required o.held ing.ID) i o hi
      (fun x hx => x.held_nonneg (hinv.positive x hx) ing.ID)
  have h2 := hinv.reserved_eq ing.ID
  have h3 : 0 ≤ required ((o.item.Ingredients.take n).drop (k + 1)) ing.ID :=
    required_nonneg (fun x hx =>
      le_of_lt (hpos x (List.mem_of_mem_take (List.mem_of_mem_drop hx)))) ing.ID
  rw [hheld, required_cons] at h1
  simp only [if_true] at h1
  omega

/-- A transition of the order at position `i` keeps the invariant. -/
theorem Shared.Inv.step_order {s : Shared} (hinv : s.Inv) {i : Nat} {o : Order}
    (hi : s.orders[i]? = some o) :
    Shared.Inv { machine := (o.step s.machine).1,
                 orders := s.orders.set i (o.step s.machine).2 } := by
  have ho : o ∈ s.orders := mem_of_getElem _ _ _ hi
  have hpos := hinv.positive o ho
  have hstk := hinv.stocked o ho
  have hown := o.owed_required_nonneg hpos
  have hconsume := @consume_ok_of_inv s hinv i o hi
  have hdelete := @delete_ok_of_inv s hinv i o hi
  obtain ⟨item, phase⟩ := o
  cases phase with
  | reserving k =>
    cases hk : item.Ingredients[k]? with
    | none =>
      have htake := take_of_getElem_none _ _ hk
      have key : Shared.Inv ⟨s.machine, s.orders.set i ⟨item, Phase.consuming 0⟩⟩ := by
        apply hinv.set hi s.machine { item := item, phase := Phase.consuming 0 } rfl
        · intro id; simp [Order.held, htake]
        · intro id
          have := hinv.owed_le id
          simp only [Order.owed, htake, List.drop_zero]
          omega
        · intro id h; exact h
        · intro ing hing
          apply hstk
          simpa [Order.owed, htake] using hing
      simpa only [Order.step, hk] using key
    | some ing =>
      have hiff := reserve_ok_iff s.machine ing
      have hres1 := reserve_reserved_of_ok s.machine ing
      have hfail := reserve_reservationManager_of_fail s.machine ing
      have hrm := reserve_resourceManager s.machine ing
      cases hr : reserveIngredientIfPossible s.machine ing with
      | mk c1 e =>
        rw [hr] at hiff hres1 hfail hrm
        simp only [] at hiff hres1 hfail hrm
        cases e with
        | some err =>
          have key : Shared.Inv ⟨c1, s.orders.set i ⟨item, Phase.deleting k 0 (some err)⟩⟩ := by
            apply hinv.set hi c1 { item := item, phase := Phase.deleting k 0 (some err) } rfl
            · intro id
              rw [reserved_congr (hfail (by simp)) id]
              simp [Order.held]
            · intro id
              have := hinv.owed_le id
              have := hown id
              rw [available_congr hrm id]
              simp only [Order.owed, required_nil] at *
              omega
            · intro id h; rw [stocked_congr hrm id]; exact h
            · intro x hx; simp [Order.owed] at hx
          simpa only [Order.step, hk, hr] using key
        | none =>
          obtain ⟨hs0, hs1⟩ := hiff.mp rfl
          have key : Shared.Inv ⟨c1, s.orders.set i ⟨item, Phase.reserving (k + 1)⟩⟩ := by
            apply hinv.set hi c1 { item := item, phase := Phase.reserving (k + 1) } rfl
            · intro id
              rw [hres1 rfl id]
              simp only [Order.held, required_take_succ _ _ _ hk id]
              ring
            · intro id
              have h1 := hinv.owed_le id
              have h2 := s.owed_sum_le_held hinv id
              have h3 := hinv.reserved_eq id
              rw [available_congr hrm id]
              simp only [Order.owed, required_take_succ _ _ _ hk id]
              by_cases hid : ing.ID = id
              · subst hid
                simp only [if_true]
                omega
              · simp only [hid, if_false]
                omega
            · intro id h; rw [stocked_congr hrm id]; exact h
            · intro x hx
              rw [stocked_congr hrm]
              simp only [Order.owed] at hx
              rcases mem_take_succ_of_getElem _ _ _ _ hk hx with h | h
              · exact hstk x (by simpa [Order.owed] using h)
              · subst h; exact hs0
          simpa only [Order.step, hk, hr] using key
  | consuming k =>
    cases hk : item.Ingredients[k]? with
    | none =>
      have hdrop := drop_of_getElem_none _ _ hk
      have key : Shared.Inv
          ⟨s.machine, s.orders.set i ⟨item, Phase.deleting item.Ingredients.length 0 none⟩⟩ := by
        apply hinv.set hi s.machine
          { item := item, phase := Phase.deleting item.Ingredients.length 0 none } rfl
        · intro id; simp [Order.held]
        · intro id
          have := hinv.owed_le id
          simp only [Order.owed, hdrop, required_nil]
          omega
        · intro id h; exact h
        · intro x hx; simp [Order.owed] at hx
      simpa only [Order.step, hk] using key
    | some ing =>
      have hok := hconsume rfl hk
      have hav1 := consume_available_of_ok s.machine ing hok
      have hrm := consume_reservationManager s.machine ing
      have hst := consume_stocked s.machine ing
      cases hr : consumeIngredient s.machine ing with
      | mk c1 e =>
        rw [hr] at hok hav1 hrm hst
        simp only [] at hok hav1 hrm hst
        subst hok
        have key : Shared.Inv ⟨c1, s.orders.set i ⟨item, Phase.consuming (k + 1)⟩⟩ := by
          apply hinv.set hi c1 { item := item, phase := Phase.consuming (k + 1) } rfl
          · intro id
            rw [reserved_congr hrm id]
            simp [Order.held]
          · intro id
            have h1 := hinv.owed_le id
            rw [hav1 id]
            simp only [Order.owed, required_drop _ _ _ hk id]
            omega
          · intro id h; rw [hst id]; exact h
          · intro x hx
            rw [hst]
            apply hstk
            simp only [Order.owed] at hx ⊢
            rw [drop_eq_cons_of_getElem _ _ _ hk]
            exact List.mem_cons_of_mem _ hx
        simpa only [Order.step, hk, hr] using key
  | deleting n k err =>
    cases hk : (item.Ingredients.take n)[k]? with
    | none =>
      have hdrop := drop_of_getElem_none _ _ hk
      have key : Shared.Inv ⟨s.machine, s.orders.set i ⟨item, Phase.done err⟩⟩ := by
        apply hinv.set hi s.machine { item := item, phase := Phase.done err } rfl
        · intro id; simp [Order.held, hdrop]
        · intro id
          have := hinv.owed_le id
          simp only [Order.owed, required_nil]
          omega
        · intro id h; exact h
        · intro x hx; simp [Order.owed] at hx
      simpa only [Order.step, hk] using key
    | some ing =>
      have hok := hdelete rfl hk
      have hres1 := delete_reserved_of_ok s.machine ing hok
      have hrm := delete_resourceManager s.machine ing
      cases hr : deleteReservation s.machine ing with
      | mk c1 e =>
        rw [hr] at hok hres1 hrm
        simp only [] at hok hres1 hrm
        subst hok
        have key : Shared.Inv ⟨c1, s.orders.set i ⟨item, Phase.deleting n (k + 1) err⟩⟩ := by
          apply hinv.set hi c1 { item := item, phase := Phase.deleting n (k + 1) err } rfl
          · intro id
            rw [hres1 id]
            simp only [Order.held, required_drop _ _ _ hk id]
            ring
          · intro id
            have h1 := hinv.owed_le id
            rw [available_congr hrm id]
            simp only [Order.owed, required_nil]
            omega
          · intro id h; rw [stocked_congr hrm id]; exact h
          · intro x hx; simp [Order.owed] at hx
        simpa only [Order.step, hk, hr] using key
  | done err =>
    have key : Shared.Inv ⟨s.machine, s.orders.set i ⟨item, Phase.done err⟩⟩ := by
      apply hinv.set hi s.machine { item := item, phase := Phase.done err } rfl
      · intro id; ring
      · intro id
        have := hinv.owed_le id
        omega
      · intro id h; exact h
      · exact hstk
    simpa only [Order.step] using key

/-! ### An order running alone is `attemptPouringDrink` -/

theorem Order.runAlone_add (c : coffeeMachineImpl) (o : Order) (m n : Nat) :
    Order.runAlone c o (m + n)
      = Order.runAlone (Order.runAlone c o m).1 (Order.runAlone c o m).2 n := by
  induction m generalizing c o with
  | zero => simp [Order.runAlone]
  | succ m ih =>
    have : m + 1 + n = (m + n) + 1 := by omega
    rw [this]
    simp only [Order.runAlone]
    exact ih _ _

theorem Order.runAlone_done (c : coffeeMachineImpl) (item : Item) (err : Option Error)
    (n : Nat) :
    Order.runAlone c { item := item, phase := Phase.done err } n
      = (c, { item := item, phase := Phase.done err }) := by
  induction n with
  | zero => rfl
  | succ n ih => simpa [Order.runAlone, Order.step] using ih

theorem Order.runAlone_reserve (item : Item) (rest : List Ingredient)
    (c : coffeeMachineImpl) (k : Nat) (hrest : item.Ingredients.drop k = rest) :
    ∃ m, m ≤ rest.length + 1 ∧
      Order.runAlone c { item := item, phase := Phase.reserving k } m
        = ((reserveLoop c rest k).1,
           { item := item,
             phase := match (reserveLoop c rest k).2 with
               | none => Phase.consuming 0
               | some p => Phase.deleting p.1 0 (some p.2) }) := by
  induction rest generalizing c k with
  | nil =>
    have hk : item.Ingredients[k]? = none := by
      rw [List.getElem?_eq_none_iff]
      exact List.drop_eq_nil_iff.mp hrest
    exact ⟨1, by simp, by simp [Order.runAlone, Order.step, hk, reserveLoop]⟩
  | cons ing rest ih =>
    have hk : item.Ingredients[k]? = some ing := by
      rw [← List.head?_drop, hrest]
      rfl
    have hrest1 : item.Ingredients.drop (k + 1) = rest := by
      have := drop_eq_cons_of_getElem _ _ _ hk
      rw [this] at hrest
      exact (List.cons.inj hrest).2
    cases hr : reserveIngredientIfPossible c ing with
    | mk c1 e =>
      cases e with
      | some err =>
        exact ⟨1, by simp, by simp [Order.runAlone, Order.step, hk, reserveLoop, hr]⟩
      | none =>
        obtain ⟨m, hm, hrun⟩ := ih c1 (k + 1) hrest1
        refine ⟨m + 1, by simp only [List.length_cons]; omega, ?_⟩
        simp only [Order.runAlone, Order.step, hk, hr]
        rw [hrun]
        simp [reserveLoop, hr]

theorem Order.runAlone_consume (item : Item) (rest : List Ingredient)
    (c : coffeeMachineImpl) (k : Nat) (hrest : item.Ingredients.drop k = rest) :
    ∃ m, m ≤ rest.length + 1 ∧
      Order.runAlone c { item := item, phase := Phase.consuming k } m
        = ((consumeLoop c rest).1,
           { item := item,
             phase := Phase.deleting item.Ingredients.length 0 (consumeLoop c rest).2 }) := by
  induction rest generalizing c k with
  | nil =>
    have hk : item.Ingredients[k]? = none := by
      rw [List.getElem?_eq_none_iff]
      exact List.drop_eq_nil_iff.mp hrest
    exact ⟨1, by simp, by simp [Order.runAlone, Order.step, hk, consumeLoop]⟩
  | cons ing rest ih =>
    have hk : item.Ingredients[k]? = some ing := by
      rw [← List.head?_drop, hrest]
      rfl
    have hrest1 : item.Ingredients.drop (k + 1) = rest := by
      have := drop_eq_cons_of_getElem _ _ _ hk
      rw [this] at hrest
      exact (List.cons.inj hrest).2
    cases hr : consumeIngredient c ing with
    | mk c1 e =>
      cases e with
      | some err =>
        exact ⟨1, by simp, by simp [Order.runAlone, Order.step, hk, consumeLoop, hr]⟩
      | none =>
        obtain ⟨m, hm, hrun⟩ := ih c1 (k + 1) hrest1
        refine ⟨m + 1, by simp only [List.length_cons]; omega, ?_⟩
        simp only [Order.runAlone, Order.step, hk, hr]
        rw [hrun]
        simp [consumeLoop, hr]

theorem Order.runAlone_delete (item : Item) (n : Nat) (err : Option Error)
    (rest : List Ingredient) (c : coffeeMachineImpl) (k : Nat)
    (hrest : (item.Ingredients.take n).drop k = rest) :
    ∃ m, m ≤ rest.length + 1 ∧
      Order.runAlone c { item := item, phase := Phase.deleting n k err } m
        = ((deleteReservations c rest).1,
           { item := item,
             phase := Phase.done (match (deleteReservations c rest).2 with
               | some deleteErr => some deleteErr
               | none => err) }) := by
  induction rest generalizing c k with
  | nil =>
    have hk : (item.Ingredients.take n)[k]? = none := by
      rw [List.getElem?_eq_none_iff]
      exact List.drop_eq_nil_iff.mp hrest
    exact ⟨1, by simp, by simp [Order.runAlone, Order.step, hk, deleteReservations]⟩
  | cons ing rest ih =>
    have hk : (item.Ingredients.take n)[k]? = some ing := by
      rw [← List.head?_drop, hrest]
      rfl
    have hrest1 : (item.Ingredients.take n).drop (k + 1) = rest := by
      have := drop_eq_cons_of_getElem _ _ _ hk
      rw [this] at hrest
      exact (List.cons.inj hrest).2
    cases hr : deleteReservation c ing with
    | mk c1 e =>
      cases e with
      | some derr =>
        exact ⟨1, by simp, by simp [Order.runAlone, Order.step, hk, deleteReservations, hr]⟩
      | none =>
        obtain ⟨m, hm, hrun⟩ := ih c1 (k + 1) hrest1
        refine ⟨m + 1, by simp only [List.length_cons]; omega, ?_⟩
        simp only [Order.runAlone, Order.step, hk, hr]
        rw [hrun]
        simp [deleteReservations, hr]

/-- The transitions of an order, made with no other order interfering, are
`attemptPouringDrink`: after `3 * len(item.Ingredients) + 3` transitions (or
more) the order has returned with the error, and the machine is in the state,
that `attemptPouringDrink` yields. -/
theorem Order.runAlone_eq_attemptPouringDrink (c : coffeeMachineImpl) (item : Item)
    (fuel : Nat) (hfuel : 3 * item.Ingredients.length + 3 ≤ fuel) :
    Order.runAlone c { item := item, phase := Phase.reserving 0 } fuel
      = ((attemptPouringDrink c item).1,
         { item := item, phase := Phase.done (attemptPouringDrink c item).2 }) := by
  have key : ∃ m, m ≤ 3 * item.Ingredients.length + 3 ∧
      Order.runAlone c { item := item, phase := Phase.reserving 0 } m
        = ((attemptPouringDrink c item).1,
           { item := item, phase := Phase.done (attemptPouringDrink c item).2 }) := by
    obtain ⟨m1, hm1, h1⟩ := Order.runAlone_reserve item item.Ingredients c 0 rfl
    have hfail := reserveLoop_reserved_of_fail c item.Ingredients 0
    unfold attemptPouringDrink attemptBody
    cases hr : reserveLoop c item.Ingredients 0 with
    | mk c1 e =>
      rw [hr] at h1 hfail
      cases e with
      | some p =>
        obtain ⟨idx, err⟩ := p
        have hidx := (hfail idx err rfl).2.1
        obtain ⟨m3, hm3, h3⟩ := Order.runAlone_delete item idx (some err)
          (item.Ingredients.take idx) c1 0 rfl
        refine ⟨m1 + m3, ?_, ?_⟩
        · have : (item.Ingredients.take idx).length ≤ item.Ingredients.length := by simp
          omega
        · rw [Order.runAlone_add, h1]
          simp only []
          rw [h3]
          cases deleteReservations c1 (item.Ingredients.take idx) with
          | mk c2 de => cases de <;> rfl
      | none =>
        obtain ⟨m2, hm2, h2⟩ := Order.runAlone_consume item item.Ingredients c1 0 rfl
        obtain ⟨m3, hm3, h3⟩ := Order.runAlone_delete item item.Ingredients.length
          (consumeLoop c1 item.Ingredients).2
          (item.Ingredients.take item.Ingredients.length) (consumeLoop c1 item.Ingredients).1
          0 rfl
        refine ⟨m1 + (m2 + m3), ?_, ?_⟩
        · have : (item.Ingredients.take item.Ingredients.length).length
              ≤ item.Ingredients.length := by simp
          omega
        · rw [Order.runAlone_add, h1]
          simp only []
          rw [Order.runAlone_add, h2]
          simp only []
          rw [h3]
          cases deleteReservations (consumeLoop c1 item.Ingredients).1
              (item.Ingredients.take item.Ingredients.length) with
          | mk c2 de => cases de <;> rfl
  obtain ⟨m, hm, hrun⟩ := key
  have : fuel = m + (fuel - m) := by omega
  rw [this, Order.runAlone_add, hrun]
  exact Order.runAlone_done _ _ _ _

/-- The refill in closed form. -/
theorem Refill_eq (c : coffeeMachineImpl) (i : Ingredient) :
    Refill c i =
      ({ (getOrCreateMutex c i).1 with
          resourceManager :=
            { availableResources :=
                c.resourceManager.availableResources.assign i.ID
                  (c.available i.ID + i.Quantity) } }, none) := by
  unfold Refill resourcemanager.UpdateIngredient coffeeMachineImpl.available
  simp [resourcemanager.UpdateTypeRefill, resourcemanager.UpdateTypeConsume]

theorem Refill_reservationManager (c : coffeeMachineImpl) (i : Ingredient) :
    (Refill c i).1.reservationManager = c.reservationManager := by
  rw [Refill_eq]
  simp

theorem Refill_available (c : coffeeMachineImpl) (i : Ingredient) (id : String) :
    (Refill c i).1.available id = c.available id + (if i.ID = id then i.Quantity else 0) := by
  rw [Refill_eq]
  by_cases h : i.ID = id <;> simp [coffeeMachineImpl.available, h]

theorem Refill_stocked (c : coffeeMachineImpl) (i : Ingredient) (id : String)
    (h : c.stocked id = true) : (Refill c i).1.stocked id = true := by
  rw [Refill_eq]
  simp only [coffeeMachineImpl.stocked, GoMap.commaOk_assign]
  split
  · rfl
  · exact h

/-- An admissible event keeps the invariant. -/
theorem Shared.Inv.apply {s : Shared} (hinv : s.Inv) (e : Event) (he : e.admissible) :
    (s.apply e).Inv := by
  cases e with
  | step i =>
    simp only [Shared.apply]
    cases hi : s.orders[i]? with
    | none => exact hinv
    | some o => exact hinv.step_order hi
  | submit item =>
    simp only [Event.admissible] at he
    simp only [Shared.apply]
    refine ⟨?_, ?_, ?_, ?_⟩
    · intro o ho
      rcases List.mem_append.mp ho with h | h
      · exact hinv.positive o h
      · simp only [List.mem_singleton] at h
        subst h
        exact he
    · intro id
      have := hinv.reserved_eq id
      simpa [Shared.held, Order.held] using this
    · intro id
      have := hinv.owed_le id
      simpa [Shared.owed, Order.owed] using this
    · intro o ho ing hing
      rcases List.mem_append.mp ho with h | h
      · exact hinv.stocked o h ing hing
      · simp only [List.mem_singleton] at h
        subst h
        simp [Order.owed] at hing
  | refill ing =>
    simp only [Event.admissible] at he
    simp only [Shared.apply]
    refine ⟨hinv.positive, ?_, ?_, ?_⟩
    · intro id
      have := hinv.reserved_eq id
      rw [reserved_congr (Refill_reservationManager s.machine ing) id]
      exact this
    · intro id
      have h1 := hinv.owed_le id
      have h2 : s.owed id = Shared.owed ⟨(Refill s.machine ing).1, s.orders⟩ id := rfl
      rw [← h2, Refill_available]
      split <;> omega
    · intro o ho x hx
      exact Refill_stocked _ _ _ (hinv.stocked o ho x hx)

/-- Every interleaving of admissible events keeps the invariant. -/
theorem Shared.Inv.run_events {s : Shared} (hinv : s.Inv) (events : List Event)
    (hadm : ∀ e ∈ events, e.admissible) : (s.run events).Inv := by
  induction events generalizing s with
  | nil => exact hinv
  | cons e events ih =>
    simp only [Shared.run, List.foldl_cons]
    exact ih (hinv.apply e (hadm e (List.mem_cons_self _ _)))
      (fun x hx => hadm x (List.mem_cons_of_mem _ hx))

/-- With no order in flight, all reserved counters zero and all available
quantities non-negative, the invariant holds. -/
theorem Shared.Inv.init (c : coffeeMachineImpl) (hres : ∀ id, c.reserved id = 0)
    (hav : ∀ id, 0 ≤ c.available id) : Shared.Inv { machine := c, orders := [] } := by
  refine ⟨?_, ?_, ?_, ?_⟩
  · intro o ho; simp at ho
  · intro id; simpa [Shared.held] using hres id
  · intro id; simpa [Shared.owed] using hav id
  · intro o ho; simp at ho

theorem Shared.owed_sum_nonneg {s : Shared} (hinv : s.Inv) (id : String) : 0 ≤ s.owed id := by
  apply List.sum_nonneg
  intro v hv
  obtain ⟨o, ho, rfl⟩ := List.mem_map.mp hv
  exact o.owed_required_nonneg (hinv.positive o ho) id

end vendingmachine

/-! ## `PourDrinks` -/

namespace vendingmachine

@[simp] theorem getOrCreateMutex_numOfOutlets (c : coffeeMachineImpl) (i : Ingredient) :
    (getOrCreateMutex c i).1.numOfOutlets = c.numOfOutlets := by
  unfold getOrCreateMutex
  split <;> rfl

@[simp] theorem reserve_numOfOutlets (c : coffeeMachineImpl) (i : Ingredient) :
    (reserveIngredientIfPossible c i).1.numOfOutlets = c.numOfOutlets := by
  rw [reserve_eq]
  split_ifs <;> simp

@[simp] theorem delete_numOfOutlets (c : coffeeMachineImpl) (i : Ingredient) :
    (deleteReservation c i).1.numOfOutlets = c.numOfOutlets := by
  rw [delete_eq]
  split_ifs <;> simp

@[simp] theorem consume_numOfOutlets (c : coffeeMachineImpl) (i : Ingredient) :
    (consumeIngredient c i).1.numOfOutlets = c.numOfOutlets := by
  rw [consume_eq]
  split_ifs <;> simp

theorem reserveLoop_numOfOutlets (c : coffeeMachineImpl) (l : List Ingredient) (k : Nat) :
    (reserveLoop c l k).1.numOfOutlets = c.numOfOutlets := by
  induction l generalizing c k with
  | nil => rfl
  | cons i l ih =>
    have h1 := reserve_numOfOutlets c i
    unfold reserveLoop
    cases h : reserveIngredientIfPossible c i with
    | mk c1 e =>
      rw [h] at h1
      cases e with
      | none => simp only []; rw [ih, h1]
      | some err => exact h1

theorem consumeLoop_numOfOutlets (c : coffeeMachineImpl) (l : List Ingredient) :
    (consumeLoop c l).1.numOfOutlets = c.numOfOutlets := by
  induction l generalizing c with
  | nil => rfl
  | cons i l ih =>
    have h1 := consume_numOfOutlets c i
    unfold consumeLoop
    cases h : consumeIngredient c i with
    | mk c1 e =>
      rw [h] at h1
      cases e with
      | none => simp only []; rw [ih, h1]
      | some err => exact h1

theorem deleteReservations_numOfOutlets (c : coffeeMachineImpl) (l : List Ingredient) :
    (deleteReservations c l).1.numOfOutlets = c.numOfOutlets := by
  induction l generalizing c with
  | nil => rfl
  | cons i l ih =>
    have h1 := delete_numOfOutlets c i
    unfold deleteReservations
    cases h : deleteReservation c i with
    | mk c1 e =>
      rw [h] at h1
      cases e with
      | none => simp only []; rw [ih, h1]
      | some err => exact h1

theorem attemptPouringDrink_numOfOutlets (c : coffeeMachineImpl) (item : Item) :
    (attemptPouringDrink c item).1.numOfOutlets = c.numOfOutlets := by
  have hb : (attemptBody c item).1.numOfOutlets = c.numOfOutlets := by
    unfold attemptBody
    have h1 := reserveLoop_numOfOutlets c item.Ingredients 0
    cases hr : reserveLoop c item.Ingredients 0 with
    | mk c1 e =>
      rw [hr] at h1
      cases e with
      | none => simp only []; rw [consumeLoop_numOfOutlets]; exact h1
      | some p => exact h1
  unfold attemptPouringDrink
  cases hbody : attemptBody c item with
  | mk c1 p =>
    obtain ⟨n, err⟩ := p
    rw [hbody] at hb
    have hd := deleteReservations_numOfOutlets c1 (item.Ingredients.take n)
    simp only []
    cases hdel : deleteReservations c1 (item.Ingredients.take n) with
    | mk c2 e =>
      rw [hdel] at hd
      cases e with
      | none => exact hd.trans hb
      | some derr => exact hd.trans hb

/-- A property of the state that the retried function keeps holds of the
state the retry loop ends in. -/
theorem doLoop_state {σ : Type} (f : σ → σ × Option Error) (rif : Error → Bool)
    (P : σ → Prop) (hP : ∀ s, P s → P (f s).1)
    (n : Nat) (s : σ) (log : retry.Error) (hs : P s) :
    P (retry.doLoop f rif n s log).state := by
  induction n generalizing s log with
  | zero => exact hs
  | succ n ih =>
    unfold retry.doLoop
    have h1 := hP s hs
    cases hf : f s with
    | mk s1 e =>
      rw [hf] at h1
      cases e with
      | none => exact h1
      | some err =>
        simp only []
        split
        · exact ih s1 _ h1
        · exact h1

theorem pourDrink_numOfOutlets (c : coffeeMachineImpl) (item : Item) :
    (pourDrink c item).1.numOfOutlets = c.numOfOutlets := by
  unfold pourDrink pourDrinkRetry retry.Do
  exact doLoop_state _ _ (fun s => s.numOfOutlets = c.numOfOutlets)
    (fun s hs => (attemptPouringDrink_numOfOutlets s item).trans hs) _ _ _ rfl

theorem pourDrink_item (c : coffeeMachineImpl) (item : Item) :
    (pourDrink c item).2.Item = item := by
  unfold pourDrink toPourDrinkResponse
  split <;> rfl

theorem flatten_set_perm {α β : Type} (f : α → List β) (l : List α) (w : Nat) (a b : α)
    (h : l[w]? = some a) :
    (((l.set w b).map f).flatten ++ f a).Perm ((l.map f).flatten ++ f b) := by
  induction l generalizing w with
  | nil => simp at h
  | cons x l ih =>
    cases w with
    | zero =>
      simp only [List.getElem?_cons_zero, Option.some.injEq] at h
      subst h
      simp only [List.set_cons_zero, List.map_cons, List.flatten_cons]
      rw [← Multiset.coe_eq_coe]
      simp only [← Multiset.coe_add]
      abel
    | succ w =>
      simp only [List.getElem?_cons_succ] at h
      have := ih w h
      simp only [List.set_cons_succ, List.map_cons, List.flatten_cons, List.append_assoc]
      exact List.Perm.append_left _ this

theorem Pool.init_inv (c : coffeeMachineImpl) (items : List Item) : (Pool.init c items).Inv := by
  refine ⟨?_, ?_, ?_, ?_, ?_, ?_⟩
  · simp [Pool.init, Pool.inFlight, MainPc.toSend]
  · simp [Pool.init]
  · simp [Pool.init]
  · simp [Pool.init]
  · intro i hi
    simp only [Pool.init, MainPc.spawning.injEq] at hi
    subst hi
    simp [Pool.init]
  · intro h
    exact absurd rfl (h 0)

/-- A turn of the main goroutine keeps the invariant. -/
theorem Pool.Inv.stepMain {s s1 : Pool} (hinv : s.Inv) (h : s.stepMain = some s1) :
    s1.Inv := by
  obtain ⟨hperm, hclosed, hdrained, hreturned, hspawning, hspawned⟩ := hinv
  obtain ⟨machine, items, main, inputCh, inputClosed, result, resultClosed, workers⟩ := s
  simp only at hperm hclosed hdrained hreturned hspawning hspawned
  cases main with
  | spawning i =>
    obtain ⟨hlen, hle⟩ := hspawning i rfl
    have hnc : inputClosed = false := by
      cases inputClosed with
      | false => rfl
      | true => simpa using hclosed.mp rfl
    simp only [Pool.stepMain] at h
    split_ifs at h with hlt
    · simp only [Option.some.injEq] at h
      subst h
      refine ⟨?_, ?_, ?_, ?_, ?_, ?_⟩
      · simpa [Pool.inFlight, MainPc.toSend, Worker.holds] using hperm
      · simp [hnc]
      · intro hex
        simp only [List.mem_append, List.mem_singleton, reduceCtorEq, or_false] at hex
        exact hdrained hex
      · intro hm; simp at hm
      · intro j hj
        simp only [MainPc.spawning.injEq] at hj
        subst hj
        simp only [List.length_append, List.length_singleton]
        omega
      · intro hn
        exact absurd rfl (hn (i + 1))
    · simp only [Option.some.injEq] at h
      subst h
      refine ⟨?_, ?_, ?_, ?_, ?_, ?_⟩
      · simpa [Pool.inFlight, MainPc.toSend] using hperm
      · simp [hnc]
      · exact hdrained
      · intro hm; simp at hm
      · intro j hj; simp at hj
      · intro _
        simp only
        omega
  | sending rest =>
    have hnc : inputClosed = false := by
      cases inputClosed with
      | false => rfl
      | true => simpa using hclosed.mp rfl
    have hlen := hspawned (fun i => by simp)
    have hnoex : Worker.exited ∉ workers := by
      intro hex
      have := (hdrained hex).2
      simp [hnc] at this
    cases rest with
    | nil =>
      simp only [Pool.stepMain, Option.some.injEq] at h
      subst h
      refine ⟨?_, ?_, ?_, ?_, ?_, ?_⟩
      · simpa [Pool.inFlight, MainPc.toSend] using hperm
      · simp
      · intro hex; exact absurd hex hnoex
      · intro hm; simp at hm
      · intro j hj; simp at hj
      · intro _; exact hlen
    | cons item rest =>
      simp only [Pool.stepMain] at h
      split_ifs at h with hroom
      simp only [Option.some.injEq] at h
      subst h
      refine ⟨?_, ?_, ?_, ?_, ?_, ?_⟩
      · simpa [Pool.inFlight, MainPc.toSend] using hperm
      · simp [hnc]
      · intro hex; exact absurd hex hnoex
      · intro hm; simp at hm
      · intro j hj; simp at hj
      · intro _; exact hlen
  | waiting =>
    have hlen := hspawned (fun i => by simp)
    simp only [Pool.stepMain] at h
    split_ifs at h with hall
    simp only [Option.some.injEq] at h
    subst h
    refine ⟨?_, ?_, ?_, ?_, ?_, ?_⟩
    · simpa [Pool.inFlight, MainPc.toSend] using hperm
    · simpa using hclosed
    · exact hdrained
    · intro _
      refine ⟨?_, rfl⟩
      intro w hw
      simpa using (List.all_eq_true.mp hall) w hw
    · intro j hj; simp at hj
    · intro _; exact hlen
  | returned => simp [Pool.stepMain] at h

theorem mem_set_of_ne {α : Type} {l : List α} {w : Nat} {a b : α} (h : a ∈ l.set w b)
    (hne : a ≠ b) : a ∈ l := by
  rcases List.mem_or_eq_of_mem_set h with h1 | h1
  · exact h1
  · exact absurd h1 hne

/-- A turn of a worker keeps the invariant. -/
theorem Pool.Inv.stepWorker {s s1 : Pool} (hinv : s.Inv) (w : Nat)
    (h : s.stepWorker w = some s1) : s1.Inv := by
  obtain ⟨hperm, hclosed, hdrained, hreturned, hspawning, hspawned⟩ := hinv
  obtain ⟨machine, items, main, inputCh, inputClosed, result, resultClosed, workers⟩ := s
  simp only at hperm hclosed hdrained hreturned hspawning hspawned
  simp only [Pool.stepWorker] at h
  cases hw : workers[w]? with
  | none => simp [hw] at h
  | some wk =>
    have hmem : wk ∈ workers := mem_of_getElem _ _ _ hw
    rw [hw] at h
    cases wk with
    | receiving =>
      have hnr : main ≠ MainPc.returned := by
        intro hm
        have := (hreturned hm).1 _ hmem
        simp at this
      cases inputCh with
      | cons item rest =>
        simp only [Option.some.injEq] at h
        subst h
        have hp := flatten_set_perm Worker.holds workers w _ (Worker.pouring item) hw
        refine ⟨?_, hclosed, ?_, ?_, ?_, ?_⟩
        · refine List.Perm.trans ?_ hperm
          simp only [Pool.inFlight]
          rw [← Multiset.coe_eq_coe] at hp ⊢
          simp only [Worker.holds, ← Multiset.coe_add, ← Multiset.singleton_add,
            ← Multiset.cons_coe, Multiset.coe_nil, add_zero] at hp ⊢
          rw [hp]
          abel
        · intro hex
          have := (hdrained (mem_set_of_ne hex (by simp))).1
          simp at this
        · intro hm; exact absurd hm hnr
        · intro j hj
          simpa using hspawning j hj
        · intro hn
          simpa using hspawned hn
      | nil =>
        simp only at h
        split_ifs at h with hcl
        simp only [Option.some.injEq] at h
        subst h
        have hp := flatten_set_perm Worker.holds workers w _ Worker.exited hw
        refine ⟨?_, hclosed, ?_, ?_, ?_, ?_⟩
        · refine List.Perm.trans ?_ hperm
          simp only [Pool.inFlight]
          rw [← Multiset.coe_eq_coe] at hp ⊢
          simp only [Worker.holds, ← Multiset.coe_add, Multiset.coe_nil, add_zero] at hp ⊢
          rw [hp]
        · intro _; exact ⟨rfl, hcl⟩
        · intro hm; exact absurd hm hnr
        · intro j hj
          simpa using hspawning j hj
        · intro hn
          simpa using hspawned hn
    | pouring item =>
      have hnr : main ≠ MainPc.returned := by
        intro hm
        have := (hreturned hm).1 _ hmem
        simp at this
      simp only [Option.some.injEq] at h
      subst h
      have hp := flatten_set_perm Worker.holds workers w _
        (Worker.sending (pourDrink machine item).2) hw
      refine ⟨?_, hclosed, ?_, ?_, ?_, ?_⟩
      · refine List.Perm.trans ?_ hperm
        simp only [Pool.inFlight]
        rw [← Multiset.coe_eq_coe] at hp ⊢
        simp only [Worker.holds, pourDrink_item, ← Multiset.coe_add] at hp ⊢
        have hp1 := add_right_cancel hp
        rw [hp1]
      · intro hex
        exact hdrained (mem_set_of_ne hex (by simp))
      · intro hm; exact absurd hm hnr
      · intro j hj
        simpa [pourDrink_numOfOutlets] using hspawning j hj
      · intro hn
        simpa [pourDrink_numOfOutlets] using hspawned hn
    | sending resp =>
      have hnr : main ≠ MainPc.returned := by
        intro hm
        have := (hreturned hm).1 _ hmem
        simp at this
      simp only at h
      split_ifs at h with hroom
      simp only [Option.some.injEq] at h
      subst h
      have hp := flatten_set_perm Worker.holds workers w _ Worker.receiving hw
      refine ⟨?_, hclosed, ?_, ?_, ?_, ?_⟩
      · refine List.Perm.trans ?_ hperm
        simp only [Pool.inFlight]
        rw [← Multiset.coe_eq_coe] at hp ⊢
        simp only [Worker.holds, List.map_append, List.map_cons, List.map_nil,
          ← Multiset.coe_add, ← Multiset.singleton_add, ← Multiset.cons_coe,
          Multiset.coe_nil, add_zero] at hp ⊢
        rw [← hp]
        abel
      · intro hex
        exact hdrained (mem_set_of_ne hex (by simp))
      · intro hm; exact absurd hm hnr
      · intro j hj
        simpa using hspawning j hj
      · intro hn
        simpa using hspawned hn
    | exited => simp at h

/-- Every turn keeps the invariant. -/
theorem Pool.Inv.step_turn {s s1 : Pool} (hinv : s.Inv) (t : Turn) (h : s.step t = some s1) :
    s1.Inv := by
  cases t with
  | main => exact hinv.stepMain h
  | worker w => exact hinv.stepWorker w h

/-- Every schedule keeps the invariant. -/
theorem Pool.Inv.run_schedule {s s1 : Pool} (hinv : s.Inv) (schedule : List Turn)
    (h : s.run schedule = some s1) : s1.Inv := by
  induction schedule generalizing s with
  | nil =>
    simp only [Pool.run, Option.some.injEq] at h
    subst h
    exact hinv
  | cons t schedule ih =>
    simp only [Pool.run] at h
    cases hs : s.step t with
    | none => simp [hs] at h
    | some s2 =>
      rw [hs] at h
      exact ih (hinv.step_turn t hs) h

theorem sum_map_set_nat {α : Type} (l : List α) (f : α → Nat) (i : Nat) (a b : α)
    (h : l[i]? = some a) : ((l.set i b).map f).sum + f a = (l.map f).sum + f b := by
  induction l generalizing i with
  | nil => simp at h
  | cons x l ih =>
    cases i with
    | zero =>
      simp only [List.getElem?_cons_zero, Option.some.injEq] at h
      subst h
      simp only [List.set_cons_zero, List.map_cons, List.sum_cons]
      omega
    | succ i =>
      simp only [List.getElem?_cons_succ] at h
      have := ih i h
      simp only [List.set_cons_succ, List.map_cons, List.sum_cons]
      omega

theorem length_holds_le (l : List Worker) (w : Nat) (a : Worker) (h : l[w]? = some a) :
    a.holds.length ≤ ((l.map Worker.holds).flatten).length := by
  induction l generalizing w with
  | nil => simp at h
  | cons x l ih =>
    cases w with
    | zero =>
      simp only [List.getElem?_cons_zero, Option.some.injEq] at h
      subst h
      simp
    | succ w =>
      simp only [List.getElem?_cons_succ] at h
      have := ih w h
      simp only [List.map_cons, List.flatten_cons, List.length_append]
      omega

/-- A turn leaves the batch and the outlet count as they are. -/
theorem Pool.step_frame {s s1 : Pool} (t : Turn) (h : s.step t = some s1) :
    s1.items = s.items ∧ s1.machine.numOfOutlets = s.machine.numOfOutlets := by
  cases t with
  | main =>
    simp only [Pool.step, Pool.stepMain] at h
    split at h
    · split_ifs at h <;> (simp only [Option.some.injEq] at h; subst h; exact ⟨rfl, rfl⟩)
    · split_ifs at h
      simp only [Option.some.injEq] at h; subst h; exact ⟨rfl, rfl⟩
    · simp only [Option.some.injEq] at h; subst h; exact ⟨rfl, rfl⟩
    · split_ifs at h
      simp only [Option.some.injEq] at h; subst h; exact ⟨rfl, rfl⟩
    · simp at h
  | worker w =>
    simp only [Pool.step, Pool.stepWorker] at h
    split at h
    · simp at h
    · split at h
      · simp only [Option.some.injEq] at h; subst h; exact ⟨rfl, rfl⟩
      · split_ifs at h
        simp only [Option.some.injEq] at h; subst h; exact ⟨rfl, rfl⟩
    · simp only [Option.some.injEq] at h; subst h
      exact ⟨rfl, pourDrink_numOfOutlets _ _⟩
    · split_ifs at h
      simp only [Option.some.injEq] at h; subst h; exact ⟨rfl, rfl⟩
    · simp at h

theorem Pool.run_frame {s s1 : Pool} (schedule : List Turn) (h : s.run schedule = some s1) :
    s1.items = s.items ∧ s1.machine.numOfOutlets = s.machine.numOfOutlets := by
  induction schedule generalizing s with
  | nil =>
    simp only [Pool.run, Option.some.injEq] at h
    subst h
    exact ⟨rfl, rfl⟩
  | cons t schedule ih =>
    simp only [Pool.run] at h
    cases hs : s.step t with
    | none => simp [hs] at h
    | some s2 =>
      rw [hs] at h
      obtain ⟨h1, h2⟩ := Pool.step_frame t hs
      obtain ⟨h3, h4⟩ := ih h
      exact ⟨h3.trans h1, h4.trans h2⟩

/-- Every turn lowers the measure. -/
theorem Pool.step_measure {s s1 : Pool} (t : Turn) (h : s.step t = some s1) :
    s1.measure + 1 ≤ s.measure := by
  obtain ⟨machine, items, main, inputCh, inputClosed, result, resultClosed, workers⟩ := s
  cases t with
  | main =>
    simp only [Pool.step, Pool.stepMain] at h
    cases main with
    | spawning i =>
      simp only at h
      split_ifs at h with hlt
      · simp only [Option.some.injEq] at h; subst h
        simp only [Pool.measure, List.map_append, List.sum_append, List.map_cons, List.map_nil,
          List.sum_cons, List.sum_nil, Worker.weight]
        omega
      · simp only [Option.some.injEq] at h; subst h
        simp only [Pool.measure]
        omega
    | sending rest =>
      cases rest with
      | nil =>
        simp only [Option.some.injEq] at h; subst h
        simp only [Pool.measure]
        omega
      | cons item rest =>
        simp only at h
        split_ifs at h
        simp only [Option.some.injEq] at h; subst h
        simp only [Pool.measure, List.length_append, List.length_cons, List.length_nil]
        omega
    | waiting =>
      simp only at h
      split_ifs at h
      simp only [Option.some.injEq] at h; subst h
      simp only [Pool.measure]
      omega
    | returned => simp at h
  | worker w =>
    simp only [Pool.step, Pool.stepWorker] at h
    cases hw : workers[w]? with
    | none => simp [hw] at h
    | some wk =>
      rw [hw] at h
      cases wk with
      | receiving =>
        cases inputCh with
        | cons item rest =>
          simp only [Option.some.injEq] at h; subst h
          have := sum_map_set_nat workers Worker.weight w _ (Worker.pouring item) hw
          simp only [Worker.weight] at this
          simp only [Pool.measure, List.length_cons]
          omega
        | nil =>
          simp only at h
          split_ifs at h
          simp only [Option.some.injEq] at h; subst h
          have := sum_map_set_nat workers Worker.weight w _ Worker.exited hw
          simp only [Worker.weight] at this
          simp only [Pool.measure]
          omega
      | pouring item =>
        simp only [Option.some.injEq] at h; subst h
        have := sum_map_set_nat workers Worker.weight w _
          (Worker.sending (pourDrink machine item).2) hw
        simp only [Worker.weight] at this
        simp only [Pool.measure, pourDrink_numOfOutlets]
        omega
      | sending resp =>
        simp only at h
        split_ifs at h
        simp only [Option.some.injEq] at h; subst h
        have := sum_map_set_nat workers Worker.weight w _ Worker.receiving hw
        simp only [Worker.weight] at this
        simp only [Pool.measure]
        omega
      | exited => simp at h

/-- A schedule of `n` turns lowers the measure by at least `n`. -/
theorem Pool.run_measure {s s1 : Pool} (schedule : List Turn)
    (h : s.run schedule = some s1) : schedule.length + s1.measure ≤ s.measure := by
  induction schedule generalizing s with
  | nil =>
    simp only [Pool.run, Option.some.injEq] at h
    subst h
    simp
  | cons t schedule ih =>
    simp only [Pool.run] at h
    cases hs : s.step t with
    | none => simp [hs] at h
    | some s2 =>
      rw [hs] at h
      have h1 := Pool.step_measure t hs
      have h2 := ih h
      simp only [List.length_cons]
      omega

/-- A worker that has not exited can take a turn, unless it waits at an open
and empty `inputCh`. -/
theorem Pool.worker_can_step {s : Pool} (hinv : s.Inv) (w : Nat) (wk : Worker)
    (hw : s.workers[w]? = some wk) (hne : wk ≠ Worker.exited)
    (hin : s.inputCh ≠ [] ∨ s.inputClosed = true) : (s.stepWorker w).isSome = true := by
  have hlen := hinv.perm.length_eq
  have hholds := length_holds_le s.workers w wk hw
  simp only [Pool.inFlight, List.length_append, List.length_map] at hlen
  simp only [Pool.stepWorker, hw]
  cases wk with
  | receiving =>
    cases hch : s.inputCh with
    | cons item rest => simp
    | nil =>
      rcases hin with h | h
      · exact absurd hch h
      · simp [h]
  | pouring item => simp
  | sending resp =>
    simp only [Worker.holds, List.length_singleton] at hholds
    have : s.result.length < s.items.length := by omega
    simp [this]
  | exited => exact absurd rfl hne

/-- With at least one outlet, a call of `PourDrinks` that has not returned can
always go on: some goroutine can take a turn. -/
theorem Pool.progress {s : Pool} (hinv : s.Inv) (hW : 1 ≤ s.machine.numOfOutlets)
    (hmain : s.main ≠ MainPc.returned) : ∃ t, (s.step t).isSome = true := by
  cases hm : s.main with
  | spawning i =>
    refine ⟨Turn.main, ?_⟩
    simp only [Pool.step, Pool.stepMain, hm]
    split_ifs <;> rfl
  | sending rest =>
    have hlen := hinv.spawned (fun i => by simp [hm])
    have hnc : s.inputClosed = false := by
      cases hc : s.inputClosed with
      | false => rfl
      | true =>
        have := hinv.closed_iff.mp hc
        simp [hm] at this
    cases rest with
    | nil =>
      refine ⟨Turn.main, ?_⟩
      simp [Pool.step, Pool.stepMain, hm]
    | cons item rest =>
      by_cases hroom : s.inputCh.length < inputChCap
      · refine ⟨Turn.main, ?_⟩
        simp [Pool.step, Pool.stepMain, hm, hroom]
      · have h0 : 0 < s.workers.length := by omega
        have hw : s.workers[0]? = some (s.workers[0]) := List.getElem?_eq_getElem h0
        refine ⟨Turn.worker 0, ?_⟩
        apply Pool.worker_can_step hinv 0 _ hw
        · intro hex
          have hmem : Worker.exited ∈ s.workers := by
            rw [← hex]
            exact List.getElem_mem h0
          have := (hinv.drained hmem).2
          simp [hnc] at this
        · left
          intro hnil
          simp [hnil, inputChCap] at hroom
  | waiting =>
    have hcl : s.inputClosed = true := hinv.closed_iff.mpr (Or.inl hm)
    by_cases hall : s.workers.all (fun w => decide (w = Worker.exited)) = true
    · refine ⟨Turn.main, ?_⟩
      simp only [Pool.step, Pool.stepMain, hm]
      rw [if_pos hall]
      rfl
    · have hex : ∃ wk ∈ s.workers, wk ≠ Worker.exited := by
        by_contra hcon
        apply hall
        rw [List.all_eq_true]
        intro x hx
        by_contra hx1
        apply hcon
        exact ⟨x, hx, by simpa using hx1⟩
      obtain ⟨wk, hwk, hne⟩ := hex
      obtain ⟨w, hw⟩ := List.getElem?_of_mem hwk
      exact ⟨Turn.worker w, Pool.worker_can_step hinv w wk hw hne (Or.inr hcl)⟩
  | returned => exact absurd hm hmain

/-- C8, as stated, fails: with an outlet count of 0 and a batch of one order,
`PourDrinks` starts no worker, queues the order, closes both channels and
returns a closed stream that yields no outcome. -/
theorem PourDrinks_no_outlet_counterexample :
    ((Pool.init
        (New { ReservationManager := { reservations := [] }
               ResourceManager := { availableResources := [("water", 10)] }
               NumOfOutlets := 0 })
        [{ ID := "tea", Ingredients := [{ ID := "water", Quantity := 6 }] }]).run
      [Turn.main, Turn.main, Turn.main, Turn.main]).map
        (fun s => (s.main, s.resultClosed, s.result))
      = some (MainPc.returned, true, []) := by
  decide

/-- C8, amended: for every finite batch of orders and every outlet count of
at least 1, every run of `PourDrinks` is finite (at most
`2 * outlets + 4 * len(items) + 3` turns), can go on as long as `PourDrinks`
has not returned, and once it has returned the stream is closed and yields
exactly one outcome per input order: the items of the responses are the items
of the batch, each as often as it was submitted, so an empty batch yields no
outcome and no order loses its outcome to another order's error. -/
theorem PourDrinks_one_outcome_per_order (c : coffeeMachineImpl) (items : List Item)
    (hW : 1 ≤ c.numOfOutlets) (schedule : List Turn) (s : Pool)
    (hrun : (Pool.init c items).run schedule = some s) :
    schedule.length ≤ 2 * c.numOfOutlets.toNat + 4 * items.length + 3 ∧
    (s.main ≠ MainPc.returned → ∃ t, (s.step t).isSome = true) ∧
    (s.main = MainPc.returned →
      s.resultClosed = true ∧ (s.result.map fun r => r.Item).Perm items ∧
      s.result.length = items.length ∧ (items = [] → s.result = [])) := by
  have hinv := (Pool.init_inv c items).run_schedule schedule hrun
  obtain ⟨hitems, hout⟩ := Pool.run_frame schedule hrun
  have hmeasure := Pool.run_measure schedule hrun
  simp only [Pool.init] at hitems hout
  refine ⟨?_, ?_, ?_⟩
  · simp only [Pool.measure, Pool.init, List.length_nil, List.map_nil, List.sum_nil] at hmeasure
    omega
  · intro hmain
    exact Pool.progress hinv (by rw [hout]; exact hW) hmain
  · intro hret
    obtain ⟨hall, hclosed⟩ := hinv.returned hret
    have hlen := hinv.spawned (fun i => by simp [hret])
    have h0 : 0 < s.workers.length := by omega
    have hmem : Worker.exited ∈ s.workers := by
      rw [← hall _ (List.getElem_mem h0)]
      exact List.getElem_mem h0
    have hin := (hinv.drained hmem).1
    have hholds : (s.workers.map Worker.holds).flatten = [] := by
      rw [List.flatten_eq_nil_iff]
      intro l hl
      obtain ⟨wk, hwk, rfl⟩ := List.mem_map.mp hl
      rw [hall wk hwk]
      rfl
    have hperm : (s.result.map fun r => r.Item).Perm items := by
      have := hinv.perm
      simpa [Pool.inFlight, hholds, hin, hret, MainPc.toSend, hitems] using this
    refine ⟨hclosed, hperm, ?_, ?_⟩
    · simpa using hperm.length_eq
    · intro hnil
      subst hnil
      simpa using hperm

/-- C8, witness: one outlet and a batch of one order; the run of nine turns
ends with `PourDrinks` returned and one outcome in the stream. -/
theorem PourDrinks_one_outcome_per_order_witness :
    (((Pool.init
        (New { ReservationManager := { reservations := [] }
               ResourceManager := { availableResources := [("water", 10)] }
               NumOfOutlets := 1 })
        [{ ID := "tea", Ingredients := [{ ID := "water", Quantity := 6 }] }]).run
      [Turn.main, Turn.main, Turn.main, Turn.worker 0, Turn.worker 0, Turn.worker 0,
       Turn.main, Turn.worker 0, Turn.main]).get (by decide)).result.length = 1 :=
  ((PourDrinks_one_outcome_per_order
      (New { ReservationManager := { reservations := [] }
             ResourceManager := { availableResources := [("water", 10)] }
             NumOfOutlets := 1 })
      [{ ID := "tea", Ingredients := [{ ID := "water", Quantity := 6 }] }]
      (by decide)
      [Turn.main, Turn.main, Turn.main, Turn.worker 0, Turn.worker 0, Turn.worker 0,
       Turn.main, Turn.worker 0, Turn.main]
      _ (Option.some_get (by decide)).symm).2.2 (by decide)).2.2.1

end vendingmachine

/-! ## The reservation store -/

namespace reservationmanager

/-- C11: for every reservation-store state, ingredient id and quantity `q`,
`Delete` fails with `ErrInsufficientResource` exactly when `q` exceeds the
current reserved counter of the ingredient (zero if untouched); when it fails
the ledger is unchanged, and when it succeeds the reserved counter of that
ingredient decreases by exactly `q` and every other counter keeps its
value. -/
theorem Delete_spec (r : repositoryImpl) (id : String) (q : Int) :
    ((Delete r { IngredientID := id, DeleteQuantity := q }).2
        = some (Error.ErrInsufficientResource id) ↔ q > r.reservations.index id) ∧
    ((Delete r { IngredientID := id, DeleteQuantity := q }).2 = none ↔
        ¬ q > r.reservations.index id) ∧
    (q > r.reservations.index id →
      (Delete r { IngredientID := id, DeleteQuantity := q }).1 = r) ∧
    (¬ q > r.reservations.index id →
      ∀ id1, (Delete r { IngredientID := id, DeleteQuantity := q }).1.reservations.index id1
        = if id = id1 then r.reservations.index id - q else r.reservations.index id1) := by
  unfold Delete
  by_cases h : q > r.reservations.index id <;> simp [h]

/-- C11, witness: 10 of the 20 reserved units are released. -/
theorem Delete_spec_witness :
    (Delete { reservations := [("1234", 20)] }
      { IngredientID := "1234", DeleteQuantity := 10 }).1.reservations.index "1234" = 10 :=
  (Delete_spec { reservations := [("1234", 20)] } "1234" 10).2.2.2 (by decide) "1234"

/-- C17: for every reservation-store state and ingredient id, `Get` never
fails and returns an ingredient with the requested id whose quantity is the
current reserved counter, which is zero for an ingredient that was never
reserved; `Get` returns no store, so it changes no counter. -/
theorem Get_spec (r : repositoryImpl) (id : String) :
    Get r { IngredientID := id } = Except.ok { ID := id, Quantity := r.reservations.index id } ∧
    (r.reservations.commaOk id = none →
      Get r { IngredientID := id } = Except.ok { ID := id, Quantity := 0 }) ∧
    Get New { IngredientID := id } = Except.ok { ID := id, Quantity := 0 } := by
  refine ⟨rfl, ?_, rfl⟩
  intro h
  simp [Get, GoMap.index, h]

/-- C17, witness: milk was never reserved in a store that holds a reservation
of water. -/
theorem Get_spec_witness :
    Get { reservations := [("water", 3)] } { IngredientID := "milk" }
      = Except.ok { ID := "milk", Quantity := 0 } :=
  (Get_spec { reservations := [("water", 3)] } "milk").2.1 (by decide)

theorem applyCall_index_nonneg (r : repositoryImpl) (call : Call)
    (hq : 0 ≤ call.quantity) (hr : ∀ id, 0 ≤ r.reservations.index id) (id : String) :
    0 ≤ (applyCall r call).reservations.index id := by
  have h1 := hr id
  cases call with
  | create request =>
    have h0 := hr request.IngredientID
    simp only [Call.quantity] at hq
    simp only [applyCall, Create, GoMap.index_assign]
    split <;> omega
  | delete request =>
    have h0 := hr request.IngredientID
    simp only [applyCall, Delete]
    split_ifs with h
    · exact h1
    · simp only [GoMap.index_assign]
      split <;> omega

theorem runCalls_index_nonneg (r : repositoryImpl) (calls : List Call)
    (hq : ∀ call ∈ calls, 0 ≤ call.quantity) (hr : ∀ id, 0 ≤ r.reservations.index id)
    (id : String) : 0 ≤ (runCalls r calls).reservations.index id := by
  induction calls generalizing r with
  | nil => exact hr id
  | cons call calls ih =>
    simp only [runCalls, List.foldl_cons]
    exact ih (applyCall r call) (fun x hx => hq x (List.mem_cons_of_mem _ hx))
      (applyCall_index_nonneg r call (hq call (List.mem_cons_self _ _)) hr)

end reservationmanager

/-! ## The inventory store: lookups and refills -/

namespace resourcemanager

theorem UpdateIngredient_commaOk_none (m : repositoryImpl) (req : UpdateRequest)
    (id : String) :
    (UpdateIngredient m req).1.availableResources.commaOk id = none ↔
      m.availableResources.commaOk id = none ∧ touches m req id = false := by
  have hcr : ¬ UpdateTypeConsume = UpdateTypeRefill := by decide
  have hrc : ¬ UpdateTypeRefill = UpdateTypeConsume := by decide
  unfold touches
  by_cases hc : req.UpdateType = UpdateTypeConsume
  · unfold UpdateIngredient
    simp only [hc, if_true]
    cases hk : m.availableResources.commaOk req.IngredientID with
    | none => simp [hcr]
    | some val =>
      by_cases hlt : val < req.ResourceQuantity
      · simp [hlt, hcr]
      · by_cases hid : req.IngredientID = id
        · simp [hlt, hid, hcr]
        · simp [hlt, hid, hcr]
  · by_cases hr : req.UpdateType = UpdateTypeRefill
    · unfold UpdateIngredient
      simp only [hr, hrc, if_false, if_true]
      by_cases hid : req.IngredientID = id
      · simp [hid]
      · simp [hid]
    · unfold UpdateIngredient
      simp [hc, hr]

theorem runUpdates_commaOk_none (m : repositoryImpl) (reqs : List UpdateRequest)
    (id : String) :
    (runUpdates m reqs).availableResources.commaOk id = none ↔
      m.availableResources.commaOk id = none ∧ touched m reqs id = false := by
  induction reqs generalizing m with
  | nil => simp [runUpdates, touched]
  | cons req reqs ih =>
    have h := ih (UpdateIngredient m req).1
    simp only [runUpdates, List.foldl_cons] at h ⊢
    rw [h, UpdateIngredient_commaOk_none]
    simp only [touched, Bool.or_eq_false_iff]
    tauto

theorem GetIngredient_eq (m : repositoryImpl) (id : String) :
    (m.availableResources.commaOk id = none →
      GetIngredient m { IngredientID := id }
        = Except.error (Error.ErrResourceNotAvailable id)) ∧
    (m.availableResources.commaOk id ≠ none →
      GetIngredient m { IngredientID := id }
        = Except.ok { ID := id, Quantity := m.availableResources.index id }) := by
  unfold GetIngredient
  cases h : m.availableResources.commaOk id <;> simp

/-- C13: for every inventory state and ingredient id, `GetIngredient` either
fails with `ErrResourceNotAvailable` (returning no ingredient) or returns the
ingredient with that id and its current quantity, and it returns no store, so
the store is unchanged; after any sequence of `UpdateIngredient` calls on the
empty store it fails exactly when no call of the sequence was a refill or a
successful consume of that ingredient. -/
theorem GetIngredient_spec (reqs : List UpdateRequest) (id : String) :
    (∀ m : repositoryImpl,
      GetIngredient m { IngredientID := id }
          = Except.error (Error.ErrResourceNotAvailable id) ∨
        GetIngredient m { IngredientID := id }
          = Except.ok { ID := id, Quantity := m.availableResources.index id }) ∧
    (GetIngredient (runUpdates New reqs) { IngredientID := id }
        = Except.error (Error.ErrResourceNotAvailable id) ↔ touched New reqs id = false) ∧
    (GetIngredient (runUpdates New reqs) { IngredientID := id }
        = Except.ok { ID := id, Quantity := (runUpdates New reqs).availableResources.index id }
      ↔ touched New reqs id = true) := by
  have hkey := runUpdates_commaOk_none New reqs id
  have hnew : New.availableResources.commaOk id = none := rfl
  simp only [hnew, true_and] at hkey
  have hget := GetIngredient_eq (runUpdates New reqs) id
  refine ⟨?_, ?_, ?_⟩
  · intro m
    have h := GetIngredient_eq m id
    by_cases hc : m.availableResources.commaOk id = none
    · exact Or.inl (h.1 hc)
    · exact Or.inr (h.2 hc)
  · constructor
    · intro h
      by_contra hcon
      have hne : (runUpdates New reqs).availableResources.commaOk id ≠ none :=
        fun e => hcon (hkey.mp e)
      rw [hget.2 hne] at h
      exact absurd h (by simp)
    · intro h
      exact hget.1 (hkey.mpr h)
  · constructor
    · intro h
      by_contra hcon
      have hf : touched New reqs id = false := by simpa using hcon
      rw [hget.1 (hkey.mpr hf)] at h
      exact absurd h (by simp)
    · intro h
      apply hget.2
      intro e
      rw [hkey.mp e] at h
      exact absurd h (by simp)

/-- C15, the code at the input of the repository's test "quantity becomes 0
after update": consuming all 5 units of the ingredient succeeds and the
available-resources map still has an entry for the id, with quantity 0. -/
theorem UpdateIngredient_consume_all_keeps_entry :
    (UpdateIngredient { availableResources := [("Ingredient1234", 5)] }
      { IngredientID := "Ingredient1234", UpdateType := UpdateTypeConsume,
        ResourceQuantity := 5 }).2
      = Except.ok { ID := "Ingredient1234", Quantity := 0 } ∧
    (UpdateIngredient { availableResources := [("Ingredient1234", 5)] }
      { IngredientID := "Ingredient1234", UpdateType := UpdateTypeConsume,
        ResourceQuantity := 5 }).1.availableResources.commaOk "Ingredient1234" = some 0 := by
  decide

end resourcemanager

/-! ## The scenario of two orders for the same water -/

namespace vendingmachine

/-- C20: starting from stock `water: 10` (a refill of the new machine) and no
reservations, two orders that each require `water: 6` are poured one after the
other: the first is PREPARED; the second is NOT_PREPARED after a single
attempt that fails with `ErrInsufficientResource` for water, and its one
rejection reason is the message of that error log; the final stock of water
is 4 and the reserved counter is back at 0.  The same two outcomes, in this
order, come out of `PourDrinks` with one outlet. -/
theorem two_orders_for_the_same_water :
    (pourDrink
      (Refill (New { ReservationManager := reservationmanager.New
                     ResourceManager := resourcemanager.New
                     NumOfOutlets := 1 }) { ID := "water", Quantity := 10 }).1
      { ID := "first", Ingredients := [{ ID := "water", Quantity := 6 }] }).2.Outcome
      = GetItemOutcome.GetItemOutcomePrepared ∧
    (pourDrink
      (pourDrink
        (Refill (New { ReservationManager := reservationmanager.New
                       ResourceManager := resourcemanager.New
                       NumOfOutlets := 1 }) { ID := "water", Quantity := 10 }).1
        { ID := "first", Ingredients := [{ ID := "water", Quantity := 6 }] }).1
      { ID := "second", Ingredients := [{ ID := "water", Quantity := 6 }] }).2
      = { Item := { ID := "second", Ingredients := [{ ID := "water", Quantity := 6 }] }
          Outcome := GetItemOutcome.GetItemOutcomeNotPrepared
          RejectReasons :=
            [{ RejectReasonMsg :=
                retry.Error.Error [Error.ErrInsufficientResource "water"] }] } ∧
    (pourDrinkRetry
      (pourDrink
        (Refill (New { ReservationManager := reservationmanager.New
                       ResourceManager := resourcemanager.New
                       NumOfOutlets := 1 }) { ID := "water", Quantity := 10 }).1
        { ID := "first", Ingredients := [{ ID := "water", Quantity := 6 }] }).1
      { ID := "second", Ingredients := [{ ID := "water", Quantity := 6 }] }).errorLog
      = [Error.ErrInsufficientResource "water"] ∧
    (pourDrink
      (pourDrink
        (Refill (New { ReservationManager := reservationmanager.New
                       ResourceManager := resourcemanager.New
                       NumOfOutlets := 1 }) { ID := "water", Quantity := 10 }).1
        { ID := "first", Ingredients := [{ ID := "water", Quantity := 6 }] }).1
      { ID := "second", Ingredients := [{ ID := "water", Quantity := 6 }] }).1.available "water"
      = 4 ∧
    (pourDrink
      (pourDrink
        (Refill (New { ReservationManager := reservationmanager.New
                       ResourceManager := resourcemanager.New
                       NumOfOutlets := 1 }) { ID := "water", Quantity := 10 }).1
        { ID := "first", Ingredients := [{ ID := "water", Quantity := 6 }] }).1
      { ID := "second", Ingredients := [{ ID := "water", Quantity := 6 }] }).1.reserved "water"
      = 0 ∧
    ((Pool.init
        (Refill (New { ReservationManager := reservationmanager.New
                       ResourceManager := resourcemanager.New
                       NumOfOutlets := 1 }) { ID := "water", Quantity := 10 }).1
        [{ ID := "first", Ingredients := [{ ID := "water", Quantity := 6 }] },
         { ID := "second", Ingredients := [{ ID := "water", Quantity := 6 }] }]).run
      [Turn.main, Turn.main, Turn.main, Turn.main, Turn.main,
       Turn.worker 0, Turn.worker 0, Turn.worker 0,
       Turn.worker 0, Turn.worker 0, Turn.worker 0,
       Turn.worker 0, Turn.main]).map
        (fun s => (s.main, s.result.map (fun r => (r.Item.ID, r.Outcome)),
          s.machine.available "water", s.machine.reserved "water"))
      = some (MainPc.returned,
          [("first", GetItemOutcome.GetItemOutcomePrepared),
           ("second", GetItemOutcome.GetItemOutcomeNotPrepared)], 4, 0) := by
  decide

end vendingmachine

/-! ## When an attempt succeeds -/

namespace vendingmachine

theorem required_eq_zero_of_not_mem (l : List Ingredient) (id : String)
    (h : ∀ j ∈ l, j.ID ≠ id) : required l id = 0 := by
  induction l with
  | nil => rfl
  | cons i l ih =>
    have h1 : ¬ i.ID = id := h i (List.mem_cons_self _ _)
    rw [required_cons, ih (fun j hj => h j (List.mem_cons_of_mem _ hj))]
    simp [h1]

theorem required_perm {l1 l2 : List Ingredient} (h : l1.Perm l2) (id : String) :
    required l1 id = required l2 id := by
  unfold required
  exact (h.map _).sum_eq

/-- With non-negative quantities the reserve loop succeeds exactly when every
requirement names a stocked ingredient whose free quantity covers the list's
total for that ingredient. -/
theorem reserveLoop_ok_iff (c : coffeeMachineImpl) (l : List Ingredient) (k : Nat)
    (hq : ∀ i ∈ l, 0 ≤ i.Quantity) :
    (reserveLoop c l k).2 = none ↔
      ∀ i ∈ l, c.stocked i.ID = true ∧
        c.available i.ID - c.reserved i.ID ≥ required l i.ID := by
  refine ⟨?_, reserveLoop_ok_of c l k hq⟩
  induction l generalizing c k with
  | nil => intro _ i hi; simp at hi
  | cons i l ih =>
    have hql : ∀ j ∈ l, 0 ≤ j.Quantity := fun j hj => hq j (List.mem_cons_of_mem _ hj)
    have hiff := reserve_ok_iff c i
    have hres := reserve_reserved_of_ok c i
    have hrm := reserve_resourceManager c i
    intro h
    unfold reserveLoop at h
    cases hd : reserveIngredientIfPossible c i with
    | mk c1 e =>
      rw [hd] at h hiff hres hrm
      simp only [] at h hiff hres hrm
      cases e with
      | some err => simp at h
      | none =>
        simp only [] at h
        obtain ⟨hs, hfree⟩ := hiff.mp rfl
        have hrest := ih c1 (k + 1) hql h
        have hj : ∀ j ∈ l, c.stocked j.ID = true ∧
            c.available j.ID - c.reserved j.ID ≥ required (i :: l) j.ID := by
          intro j hjm
          obtain ⟨h1, h2⟩ := hrest j hjm
          rw [stocked_congr hrm, available_congr hrm, hres rfl j.ID] at *
          rw [required_cons]
          exact ⟨h1, by omega⟩
        intro x hx
        rcases List.mem_cons.mp hx with rfl | hxm
        · by_cases hex : ∃ j ∈ l, j.ID = x.ID
          · obtain ⟨j, hjm, hjid⟩ := hex
            have := hj j hjm
            rw [hjid] at this
            exact this
          · have hz : required l x.ID = 0 :=
              required_eq_zero_of_not_mem l x.ID (fun j hjm hjid => hex ⟨j, hjm, hjid⟩)
            rw [required_cons, hz]
            simp only [if_true]
            exact ⟨hs, by omega⟩
        · exact hj x hxm

/-- With non-negative quantities the consume loop succeeds exactly when every
requirement names a stocked ingredient whose available quantity covers the
list's total for that ingredient. -/
theorem consumeLoop_ok_iff (c : coffeeMachineImpl) (l : List Ingredient)
    (hq : ∀ i ∈ l, 0 ≤ i.Quantity) :
    (consumeLoop c l).2 = none ↔
      ∀ i ∈ l, c.stocked i.ID = true ∧ required l i.ID ≤ c.available i.ID := by
  refine ⟨?_, fun h => (consumeLoop_ok c l hq h).1⟩
  induction l generalizing c with
  | nil => intro _ i hi; simp at hi
  | cons i l ih =>
    have hql : ∀ j ∈ l, 0 ≤ j.Quantity := fun j hj => hq j (List.mem_cons_of_mem _ hj)
    have hiff := consume_ok_iff c i
    have hav := consume_available_of_ok c i
    have hst := consume_stocked c i
    intro h
    unfold consumeLoop at h
    cases hd : consumeIngredient c i with
    | mk c1 e =>
      rw [hd] at h hiff hav hst
      simp only [] at h hiff hav hst
      cases e with
      | some err => simp at h
      | none =>
        simp only [] at h
        obtain ⟨hs, hcov⟩ := hiff.mp rfl
        have hrest := ih c1 hql h
        have hj : ∀ j ∈ l, c.stocked j.ID = true ∧
            required (i :: l) j.ID ≤ c.available j.ID := by
          intro j hjm
          obtain ⟨h1, h2⟩ := hrest j hjm
          rw [hst j.ID] at h1
          rw [hav rfl j.ID] at h2
          rw [required_cons]
          exact ⟨h1, by omega⟩
        intro x hx
        rcases List.mem_cons.mp hx with rfl | hxm
        · by_cases hex : ∃ j ∈ l, j.ID = x.ID
          · obtain ⟨j, hjm, hjid⟩ := hex
            have := hj j hjm
            rw [hjid] at this
            exact this
          · have hz : required l x.ID = 0 :=
              required_eq_zero_of_not_mem l x.ID (fun j hjm hjid => hex ⟨j, hjm, hjid⟩)
            rw [required_cons, hz]
            simp only [if_true]
            exact ⟨hs, by omega⟩
        · exact hj x hxm

/-- With non-negative quantities the deletion of a list of reservations
succeeds exactly when, for every ingredient named, the reserved counter covers
the list's total for that ingredient; it then subtracts those totals. -/
theorem deleteReservations_ok_iff (c : coffeeMachineImpl) (l : List Ingredient)
    (hq : ∀ i ∈ l, 0 ≤ i.Quantity) :
    ((deleteReservations c l).2 = none ↔
      ∀ i ∈ l, required l i.ID ≤ c.reserved i.ID) ∧
    ((deleteReservations c l).2 = none →
      ∀ id, (deleteReservations c l).1.reserved id = c.reserved id - required l id) := by
  induction l generalizing c with
  | nil => simp [deleteReservations]
  | cons i l ih =>
    have hq0 : 0 ≤ i.Quantity := hq i (List.mem_cons_self _ _)
    have hql : ∀ j ∈ l, 0 ≤ j.Quantity := fun j hj => hq j (List.mem_cons_of_mem _ hj)
    have hnn := required_nonneg hql i.ID
    have hiff := delete_ok_iff c i
    have hres := delete_reserved_of_ok c i
    unfold deleteReservations
    cases hd : deleteReservation c i with
    | mk c1 e =>
      rw [hd] at hiff hres
      simp only [] at hiff hres
      cases e with
      | some err =>
        simp only [reduceCtorEq, false_iff, false_imp_iff, and_true]
        intro hall
        have h1 := hall i (List.mem_cons_self _ _)
        rw [required_cons] at h1
        simp only [if_true] at h1
        have : i.Quantity ≤ c.reserved i.ID := by omega
        exact absurd (hiff.mpr this) (by simp)
      | none =>
        simp only []
        have hok := hiff.mp rfl
        obtain ⟨ih1, ih2⟩ := ih c1 hql
        refine ⟨⟨?_, ?_⟩, ?_⟩
        · intro h
          have hrest := ih1.mp h
          have hj : ∀ j ∈ l, required (i :: l) j.ID ≤ c.reserved j.ID := by
            intro j hjm
            have h2 := hrest j hjm
            rw [hres rfl j.ID] at h2
            rw [required_cons]
            omega
          intro x hx
          rcases List.mem_cons.mp hx with rfl | hxm
          · by_cases hex : ∃ j ∈ l, j.ID = x.ID
            · obtain ⟨j, hjm, hjid⟩ := hex
              have := hj j hjm
              rw [hjid] at this
              exact this
            · have hz : required l x.ID = 0 :=
                required_eq_zero_of_not_mem l x.ID (fun j hjm hjid => hex ⟨j, hjm, hjid⟩)
              rw [required_cons, hz]
              simp only [if_true]
              omega
          · exact hj x hxm
        · intro hall
          apply ih1.mpr
          intro j hjm
          have h2 := hall j (List.mem_cons_of_mem _ hjm)
          rw [required_cons] at h2
          rw [hres rfl j.ID]
          omega
        · intro h id
          rw [ih2 h id, hres rfl id, required_cons]
          ring

/-- With non-negative quantities an attempt succeeds exactly when every
requirement names a stocked ingredient with a non-negative reserved counter
whose free quantity and whose available quantity both cover the order's total
for that ingredient; it then lowers the available quantities by those totals
and leaves the reserved counters as they were. -/
theorem attemptPouringDrink_ok_iff (c : coffeeMachineImpl) (item : Item)
    (hq : ∀ i ∈ item.Ingredients, 0 ≤ i.Quantity) :
    ((attemptPouringDrink c item).2 = none ↔
      ∀ i ∈ item.Ingredients, c.stocked i.ID = true ∧ 0 ≤ c.reserved i.ID ∧
        required item.Ingredients i.ID ≤ c.available i.ID - c.reserved i.ID ∧
        required item.Ingredients i.ID ≤ c.available i.ID) ∧
    ((attemptPouringDrink c item).2 = none →
      ∀ id, (attemptPouringDrink c item).1.available id
          = c.available id - required item.Ingredients id ∧
        (attemptPouringDrink c item).1.reserved id = c.reserved id) := by
  have hrl := reserveLoop_ok_iff c item.Ingredients 0 hq
  have hrres := reserveLoop_reserved_of_ok c item.Ingredients 0
  have hrrm := reserveLoop_resourceManager c item.Ingredients 0
  unfold attemptPouringDrink attemptBody
  cases hr : reserveLoop c item.Ingredients 0 with
  | mk c1 e =>
    rw [hr] at hrl hrres hrrm
    simp only [] at hrl hrres hrrm
    cases e with
    | some p =>
      obtain ⟨idx, err⟩ := p
      have hno : ¬ ∀ i ∈ item.Ingredients, c.stocked i.ID = true ∧
          c.available i.ID - c.reserved i.ID ≥ required item.Ingredients i.ID := by
        intro hall
        have := hrl.mpr hall
        simp at this
      simp only []
      have hsome : (match deleteReservations c1 (item.Ingredients.take idx) with
          | (c2, some deleteErr) => (c2, some deleteErr)
          | (c2, none) => (c2, some err)).2 ≠ none := by
        cases deleteReservations c1 (item.Ingredients.take idx) with
        | mk c2 de => cases de <;> simp
      refine ⟨⟨fun h => absurd h hsome, ?_⟩, fun h => absurd h hsome⟩
      intro hall
      exact absurd (fun i hi => ⟨(hall i hi).1, (hall i hi).2.2.1⟩) hno
    | none =>
      have hreserve := hrl.mp rfl
      have hres1 := hrres rfl
      have hcl := consumeLoop_ok_iff c1 item.Ingredients hq
      have hcok := consumeLoop_ok c1 item.Ingredients hq
      have hcrm := consumeLoop_reservationManager c1 item.Ingredients
      simp only [List.take_length]
      cases hc : consumeLoop c1 item.Ingredients with
      | mk c2 e2 =>
        rw [hc] at hcl hcok hcrm
        simp only [] at hcl hcok hcrm
        have hdl := deleteReservations_ok_iff c2 item.Ingredients hq
        have hdrm := deleteReservations_resourceManager c2 item.Ingredients
        have hres2 : ∀ id, c2.reserved id = c.reserved id + required item.Ingredients id := by
          intro id
          rw [reserved_congr hcrm id, hres1 id]
        cases hd : deleteReservations c2 item.Ingredients with
        | mk c3 e3 =>
          rw [hd] at hdl hdrm
          simp only [] at hdl hdrm
          cases e3 with
          | some derr =>
            simp only [reduceCtorEq, false_iff, false_imp_iff, and_true]
            intro hall
            have : (some derr : Option Error) = none := hdl.1.mpr (by
              intro i hi
              have := (hall i hi).2.1
              rw [hres2]
              omega)
            simp at this
          | none =>
            simp only []
            have hdel := hdl.1.mp rfl
            have hres3 := hdl.2 rfl
            cases e2 with
            | some cerr =>
              simp only [reduceCtorEq, false_iff, false_imp_iff, and_true]
              intro hall
              have : (some cerr : Option Error) = none := hcl.mpr (by
                intro i hi
                rw [stocked_congr hrrm, available_congr hrrm]
                exact ⟨(hall i hi).1, (hall i hi).2.2.2⟩)
              simp at this
            | none =>
              have hconsume := hcl.mp rfl
              have hav2 := (hcok hconsume).2.1
              refine ⟨⟨fun _ => ?_, fun _ => rfl⟩, fun _ id => ⟨?_, ?_⟩⟩
              · intro i hi
                obtain ⟨h1, h2⟩ := hreserve i hi
                obtain ⟨h3, h4⟩ := hconsume i hi
                have h5 := hdel i hi
                rw [hres2] at h5
                rw [available_congr hrrm] at h4
                exact ⟨h1, by omega, by omega, h4⟩
              · rw [available_congr hdrm id, hav2 id, available_congr hrrm id]
              · rw [hres3 id, hres2 id]
                ring

/-- C19: for every store state and every two orders with positive quantities
whose requirement lists are permutations of each other, a sequential
`attemptPouringDrink` succeeds on one exactly when it succeeds on the other,
and on success both leave the same available and reserved quantities. -/
theorem attemptPouringDrink_perm (c : coffeeMachineImpl) (item1 item2 : Item)
    (hq : ∀ i ∈ item1.Ingredients, 0 < i.Quantity)
    (hperm : item1.Ingredients.Perm item2.Ingredients) :
    ((attemptPouringDrink c item1).2 = none ↔ (attemptPouringDrink c item2).2 = none) ∧
    ((attemptPouringDrink c item1).2 = none →
      ∀ id, (attemptPouringDrink c item1).1.available id
          = (attemptPouringDrink c item2).1.available id ∧
        (attemptPouringDrink c item1).1.reserved id
          = (attemptPouringDrink c item2).1.reserved id) := by
  have hq1 : ∀ i ∈ item1.Ingredients, 0 ≤ i.Quantity := fun i hi => le_of_lt (hq i hi)
  have hq2 : ∀ i ∈ item2.Ingredients, 0 ≤ i.Quantity :=
    fun i hi => le_of_lt (hq i (hperm.mem_iff.mpr hi))
  obtain ⟨h1iff, h1st⟩ := attemptPouringDrink_ok_iff c item1 hq1
  obtain ⟨h2iff, h2st⟩ := attemptPouringDrink_ok_iff c item2 hq2
  have hiff : (attemptPouringDrink c item1).2 = none ↔ (attemptPouringDrink c item2).2 = none := by
    rw [h1iff, h2iff]
    constructor
    · intro h i hi
      have := h i (hperm.mem_iff.mpr hi)
      rw [required_perm hperm] at this
      exact this
    · intro h i hi
      have := h i (hperm.mem_iff.mp hi)
      rw [← required_perm hperm] at this
      exact this
  refine ⟨hiff, fun h id => ?_⟩
  obtain ⟨a1, r1⟩ := h1st h id
  obtain ⟨a2, r2⟩ := h2st (hiff.mp h) id
  rw [a1, a2, r1, r2, required_perm hperm]
  exact ⟨rfl, rfl⟩

/-- C19, witness: water, sugar, water against sugar, water, water. -/
theorem attemptPouringDrink_perm_witness :
    (attemptPouringDrink
      (New { ReservationManager := { reservations := [] }
             ResourceManager := { availableResources := [("water", 10), ("sugar", 4)] }
             NumOfOutlets := 1 })
      { ID := "tea", Ingredients := [{ ID := "water", Quantity := 6 },
                                     { ID := "sugar", Quantity := 2 },
                                     { ID := "water", Quantity := 3 }] }).2 = none ↔
    (attemptPouringDrink
      (New { ReservationManager := { reservations := [] }
             ResourceManager := { availableResources := [("water", 10), ("sugar", 4)] }
             NumOfOutlets := 1 })
      { ID := "chai", Ingredients := [{ ID := "sugar", Quantity := 2 },
                                      { ID := "water", Quantity := 3 },
                                      { ID := "water", Quantity := 6 }] }).2 = none :=
  (attemptPouringDrink_perm
      (New { ReservationManager := { reservations := [] }
             ResourceManager := { availableResources := [("water", 10), ("sugar", 4)] }
             NumOfOutlets := 1 })
      { ID := "tea", Ingredients := [{ ID := "water", Quantity := 6 },
                                     { ID := "sugar", Quantity := 2 },
                                     { ID := "water", Quantity := 3 }] }
      { ID := "chai", Ingredients := [{ ID := "sugar", Quantity := 2 },
                                      { ID := "water", Quantity := 3 },
                                      { ID := "water", Quantity := 6 }] }
      (by decide) (by decide)).1

end vendingmachine

/-! ## Requirements of quantity zero -/

namespace GoMap

theorem assign_self (m : GoMap) (id : String) (v : Int) (h : commaOk m id = some v) :
    assign m id v = m := by
  induction m with
  | nil => simp [commaOk] at h
  | cons p m ih =>
    obtain ⟨k, w⟩ := p
    by_cases hk : k = id
    · simp only [commaOk, hk, if_true, Option.some.injEq] at h
      subst h
      simp [assign, hk]
    · simp only [commaOk, hk, if_false] at h
      simp [assign, hk, ih h]

end GoMap

namespace vendingmachine

theorem consume_congr (c c1 : coffeeMachineImpl) (i : Ingredient)
    (h : c.resourceManager = c1.resourceManager) :
    (consumeIngredient c i).2 = (consumeIngredient c1 i).2 ∧
      (consumeIngredient c i).1.resourceManager = (consumeIngredient c1 i).1.resourceManager := by
  have hs : c.stocked i.ID = c1.stocked i.ID := stocked_congr h i.ID
  have ha : c.available i.ID = c1.available i.ID := available_congr h i.ID
  rw [consume_eq, consume_eq, hs, ha]
  split_ifs <;> simp [h]

theorem consume_zero (c : coffeeMachineImpl) (i : Ingredient) (hq : i.Quantity = 0)
    (hs : c.stocked i.ID = true) (ha : 0 ≤ c.available i.ID) :
    (consumeIngredient c i).2 = none ∧
      (consumeIngredient c i).1.resourceManager = c.resourceManager := by
  obtain ⟨a, hk⟩ := (stocked_iff c i.ID).mp hs
  have hidx : c.available i.ID = a := GoMap.index_eq_of_commaOk hk
  rw [consume_eq]
  have hcond : c.stocked i.ID = true ∧ i.Quantity ≤ c.available i.ID := ⟨hs, by omega⟩
  rw [if_pos hcond]
  refine ⟨rfl, ?_⟩
  simp only [hq, sub_zero, hidx, GoMap.assign_self _ _ _ hk]

/-- The consume loop skips requirements of quantity zero: on inventories that
are equal, and with every such requirement naming a stocked ingredient of
non-negative quantity, the loop over a list and the loop over the list without
them return the same error and leave equal inventories. -/
theorem consumeLoop_filter (l : List Ingredient) (c c1 : coffeeMachineImpl)
    (hrm : c.resourceManager = c1.resourceManager)
    (hq : ∀ i ∈ l, 0 ≤ i.Quantity)
    (hz : ∀ i ∈ l, i.Quantity = 0 → c.stocked i.ID = true ∧ 0 ≤ c.available i.ID) :
    (consumeLoop c l).2
        = (consumeLoop c1 (l.filter (fun i => decide (0 < i.Quantity)))).2 ∧
      (consumeLoop c l).1.resourceManager
        = (consumeLoop c1 (l.filter (fun i => decide (0 < i.Quantity)))).1.resourceManager := by
  induction l generalizing c c1 with
  | nil => exact ⟨rfl, hrm⟩
  | cons i l ih =>
    have hq0 : 0 ≤ i.Quantity := hq i (List.mem_cons_self _ _)
    have hql : ∀ j ∈ l, 0 ≤ j.Quantity := fun j hj => hq j (List.mem_cons_of_mem _ hj)
    by_cases hpos : 0 < i.Quantity
    · have hfilter : (i :: l).filter (fun i => decide (0 < i.Quantity))
          = i :: l.filter (fun i => decide (0 < i.Quantity)) := by
        simp [List.filter_cons, hpos]
      rw [hfilter]
      obtain ⟨he, hr⟩ := consume_congr c c1 i hrm
      have hiff := consume_ok_iff c i
      have hav := consume_available_of_ok c i
      have hst := consume_stocked c i
      unfold consumeLoop
      cases hd : consumeIngredient c i with
      | mk c2 e =>
        cases hd1 : consumeIngredient c1 i with
        | mk c3 e1 =>
          rw [hd, hd1] at he hr
          rw [hd] at hiff hav hst
          simp only [] at he hr hiff hav hst
          subst he
          cases e with
          | some err => exact ⟨rfl, hr⟩
          | none =>
            simp only []
            apply ih c2 c3 hr hql
            intro z hzm hz0
            obtain ⟨h1, h2⟩ := hz z (List.mem_cons_of_mem _ hzm) hz0
            have hcov := (hiff.mp rfl).2
            rw [hst z.ID, hav rfl z.ID]
            refine ⟨h1, ?_⟩
            by_cases hid : i.ID = z.ID
            · rw [hid] at hcov
              simp only [hid, if_true]
              omega
            · simp only [hid, if_false]
              omega
    · have hq1 : i.Quantity = 0 := by omega
      have hfilter : (i :: l).filter (fun i => decide (0 < i.Quantity))
          = l.filter (fun i => decide (0 < i.Quantity)) := by
        simp [List.filter_cons, hpos]
      rw [hfilter]
      obtain ⟨hs, ha⟩ := hz i (List.mem_cons_self _ _) hq1
      obtain ⟨hok, hsame⟩ := consume_zero c i hq1 hs ha
      have hstep : consumeLoop c (i :: l) = consumeLoop (consumeIngredient c i).1 l := by
        rw [consumeLoop]
        cases hd : consumeIngredient c i with
        | mk c2 e =>
          rw [hd] at hok
          simp only [] at hok
          subst hok
          rfl
      rw [hstep]
      apply ih _ c1 (hsame.trans hrm) hql
      intro z hzm hz0
      rw [stocked_congr hsame, available_congr hsame]
      exact hz z (List.mem_cons_of_mem _ hzm) hz0

theorem reserve_err_eq (c : coffeeMachineImpl) (i : Ingredient) :
    (reserveIngredientIfPossible c i).2 =
      if c.stocked i.ID = true then
        if c.available i.ID - c.reserved i.ID ≥ i.Quantity then none
        else if c.available i.ID ≥ i.Quantity then
          some (Error.ErrResourceTemporarilyNotAvailable i.ID)
        else some (Error.ErrInsufficientResource i.ID)
      else some (Error.ErrResourceNotAvailable i.ID) := by
  rw [reserve_eq]
  split_ifs <;> rfl

theorem reserve_congr (c c1 : coffeeMachineImpl) (i : Ingredient)
    (hrm : c.resourceManager = c1.resourceManager)
    (hrv : ∀ id, c.reserved id = c1.reserved id) :
    (reserveIngredientIfPossible c i).2 = (reserveIngredientIfPossible c1 i).2 ∧
      ∀ id, (reserveIngredientIfPossible c i).1.reserved id
        = (reserveIngredientIfPossible c1 i).1.reserved id := by
  have he : (reserveIngredientIfPossible c i).2 = (reserveIngredientIfPossible c1 i).2 := by
    rw [reserve_err_eq, reserve_err_eq, stocked_congr hrm i.ID, available_congr hrm i.ID,
      hrv i.ID]
  refine ⟨he, fun id => ?_⟩
  cases hc : (reserveIngredientIfPossible c i).2 with
  | none =>
    rw [reserve_reserved_of_ok c i hc id, reserve_reserved_of_ok c1 i (he ▸ hc) id, hrv id]
  | some err =>
    have h1 : (reserveIngredientIfPossible c i).2 ≠ none := by simp [hc]
    have h2 : (reserveIngredientIfPossible c1 i).2 ≠ none := by rw [← he]; exact h1
    rw [reserved_congr (reserve_reservationManager_of_fail c i h1) id,
      reserved_congr (reserve_reservationManager_of_fail c1 i h2) id, hrv id]

/-- The reserve loop skips requirements of quantity zero: on machines with
equal inventories and equal reserved counters, and with every such requirement
naming a stocked ingredient whose reserved counter does not exceed its
available quantity, the loop over a list and the loop over the list without
them return the same error. -/
theorem reserveLoop_filter (l : List Ingredient) (c c1 : coffeeMachineImpl) (k k1 : Nat)
    (hrm : c.resourceManager = c1.resourceManager)
    (hrv : ∀ id, c.reserved id = c1.reserved id)
    (hq : ∀ i ∈ l, 0 ≤ i.Quantity)
    (hz : ∀ i ∈ l, i.Quantity = 0 →
      c.stocked i.ID = true ∧ c.reserved i.ID ≤ c.available i.ID) :
    (reserveLoop c l k).2.map Prod.snd
      = (reserveLoop c1 (l.filter (fun i => decide (0 < i.Quantity))) k1).2.map Prod.snd := by
  induction l generalizing c c1 k k1 with
  | nil => rfl
  | cons i l ih =>
    have hq0 : 0 ≤ i.Quantity := hq i (List.mem_cons_self _ _)
    have hql : ∀ j ∈ l, 0 ≤ j.Quantity := fun j hj => hq j (List.mem_cons_of_mem _ hj)
    have hiff := reserve_ok_iff c i
    have hres := reserve_reserved_of_ok c i
    have hrm2 := reserve_resourceManager c i
    have hz2 : (reserveIngredientIfPossible c i).2 = none →
        ∀ z ∈ l, z.Quantity = 0 →
          (reserveIngredientIfPossible c i).1.stocked z.ID = true ∧
          (reserveIngredientIfPossible c i).1.reserved z.ID
            ≤ (reserveIngredientIfPossible c i).1.available z.ID := by
      intro hok z hzm hz0
      obtain ⟨h1, h2⟩ := hz z (List.mem_cons_of_mem _ hzm) hz0
      have hfree := (hiff.mp hok).2
      rw [stocked_congr hrm2, available_congr hrm2, hres hok z.ID]
      refine ⟨h1, ?_⟩
      by_cases hid : i.ID = z.ID
      · rw [hid] at hfree
        simp only [hid, if_true]
        omega
      · simp only [hid, if_false]
        omega
    by_cases hpos : 0 < i.Quantity
    · have hfilter : (i :: l).filter (fun i => decide (0 < i.Quantity))
          = i :: l.filter (fun i => decide (0 < i.Quantity)) := by
        simp [List.filter_cons, hpos]
      rw [hfilter]
      obtain ⟨he, hv⟩ := reserve_congr c c1 i hrm hrv
      have hrm3 := reserve_resourceManager c1 i
      unfold reserveLoop
      cases hd : reserveIngredientIfPossible c i with
      | mk c2 e =>
        cases hd1 : reserveIngredientIfPossible c1 i with
        | mk c3 e1 =>
          rw [hd, hd1] at he hv
          rw [hd] at hz2 hrm2
          rw [hd1] at hrm3
          simp only [] at he hv hz2 hrm2 hrm3
          subst he
          cases e with
          | some err => rfl
          | none =>
            simp only []
            exact ih c2 c3 (k + 1) (k1 + 1) (hrm2.trans (hrm.trans hrm3.symm)) hv hql
              (hz2 rfl)
    · have hq1 : i.Quantity = 0 := by omega
      have hfilter : (i :: l).filter (fun i => decide (0 < i.Quantity))
          = l.filter (fun i => decide (0 < i.Quantity)) := by
        simp [List.filter_cons, hpos]
      rw [hfilter]
      obtain ⟨hs, hfree⟩ := hz i (List.mem_cons_self _ _) hq1
      have hok : (reserveIngredientIfPossible c i).2 = none :=
        hiff.mpr ⟨hs, by omega⟩
      have hstep : reserveLoop c (i :: l) k
          = reserveLoop (reserveIngredientIfPossible c i).1 l (k + 1) := by
        rw [reserveLoop]
        cases hd : reserveIngredientIfPossible c i with
        | mk c2 e =>
          rw [hd] at hok
          simp only [] at hok
          subst hok
          rfl
      rw [hstep]
      apply ih _ c1 (k + 1) k1 (hrm2.trans hrm) _ hql (hz2 hok)
      intro id
      rw [hres hok id, hq1, ← hrv id]
      simp

/-- C18, as stated, fails: a requirement of 0 of water on an empty inventory
makes the attempt fail with `ErrResourceNotAvailable`, while the order without
it succeeds; a requirement of -3 of water raises the stock from 10 to 13, while
the order without it leaves 10; and a requirement of 0 of water fails with
`ErrResourceTemporarilyNotAvailable` when 6 are reserved against a stock of
4. -/
theorem attemptPouringDrink_non_positive_counterexample :
    ((attemptPouringDrink
        (New { ReservationManager := { reservations := [] }
               ResourceManager := { availableResources := [] }
               NumOfOutlets := 1 })
        { ID := "tea", Ingredients := [{ ID := "water", Quantity := 0 }] }).2
        = some (Error.ErrResourceNotAvailable "water") ∧
      (attemptPouringDrink
        (New { ReservationManager := { reservations := [] }
               ResourceManager := { availableResources := [] }
               NumOfOutlets := 1 })
        (withoutNonPositive
          { ID := "tea", Ingredients := [{ ID := "water", Quantity := 0 }] })).2 = none) ∧
    ((attemptPouringDrink
        (New { ReservationManager := { reservations := [] }
               ResourceManager := { availableResources := [("water", 10)] }
               NumOfOutlets := 1 })
        { ID := "tea", Ingredients := [{ ID := "water", Quantity := -3 }] }).1.available "water"
        = 13 ∧
      (attemptPouringDrink
        (New { ReservationManager := { reservations := [] }
               ResourceManager := { availableResources := [("water", 10)] }
               NumOfOutlets := 1 })
        (withoutNonPositive
          { ID := "tea", Ingredients := [{ ID := "water", Quantity := -3 }] })).1.available
          "water" = 10) ∧
    ((attemptPouringDrink
        (New { ReservationManager := { reservations := [("water", 6)] }
               ResourceManager := { availableResources := [("water", 4)] }
               NumOfOutlets := 1 })
        { ID := "tea", Ingredients := [{ ID := "water", Quantity := 0 }] }).2
        = some (Error.ErrResourceTemporarilyNotAvailable "water") ∧
      (attemptPouringDrink
        (New { ReservationManager := { reservations := [("water", 6)] }
               ResourceManager := { availableResources := [("water", 4)] }
               NumOfOutlets := 1 })
        (withoutNonPositive
          { ID := "tea", Ingredients := [{ ID := "water", Quantity := 0 }] })).2 = none) := by
  decide

/-- C18, amended: a requirement of quantity zero that names a stocked
ingredient whose reserved counter does not exceed its available quantity is a
no-op requirement: for every store state with non-negative reserved counters
and every order without negative quantities whose zero-quantity requirements
are of that kind, a sequential `attemptPouringDrink` on the order returns the
same result (success or the same error) and leaves the same inventory and the
same reserved counters as the attempt on the order with all zero-quantity
requirements removed. -/
theorem attemptPouringDrink_zero_noop (c : coffeeMachineImpl) (item : Item)
    (hres : ∀ id, 0 ≤ c.reserved id)
    (hq : ∀ i ∈ item.Ingredients, 0 ≤ i.Quantity)
    (hz : ∀ i ∈ item.Ingredients, i.Quantity = 0 →
      c.stocked i.ID = true ∧ c.reserved i.ID ≤ c.available i.ID) :
    (attemptPouringDrink c item).2 = (attemptPouringDrink c (withoutNonPositive item)).2 ∧
    (∀ id, (attemptPouringDrink c item).1.available id
      = (attemptPouringDrink c (withoutNonPositive item)).1.available id) ∧
    (∀ id, (attemptPouringDrink c item).1.reserved id
      = (attemptPouringDrink c (withoutNonPositive item)).1.reserved id) := by
  have hq1 : ∀ i ∈ (withoutNonPositive item).Ingredients, 0 ≤ i.Quantity := by
    intro i hi
    exact hq i (List.mem_of_mem_filter hi)
  obtain ⟨he, hr, hm⟩ := attemptPouringDrink_cleanup c item hres hq
  obtain ⟨he1, hr1, hm1⟩ := attemptPouringDrink_cleanup c (withoutNonPositive item) hres hq1
  have hloop := reserveLoop_filter item.Ingredients c c 0 0 rfl (fun _ => rfl) hq hz
  have hrm := reserveLoop_resourceManager c item.Ingredients 0
  have hrm1 := reserveLoop_resourceManager c (withoutNonPositive item).Ingredients 0
  have hbody : (attemptBody c item).2.2 = (attemptBody c (withoutNonPositive item)).2.2 ∧
      (attemptBody c item).1.resourceManager
        = (attemptBody c (withoutNonPositive item)).1.resourceManager := by
    unfold attemptBody
    simp only [withoutNonPositive] at hrm1 ⊢
    cases hd : reserveLoop c item.Ingredients 0 with
    | mk c2 e =>
      cases hd1 : reserveLoop c
          (item.Ingredients.filter (fun i => decide (0 < i.Quantity))) 0 with
      | mk c3 e1 =>
        rw [hd, hd1] at hloop
        rw [hd] at hrm
        rw [hd1] at hrm1
        simp only [] at hloop hrm hrm1
        cases e with
        | some p =>
          cases e1 with
          | some p1 =>
            obtain ⟨idx, err⟩ := p
            obtain ⟨idx1, err1⟩ := p1
            simp only [Option.map_some', Option.some.injEq] at hloop
            subst hloop
            exact ⟨rfl, hrm.trans hrm1.symm⟩
          | none => simp at hloop
        | none =>
          cases e1 with
          | some p1 => simp at hloop
          | none =>
            simp only []
            have hcons := consumeLoop_filter item.Ingredients c2 c3 (hrm.trans hrm1.symm) hq
              (by
                intro i hi h0
                obtain ⟨h1, h2⟩ := hz i hi h0
                have h3 := hres i.ID
                rw [stocked_congr hrm, available_congr hrm]
                exact ⟨h1, by omega⟩)
            exact hcons
  refine ⟨by rw [he, he1, hbody.1], fun id => ?_, fun id => by rw [hr id, hr1 id]⟩
  exact available_congr (hm.trans (hbody.2.trans hm1.symm)) id

/-- C18, witness: a requirement of 0 of sugar between two requirements of
water. -/
theorem attemptPouringDrink_zero_noop_witness :
    (attemptPouringDrink
      (New { ReservationManager := { reservations := [("water", 1)] }
             ResourceManager := { availableResources := [("water", 10), ("sugar", 4)] }
             NumOfOutlets := 1 })
      { ID := "tea", Ingredients := [{ ID := "water", Quantity := 6 },
                                     { ID := "sugar", Quantity := 0 },
                                     { ID := "water", Quantity := 3 }] }).2
    = (attemptPouringDrink
      (New { ReservationManager := { reservations := [("water", 1)] }
             ResourceManager := { availableResources := [("water", 10), ("sugar", 4)] }
             NumOfOutlets := 1 })
      (withoutNonPositive
        { ID := "tea", Ingredients := [{ ID := "water", Quantity := 6 },
                                       { ID := "sugar", Quantity := 0 },
                                       { ID := "water", Quantity := 3 }] })).2 :=
  (attemptPouringDrink_zero_noop
      (New { ReservationManager := { reservations := [("water", 1)] }
             ResourceManager := { availableResources := [("water", 10), ("sugar", 4)] }
             NumOfOutlets := 1 })
      { ID := "tea", Ingredients := [{ ID := "water", Quantity := 6 },
                                     { ID := "sugar", Quantity := 0 },
                                     { ID := "water", Quantity := 3 }] }
      (fun id => index_nonneg_of_entries (by decide) id) (by decide) (by decide)).1

end vendingmachine

/-! ## What an attempt leaves alone -/

namespace vendingmachine

theorem getOrCreateMutex_entriesAt (c : coffeeMachineImpl) (i : Ingredient) (id : String) :
    (getOrCreateMutex c i).1.entriesAt id = c.entriesAt id := by
  simp [coffeeMachineImpl.entriesAt]

theorem reserve_entriesAt (c : coffeeMachineImpl) (i : Ingredient) (id : String)
    (h : i.ID ≠ id) :
    (reserveIngredientIfPossible c i).1.entriesAt id = c.entriesAt id := by
  rw [reserve_eq]
  split_ifs <;> simp [coffeeMachineImpl.entriesAt, h]

theorem delete_entriesAt (c : coffeeMachineImpl) (i : Ingredient) (id : String)
    (h : i.ID ≠ id) :
    (deleteReservation c i).1.entriesAt id = c.entriesAt id := by
  rw [delete_eq]
  split_ifs <;> simp [coffeeMachineImpl.entriesAt, h]

theorem consume_entriesAt (c : coffeeMachineImpl) (i : Ingredient) (id : String)
    (h : i.ID ≠ id) :
    (consumeIngredient c i).1.entriesAt id = c.entriesAt id := by
  rw [consume_eq]
  split_ifs <;> simp [coffeeMachineImpl.entriesAt, h]

theorem reserveLoop_entriesAt (c : coffeeMachineImpl) (l : List Ingredient) (k : Nat)
    (id : String) (h : ∀ i ∈ l, i.ID ≠ id) :
    (reserveLoop c l k).1.entriesAt id = c.entriesAt id := by
  induction l generalizing c k with
  | nil => rfl
  | cons i l ih =>
    have h1 := reserve_entriesAt c i id (h i (List.mem_cons_self i l))
    unfold reserveLoop
    cases hr : reserveIngredientIfPossible c i with
    | mk c1 e =>
      rw [hr] at h1
      cases e with
      | some err => exact h1
      | none =>
        simp only []
        rw [ih c1 (k + 1) (fun j hj => h j (List.mem_cons_of_mem i hj))]
        exact h1

theorem consumeLoop_entriesAt (c : coffeeMachineImpl) (l : List Ingredient)
    (id : String) (h : ∀ i ∈ l, i.ID ≠ id) :
    (consumeLoop c l).1.entriesAt id = c.entriesAt id := by
  induction l generalizing c with
  | nil => rfl
  | cons i l ih =>
    have h1 := consume_entriesAt c i id (h i (List.mem_cons_self i l))
    unfold consumeLoop
    cases hr : consumeIngredient c i with
    | mk c1 e =>
      rw [hr] at h1
      cases e with
      | some err => exact h1
      | none =>
        simp only []
        rw [ih c1 (fun j hj => h j (List.mem_cons_of_mem i hj))]
        exact h1

theorem deleteReservations_entriesAt (c : coffeeMachineImpl) (l : List Ingredient)
    (id : String) (h : ∀ i ∈ l, i.ID ≠ id) :
    (deleteReservations c l).1.entriesAt id = c.entriesAt id := by
  induction l generalizing c with
  | nil => rfl
  | cons i l ih =>
    have h1 := delete_entriesAt c i id (h i (List.mem_cons_self i l))
    unfold deleteReservations
    cases hr : deleteReservation c i with
    | mk c1 e =>
      rw [hr] at h1
      cases e with
      | some err => exact h1
      | none =>
        simp only []
        rw [ih c1 (fun j hj => h j (List.mem_cons_of_mem i hj))]
        exact h1

theorem attemptBody_entriesAt (c : coffeeMachineImpl) (item : Item) (id : String)
    (h : ∀ i ∈ item.Ingredients, i.ID ≠ id) :
    (attemptBody c item).1.entriesAt id = c.entriesAt id := by
  have h1 := reserveLoop_entriesAt c item.Ingredients 0 id h
  unfold attemptBody
  cases hr : reserveLoop c item.Ingredients 0 with
  | mk c1 e =>
    rw [hr] at h1
    cases e with
    | some p => exact h1
    | none =>
      simp only []
      rw [consumeLoop_entriesAt c1 item.Ingredients id h]
      exact h1

theorem attemptPouringDrink_eq_cleanup (c : coffeeMachineImpl) (item : Item) :
    (attemptPouringDrink c item).1 =
      (deleteReservations (attemptBody c item).1
        (item.Ingredients.take (attemptBody c item).2.1)).1 := by
  unfold attemptPouringDrink
  cases hb : attemptBody c item with
  | mk c1 p =>
    obtain ⟨reservedItemsIdx, err⟩ := p
    simp only []
    cases hd : deleteReservations c1 (item.Ingredients.take reservedItemsIdx) with
    | mk c2 e => cases e <;> rfl

theorem entriesAt_available (c c1 : coffeeMachineImpl) (id : String)
    (h : c1.entriesAt id = c.entriesAt id) :
    c1.available id = c.available id ∧ c1.reserved id = c.reserved id ∧
      c1.stocked id = c.stocked id := by
  simp only [coffeeMachineImpl.entriesAt, Prod.mk.injEq] at h
  simp [coffeeMachineImpl.available, coffeeMachineImpl.reserved, coffeeMachineImpl.stocked,
    GoMap.index, h.1, h.2]

/-- C27: a sequential `attemptPouringDrink` leaves alone every ingredient id
that does not occur in the order's requirement list: the available quantity
and the reserved counter of such an id are the same after the attempt as
before it, and neither `availableResources` nor `reservations` gains (or
loses) an entry for it. -/
theorem attemptPouringDrink_frame (c : coffeeMachineImpl) (item : Item) (id : String)
    (h : ∀ i ∈ item.Ingredients, i.ID ≠ id) :
    (attemptPouringDrink c item).1.available id = c.available id ∧
      (attemptPouringDrink c item).1.reserved id = c.reserved id ∧
      (attemptPouringDrink c item).1.resourceManager.availableResources.commaOk id =
        c.resourceManager.availableResources.commaOk id ∧
      (attemptPouringDrink c item).1.reservationManager.reservations.commaOk id =
        c.reservationManager.reservations.commaOk id := by
  have key : (attemptPouringDrink c item).1.entriesAt id = c.entriesAt id := by
    rw [attemptPouringDrink_eq_cleanup,
      deleteReservations_entriesAt _ _ id (fun j hj => h j (List.mem_of_mem_take hj))]
    exact attemptBody_entriesAt c item id h
  have h1 := entriesAt_available c _ id key
  simp only [coffeeMachineImpl.entriesAt, Prod.mk.injEq] at key
  exact ⟨h1.1, h1.2.1, key.1, key.2⟩

/-- The frame property at a concrete order: coffee for water and milk leaves
sugar (stocked) and cocoa (never stocked) alone. -/
theorem attemptPouringDrink_frame_witness :
    (∀ i ∈ ({ ID := "coffee", Ingredients := [{ ID := "water", Quantity := 6 },
                                               { ID := "milk", Quantity := 1 }] } : Item).Ingredients,
        i.ID ≠ "cocoa") ∧
      (attemptPouringDrink
          (New { ReservationManager := { reservations := [] }
                 ResourceManager := { availableResources := [("water", 10), ("sugar", 3)] }
                 NumOfOutlets := 1 })
          { ID := "coffee", Ingredients := [{ ID := "water", Quantity := 6 },
                                             { ID := "milk", Quantity := 1 }] }).1.resourceManager.availableResources.commaOk
          "cocoa" = none :=
  ⟨by decide,
   (attemptPouringDrink_frame
      (New { ReservationManager := { reservations := [] }
             ResourceManager := { availableResources := [("water", 10), ("sugar", 3)] }
             NumOfOutlets := 1 })
      { ID := "coffee", Ingredients := [{ ID := "water", Quantity := 6 },
                                         { ID := "milk", Quantity := 1 }] }
      "cocoa" (by decide)).2.2.1⟩

end vendingmachine

/-! ## The deferred cleanup and the reserve phase -/

namespace vendingmachine

theorem reserveLoop_fail_at (c : coffeeMachineImpl) (l : List Ingredient) (k idx : Nat)
    (err : Error) (h : (reserveLoop c l k).2 = some (idx, err)) :
    (reserveLoop c (l.take (idx - k)) k).2 = none ∧
      ∃ ingredient, l[idx - k]? = some ingredient ∧
        reserveIngredientIfPossible (reserveLoop c (l.take (idx - k)) k).1 ingredient =
          ((reserveLoop c l k).1, some err) := by
  induction l generalizing c k with
  | nil => simp [reserveLoop] at h
  | cons i l ih =>
    have hle := (reserveLoop_reserved_of_fail c (i :: l) k idx err h).1
    have e1 : reserveLoop c (i :: l) k =
        match reserveIngredientIfPossible c i with
        | (c1, some err) => (c1, some (k, err))
        | (c1, none) => reserveLoop c1 l (k + 1) := by
      rw [reserveLoop]
    cases hr : reserveIngredientIfPossible c i with
    | mk c1 e =>
      rw [e1, hr] at h ⊢
      cases e with
      | some err0 =>
        simp only [Option.some.injEq, Prod.mk.injEq] at h
        obtain ⟨hk, he⟩ := h
        subst hk he
        simp [reserveLoop, hr]
      | none =>
        simp only [] at h ⊢
        have hle1 := (reserveLoop_reserved_of_fail c1 l (k + 1) idx err h).1
        obtain ⟨h1, ingredient, h2, h3⟩ := ih c1 (k + 1) h
        have hidx : idx - k = (idx - (k + 1)) + 1 := by omega
        rw [hidx]
        have e2 : reserveLoop c (i :: List.take (idx - (k + 1)) l) k =
            reserveLoop c1 (List.take (idx - (k + 1)) l) (k + 1) := by
          rw [reserveLoop, hr]
        simp only [List.take_succ_cons, List.getElem?_cons_succ, e2]
        exact ⟨h1, ingredient, h2, h3⟩

/-- C24: the deferred deletion of the reservations of
`item.Ingredients[:reservedItemsIdx]` decides what `attemptPouringDrink`
returns.  When the deletion returns an error the attempt returns that error,
whatever the two loops were about to return; when the deletion succeeds the
attempt returns what the two loops were about to return.  `reservedItemsIdx`
is the index of the failing requirement when the reserve loop fails and the
number of requirements otherwise.  The override also happens after a
successful commit: on stock water 10 the order [water 5, water -3] passes both
loops, the stock is down to 8, and the attempt returns the deletion's
`ErrInsufficientResource`. -/
theorem attemptPouringDrink_cleanup_overrides (c : coffeeMachineImpl) (item : Item) :
    (attemptPouringDrink c item).1 =
        (deleteReservations (attemptBody c item).1
          (item.Ingredients.take (attemptBody c item).2.1)).1 ∧
      (∀ deleteErr,
        (deleteReservations (attemptBody c item).1
          (item.Ingredients.take (attemptBody c item).2.1)).2 = some deleteErr →
        (attemptPouringDrink c item).2 = some deleteErr) ∧
      ((deleteReservations (attemptBody c item).1
          (item.Ingredients.take (attemptBody c item).2.1)).2 = none →
        (attemptPouringDrink c item).2 = (attemptBody c item).2.2) ∧
      (∀ k err, (reserveLoop c item.Ingredients 0).2 = some (k, err) →
        (attemptBody c item).2 = (k, some err)) ∧
      ((reserveLoop c item.Ingredients 0).2 = none →
        (attemptBody c item).2 =
          (item.Ingredients.length,
           (consumeLoop (reserveLoop c item.Ingredients 0).1 item.Ingredients).2)) ∧
      ((attemptBody
          (New { ReservationManager := { reservations := [] }
                 ResourceManager := { availableResources := [("water", 10)] }
                 NumOfOutlets := 1 })
          { ID := "tea", Ingredients := [{ ID := "water", Quantity := 5 },
                                          { ID := "water", Quantity := -3 }] }).2.2 = none ∧
        (attemptBody
          (New { ReservationManager := { reservations := [] }
                 ResourceManager := { availableResources := [("water", 10)] }
                 NumOfOutlets := 1 })
          { ID := "tea", Ingredients := [{ ID := "water", Quantity := 5 },
                                          { ID := "water", Quantity := -3 }] }).1.available "water" = 8 ∧
        attemptPouringDrink
          (New { ReservationManager := { reservations := [] }
                 ResourceManager := { availableResources := [("water", 10)] }
                 NumOfOutlets := 1 })
          { ID := "tea", Ingredients := [{ ID := "water", Quantity := 5 },
                                          { ID := "water", Quantity := -3 }] } =
          ({ resourceManager := { availableResources := [("water", 8)] }
             reservationManager := { reservations := [("water", 2)] }
             numOfOutlets := 1
             mutexesMap := [("water", 0)] },
           some (.ErrInsufficientResource "water"))) := by
  refine ⟨attemptPouringDrink_eq_cleanup c item, ?_, ?_, ?_, ?_, by decide⟩
  · intro deleteErr hd
    unfold attemptPouringDrink
    cases hb : attemptBody c item with
    | mk c1 p =>
      obtain ⟨reservedItemsIdx, err⟩ := p
      rw [hb] at hd
      simp only [] at hd ⊢
      cases hdel : deleteReservations c1 (item.Ingredients.take reservedItemsIdx) with
      | mk c2 e =>
        rw [hdel] at hd
        simp only [] at hd
        subst hd
        rfl
  · intro hd
    unfold attemptPouringDrink
    cases hb : attemptBody c item with
    | mk c1 p =>
      obtain ⟨reservedItemsIdx, err⟩ := p
      rw [hb] at hd
      simp only [] at hd ⊢
      cases hdel : deleteReservations c1 (item.Ingredients.take reservedItemsIdx) with
      | mk c2 e =>
        rw [hdel] at hd
        simp only [] at hd
        subst hd
        rfl
  · intro k err hr
    unfold attemptBody
    cases hl : reserveLoop c item.Ingredients 0 with
    | mk c1 e =>
      rw [hl] at hr
      simp only [] at hr
      subst hr
      rfl
  · intro hr
    unfold attemptBody
    cases hl : reserveLoop c item.Ingredients 0 with
    | mk c1 e =>
      rw [hl] at hr
      simp only [] at hr
      subst hr
      rfl

end vendingmachine

namespace vendingmachine

theorem attemptBody_of_reserve_fail_at (c : coffeeMachineImpl) (item : Item) (k : Nat)
    (err : Error) (h : (reserveLoop c item.Ingredients 0).2 = some (k, err)) :
    attemptBody c item = ((reserveLoop c item.Ingredients 0).1, k, some err) := by
  unfold attemptBody
  cases hl : reserveLoop c item.Ingredients 0 with
  | mk c1 e =>
    rw [hl] at h
    simp only [] at h
    subst h
    rfl

/-- C25: when a sequential `attemptPouringDrink` fails in the reserve phase
at requirement index `k` (the requirements before `k` were reserved, the
reservation of requirement `k` returned `err`), the commit phase is not
entered: the attempt goes from the state the reserve loop left straight to the
deferred cleanup, the inventory store is untouched (so the available quantity
of every ingredient is what it was), the cleanup is the deletion of the
reservations of exactly the requirements at indices `[0, k)`, the reserved
counter of an ingredient outside those requirements is what it was, and the
attempt returns an error. -/
theorem attemptPouringDrink_reserve_phase_failure (c : coffeeMachineImpl) (item : Item)
    (k : Nat) (err : Error) (h : (reserveLoop c item.Ingredients 0).2 = some (k, err)) :
    k < item.Ingredients.length ∧
      (reserveLoop c (item.Ingredients.take k) 0).2 = none ∧
      (∃ ingredient, item.Ingredients[k]? = some ingredient ∧
        (reserveIngredientIfPossible (reserveLoop c (item.Ingredients.take k) 0).1
          ingredient).2 = some err) ∧
      attemptBody c item = ((reserveLoop c item.Ingredients 0).1, k, some err) ∧
      (attemptPouringDrink c item).1.resourceManager = c.resourceManager ∧
      (∀ id, (attemptPouringDrink c item).1.available id = c.available id ∧
        (attemptPouringDrink c item).1.stocked id = c.stocked id) ∧
      (attemptPouringDrink c item).1 =
        (deleteReservations (reserveLoop c item.Ingredients 0).1
          (item.Ingredients.take k)).1 ∧
      (∀ id, (∀ i ∈ item.Ingredients.take k, i.ID ≠ id) →
        (attemptPouringDrink c item).1.reserved id = c.reserved id) ∧
      (attemptPouringDrink c item).2 ≠ none := by
  have hb := attemptBody_of_reserve_fail_at c item k err h
  have hf := reserveLoop_reserved_of_fail c item.Ingredients 0 k err h
  have hat := reserveLoop_fail_at c item.Ingredients 0 k err h
  simp only [Nat.sub_zero] at hat hf
  have hst : (attemptPouringDrink c item).1 =
      (deleteReservations (reserveLoop c item.Ingredients 0).1
        (item.Ingredients.take k)).1 := by
    rw [attemptPouringDrink_eq_cleanup, hb]
  have hrm : (attemptPouringDrink c item).1.resourceManager = c.resourceManager := by
    rw [hst]; simp
  refine ⟨by omega, hat.1, ?_, hb, hrm, ?_, hst, ?_, ?_⟩
  · obtain ⟨ingredient, h1, h2⟩ := hat.2
    exact ⟨ingredient, h1, by rw [h2]⟩
  · intro id
    simp [coffeeMachineImpl.available, coffeeMachineImpl.stocked, hrm]
  · intro id hid
    have h1 := deleteReservations_entriesAt (reserveLoop c item.Ingredients 0).1
      (item.Ingredients.take k) id hid
    have h2 := (entriesAt_available _ _ id h1).2.1
    rw [hst, h2, hf.2.2 id]
    have h3 : required (item.Ingredients.take k) id = 0 :=
      required_eq_zero_of_not_mem _ id hid
    omega
  · unfold attemptPouringDrink
    rw [hb]
    simp only []
    cases hdel : deleteReservations (reserveLoop c item.Ingredients 0).1
        (item.Ingredients.take k) with
    | mk c2 e => cases e <;> simp

end vendingmachine

namespace vendingmachine

/-- C25, witness: on stock water 10 the order [water 6, milk 1] fails in the
reserve phase at index 1, milk never having been stocked. -/
theorem attemptPouringDrink_reserve_phase_failure_witness :
    (reserveLoop
        (vendingmachine.New { ReservationManager := { reservations := [] }
                              ResourceManager := { availableResources := [("water", 10)] }
                              NumOfOutlets := 1 })
        [{ ID := "water", Quantity := 6 }, { ID := "milk", Quantity := 1 }] 0).2
      = some (1, Error.ErrResourceNotAvailable "milk") ∧
    (attemptPouringDrink
        (vendingmachine.New { ReservationManager := { reservations := [] }
                              ResourceManager := { availableResources := [("water", 10)] }
                              NumOfOutlets := 1 })
        { ID := "latte", Ingredients := [{ ID := "water", Quantity := 6 },
                                          { ID := "milk", Quantity := 1 }] }).1.resourceManager
      = { availableResources := [("water", 10)] } :=
  ⟨by decide,
   (vendingmachine.attemptPouringDrink_reserve_phase_failure
      (vendingmachine.New { ReservationManager := { reservations := [] }
                            ResourceManager := { availableResources := [("water", 10)] }
                            NumOfOutlets := 1 })
      { ID := "latte", Ingredients := [{ ID := "water", Quantity := 6 },
                                        { ID := "milk", Quantity := 1 }] }
      1 (Error.ErrResourceNotAvailable "milk") (by decide)).2.2.2.2.1⟩

end vendingmachine

/-! ## An ingredient that was never stocked -/

namespace vendingmachine

/-- C21 as stated fails: the cleanup can replace the store's error.  On a
clean store with water 10, the order [water 5, water -3, milk 1] reserves its
first two requirements, milk was never stocked, and the attempt returns the
deletion's `ErrInsufficientResource` for water; with the reserved counter of
water at -1 the order [water 5, milk 1] does the same. -/
theorem attemptPouringDrink_not_stocked_counterexample :
    ((reserveLoop
        (New { ReservationManager := { reservations := [] }
               ResourceManager := { availableResources := [("water", 10)] }
               NumOfOutlets := 1 })
        [{ ID := "water", Quantity := 5 }, { ID := "water", Quantity := -3 }] 0).2 = none ∧
      (New { ReservationManager := { reservations := [] }
             ResourceManager := { availableResources := [("water", 10)] }
             NumOfOutlets := 1 }).stocked "milk" = false ∧
      (attemptPouringDrink
        (New { ReservationManager := { reservations := [] }
               ResourceManager := { availableResources := [("water", 10)] }
               NumOfOutlets := 1 })
        { ID := "latte", Ingredients := [{ ID := "water", Quantity := 5 },
                                          { ID := "water", Quantity := -3 },
                                          { ID := "milk", Quantity := 1 }] }).2
        = some (Error.ErrInsufficientResource "water")) ∧
    ((reserveLoop
        (New { ReservationManager := { reservations := [("water", -1)] }
               ResourceManager := { availableResources := [("water", 10)] }
               NumOfOutlets := 1 })
        [{ ID := "water", Quantity := 5 }] 0).2 = none ∧
      (New { ReservationManager := { reservations := [("water", -1)] }
             ResourceManager := { availableResources := [("water", 10)] }
             NumOfOutlets := 1 }).stocked "milk" = false ∧
      (attemptPouringDrink
        (New { ReservationManager := { reservations := [("water", -1)] }
               ResourceManager := { availableResources := [("water", 10)] }
               NumOfOutlets := 1 })
        { ID := "latte", Ingredients := [{ ID := "water", Quantity := 5 },
                                          { ID := "milk", Quantity := 1 }] }).2
        = some (Error.ErrInsufficientResource "water")) := by
  decide

/-- C21, amended: for every store state with non-negative reserved counters
and every order without negative quantities whose requirements before index
`k` can all be reserved and whose requirement `k` names an ingredient that was
never stocked, the inventory store's `GetIngredient` fails with
`ErrResourceNotAvailable` for that ingredient, `attemptPouringDrink` returns
that very error, and `pourDrink` makes exactly one attempt: its log holds that
one error, the outcome is NOT_PREPARED and the one rejection reason is the
message of that log. -/
theorem attemptPouringDrink_not_stocked (c : coffeeMachineImpl) (item : Item)
    (hres : ∀ id, 0 ≤ c.reserved id) (hq : ∀ i ∈ item.Ingredients, 0 ≤ i.Quantity)
    (pre post : List Ingredient) (i0 : Ingredient)
    (hsplit : item.Ingredients = pre ++ i0 :: post)
    (hpre : (reserveLoop c pre 0).2 = none) (hns : c.stocked i0.ID = false) :
    item.Ingredients[pre.length]? = some i0 ∧
      resourcemanager.GetIngredient c.resourceManager { IngredientID := i0.ID }
        = Except.error (Error.ErrResourceNotAvailable i0.ID) ∧
      (attemptPouringDrink c item).2 = some (Error.ErrResourceNotAvailable i0.ID) ∧
      (pourDrinkRetry c item).calls = 1 ∧
      (pourDrinkRetry c item).errorLog = [Error.ErrResourceNotAvailable i0.ID] ∧
      (pourDrink c item).2.Outcome = GetItemOutcome.GetItemOutcomeNotPrepared ∧
      (pourDrink c item).2.RejectReasons =
        [{ RejectReasonMsg := retry.Error.Error [Error.ErrResourceNotAvailable i0.ID] }] := by
  have hrmpre := reserveLoop_resourceManager c pre 0
  have hget : resourcemanager.GetIngredient c.resourceManager { IngredientID := i0.ID }
      = Except.error (Error.ErrResourceNotAvailable i0.ID) := by
    apply (resourcemanager.GetIngredient_eq c.resourceManager i0.ID).1
    unfold coffeeMachineImpl.stocked at hns
    cases hc : c.resourceManager.availableResources.commaOk i0.ID with
    | none => rfl
    | some a => rw [hc] at hns; simp at hns
  have hstep : reserveIngredientIfPossible (reserveLoop c pre 0).1 i0 =
      ((getOrCreateMutex (reserveLoop c pre 0).1 i0).1,
        some (Error.ErrResourceNotAvailable i0.ID)) := by
    have e1 : (reserveLoop c pre 0).1.stocked i0.ID = false := by
      simpa [coffeeMachineImpl.stocked, hrmpre] using hns
    rw [reserve_eq, e1]
    simp
  have hbody : (attemptBody c item).2.2 = some (Error.ErrResourceNotAvailable i0.ID) := by
    unfold attemptBody
    rw [hsplit, reserveLoop_append, if_pos hpre]
    unfold reserveLoop
    rw [hstep]
  have hatt : (attemptPouringDrink c item).2 = some (Error.ErrResourceNotAvailable i0.ID) := by
    rw [(attemptPouringDrink_cleanup c item hres hq).1, hbody]
  have hretry := pourDrinkRetry_of_fatal c item _ hatt rfl
  have hk : item.Ingredients[pre.length]? = some i0 := by
    rw [hsplit, List.getElem?_append_right (le_refl _)]
    simp
  refine ⟨hk, hget, hatt, by rw [hretry]; rfl, by rw [hretry], ?_, ?_⟩
  · simp [pourDrink, hretry, retry.Outcome.err, toPourDrinkResponse]
  · simp [pourDrink, hretry, retry.Outcome.err, toPourDrinkResponse, GoError.Error]

/-- C21, witness: a latte of milk and cocoa on a machine that stocks milk and
water only. -/
theorem attemptPouringDrink_not_stocked_witness :
    (pourDrinkRetry
      (New { ReservationManager := { reservations := [("milk", 3)] }
             ResourceManager := { availableResources := [("milk", 9), ("water", 10)] }
             NumOfOutlets := 1 })
      { ID := "mocha", Ingredients := [{ ID := "milk", Quantity := 5 },
                                        { ID := "cocoa", Quantity := 2 },
                                        { ID := "water", Quantity := 1 }] }).errorLog
      = [Error.ErrResourceNotAvailable "cocoa"] :=
  (attemptPouringDrink_not_stocked
      (New { ReservationManager := { reservations := [("milk", 3)] }
             ResourceManager := { availableResources := [("milk", 9), ("water", 10)] }
             NumOfOutlets := 1 })
      { ID := "mocha", Ingredients := [{ ID := "milk", Quantity := 5 },
                                        { ID := "cocoa", Quantity := 2 },
                                        { ID := "water", Quantity := 1 }] }
      (fun id => index_nonneg_of_entries (by decide) id) (by decide)
      [{ ID := "milk", Quantity := 5 }] [{ ID := "water", Quantity := 1 }]
      { ID := "cocoa", Quantity := 2 } rfl (by decide) (by decide)).2.2.2.2.1

end vendingmachine

/-! ## An order that lists an ingredient twice -/

namespace vendingmachine

theorem doLoop_retry {σ : Type} (f : σ → σ × Option Error) (rif : Error → Bool)
    (n : Nat) (s s1 : σ) (log : retry.Error) (err : Error)
    (hf : f s = (s1, some err)) (hr : rif err = true) :
    retry.doLoop f rif (n + 1) s log = retry.doLoop f rif n s1 (log ++ [err]) := by
  rw [retry.doLoop, hf]
  simp [hr]

theorem required_middle (pre mid : List Ingredient) (i : Ingredient) (id : String) :
    required (pre ++ i :: mid) id =
      (if i.ID = id then i.Quantity else 0) + required (pre ++ mid) id := by
  rw [required_perm (List.perm_middle : (pre ++ i :: mid).Perm (i :: (pre ++ mid))) id,
    required_cons]

/-- One attempt on an order that lists an ingredient twice and asks it for
more than is free, the other requirements before the second listing being
reservable: the second listing fails with
`ErrResourceTemporarilyNotAvailable`, and the reservations made are deleted
again. -/
theorem attemptPouringDrink_twice_listed (c : coffeeMachineImpl) (item : Item)
    (id : String) (q1 q2 : Int) (pre mid post : List Ingredient)
    (hitem : item.Ingredients =
      (pre ++ { ID := id, Quantity := q1 } :: mid) ++ { ID := id, Quantity := q2 } :: post)
    (hother : ∀ i ∈ pre ++ mid, i.ID ≠ id)
    (hq : ∀ i ∈ pre ++ mid, 0 ≤ i.Quantity)
    (hobs : ∀ i ∈ pre ++ mid, c.stocked i.ID = true ∧
      c.available i.ID - c.reserved i.ID ≥ required (pre ++ mid) i.ID)
    (hres : ∀ id1, 0 ≤ c.reserved id1) (hq1 : 0 ≤ q1)
    (h1 : c.available id - c.reserved id ≥ q1) (h2 : c.available id ≥ q2)
    (h3 : c.available id - c.reserved id < q1 + q2) :
    (attemptPouringDrink c item).2 = some (Error.ErrResourceTemporarilyNotAvailable id) ∧
      (attemptPouringDrink c item).1.resourceManager = c.resourceManager ∧
      ∀ id1, (attemptPouringDrink c item).1.reserved id1 = c.reserved id1 := by
  have hr0 := hres id
  have hst : c.stocked id = true := stocked_of_available_pos c id (by omega)
  have hqL : ∀ i ∈ pre ++ { ID := id, Quantity := q1 } :: mid, 0 ≤ i.Quantity := by
    intro i hi
    rcases List.mem_append.1 hi with hp | hm
    · exact hq i (List.mem_append_left _ hp)
    · rcases List.mem_cons.1 hm with rfl | hm1
      · exact hq1
      · exact hq i (List.mem_append_right _ hm1)
  have hreq : required (pre ++ { ID := id, Quantity := q1 } :: mid) id = q1 := by
    rw [required_middle, required_eq_zero_of_not_mem _ id hother]
    simp
  have hokL : (reserveLoop c (pre ++ { ID := id, Quantity := q1 } :: mid) 0).2 = none := by
    apply reserveLoop_ok_of c _ 0 hqL
    intro i hi
    have hcase : i = { ID := id, Quantity := q1 } ∨ i ∈ pre ++ mid := by
      rcases List.mem_append.1 hi with hp | hm
      · exact Or.inr (List.mem_append_left _ hp)
      · rcases List.mem_cons.1 hm with rfl | hm1
        · exact Or.inl rfl
        · exact Or.inr (List.mem_append_right _ hm1)
    rcases hcase with rfl | hi1
    · exact ⟨hst, by rw [hreq]; exact h1⟩
    · have hne := hother i hi1
      obtain ⟨o1, o2⟩ := hobs i hi1
      refine ⟨o1, ?_⟩
      rw [required_middle]
      simp only [Ne.symm hne, if_false, zero_add]
      exact o2
  have resL := reserveLoop_reserved_of_ok c _ 0 hokL
  have rmL := reserveLoop_resourceManager c (pre ++ { ID := id, Quantity := q1 } :: mid) 0
  have eL : reserveLoop c (pre ++ { ID := id, Quantity := q1 } :: mid) 0 =
      ((reserveLoop c (pre ++ { ID := id, Quantity := q1 } :: mid) 0).1, none) :=
    Prod.ext rfl hokL
  generalize (reserveLoop c (pre ++ { ID := id, Quantity := q1 } :: mid) 0).1 = c1
    at eL resL rmL
  have err2 : (reserveIngredientIfPossible c1 { ID := id, Quantity := q2 }).2 =
      some (Error.ErrResourceTemporarilyNotAvailable id) := by
    have a1 : c1.available id = c.available id := available_congr rmL id
    have s1 : c1.stocked id = true := by rw [stocked_congr rmL id]; exact hst
    have r1 := resL id
    rw [hreq] at r1
    rw [reserve_err_eq]
    simp only [s1, a1, r1, if_true]
    have n1 : ¬ c.available id - (c.reserved id + q1) ≥ q2 := by omega
    simp [n1, h2]
  have rv2 := reserve_reservationManager_of_fail c1 { ID := id, Quantity := q2 }
    (by rw [err2]; simp)
  have rm2 := reserve_resourceManager c1 { ID := id, Quantity := q2 }
  have e2 : reserveIngredientIfPossible c1 { ID := id, Quantity := q2 } =
      ((reserveIngredientIfPossible c1 { ID := id, Quantity := q2 }).1,
        some (Error.ErrResourceTemporarilyNotAvailable id)) :=
    Prod.ext rfl err2
  generalize (reserveIngredientIfPossible c1 { ID := id, Quantity := q2 }).1 = c2
    at e2 rv2 rm2
  have res2 : ∀ id1, c2.reserved id1 =
      c.reserved id1 + required (pre ++ { ID := id, Quantity := q1 } :: mid) id1 := by
    intro id1
    rw [reserved_congr rv2 id1]
    exact resL id1
  obtain ⟨d1, d2⟩ := deleteReservations_ok_iff c2
    (pre ++ { ID := id, Quantity := q1 } :: mid) hqL
  have ok3 : (deleteReservations c2 (pre ++ { ID := id, Quantity := q1 } :: mid)).2 = none := by
    rw [d1]
    intro i _
    rw [res2 i.ID]
    have := hres i.ID
    omega
  have res3 := d2 ok3
  have rm3 := deleteReservations_resourceManager c2
    (pre ++ { ID := id, Quantity := q1 } :: mid)
  have e3 : deleteReservations c2 (pre ++ { ID := id, Quantity := q1 } :: mid) =
      ((deleteReservations c2 (pre ++ { ID := id, Quantity := q1 } :: mid)).1, none) :=
    Prod.ext rfl ok3
  generalize (deleteReservations c2 (pre ++ { ID := id, Quantity := q1 } :: mid)).1 = c3
    at e3 res3 rm3
  have hloop : reserveLoop c item.Ingredients 0 =
      (c2, some ((pre ++ { ID := id, Quantity := q1 } :: mid).length,
        Error.ErrResourceTemporarilyNotAvailable id)) := by
    rw [hitem, reserveLoop_append, eL]
    simp [reserveLoop, e2]
  have htake : item.Ingredients.take (pre ++ { ID := id, Quantity := q1 } :: mid).length =
      pre ++ { ID := id, Quantity := q1 } :: mid := by
    rw [hitem, List.take_left]
  have hatt : attemptPouringDrink c item =
      (c3, some (Error.ErrResourceTemporarilyNotAvailable id)) := by
    unfold attemptPouringDrink attemptBody
    rw [hloop]
    simp only []
    rw [htake, e3]
  rw [hatt]
  refine ⟨rfl, by rw [rm3, rm2, rmL], ?_⟩
  intro id1
  simp only [res3 id1, res2 id1]
  omega

end vendingmachine

namespace vendingmachine

/-- C26 as stated fails for an order that lists more than the ingredient in
question: on stock water 10 with nothing reserved, the orders
[milk 1, water 6, water 6] and [water 6, milk 1, water 6] list water twice
with 10 - 0 ≥ 6, 10 ≥ 6 and 10 - 0 < 6 + 6, yet milk was never stocked, so
the attempt fails with `ErrResourceNotAvailable` for milk and `pourDrink`
makes that one attempt only. -/
theorem pourDrink_contends_with_itself_counterexample :
    (pourDrinkRetry
      (New { ReservationManager := { reservations := [] }
             ResourceManager := { availableResources := [("water", 10)] }
             NumOfOutlets := 1 })
      { ID := "latte", Ingredients := [{ ID := "milk", Quantity := 1 },
                                        { ID := "water", Quantity := 6 },
                                        { ID := "water", Quantity := 6 }] }).trace
      = [some (Error.ErrResourceNotAvailable "milk")] ∧
    (pourDrinkRetry
      (New { ReservationManager := { reservations := [] }
             ResourceManager := { availableResources := [("water", 10)] }
             NumOfOutlets := 1 })
      { ID := "latte", Ingredients := [{ ID := "water", Quantity := 6 },
                                        { ID := "milk", Quantity := 1 },
                                        { ID := "water", Quantity := 6 }] }).trace
      = [some (Error.ErrResourceNotAvailable "milk")] := by
  decide

/-- C26, amended: an order can contend with itself.  Take a store state with
no other order in flight (no reserved counter is negative) and an order that
lists the same ingredient twice, with positive quantity `q1` and quantity `q2`
such that `available - reserved ≥ q1`, `available ≥ q2` and
`available - reserved < q1 + q2` (so `q2` is positive too), whose other
requirements before the second listing, if any, name other ingredients, have
no negative quantity and can be reserved.  Then a sequential
`attemptPouringDrink` fails with `ErrResourceTemporarilyNotAvailable` for that
ingredient and leaves the available quantity and the reserved counter of every
ingredient as they were; `pourDrink` makes 3 attempts that all fail with that
error, leaves the quantities as they were, and answers NOT_PREPARED with the
message of the log of the three errors as its one rejection reason. -/
theorem pourDrink_contends_with_itself (c : coffeeMachineImpl) (item : Item)
    (id : String) (q1 q2 : Int) (pre mid post : List Ingredient)
    (hitem : item.Ingredients =
      (pre ++ { ID := id, Quantity := q1 } :: mid) ++ { ID := id, Quantity := q2 } :: post)
    (hother : ∀ i ∈ pre ++ mid, i.ID ≠ id)
    (hq : ∀ i ∈ pre ++ mid, 0 ≤ i.Quantity)
    (hothers : (reserveLoop c (pre ++ mid) 0).2 = none)
    (hres : ∀ id1, 0 ≤ c.reserved id1) (hq1 : 0 < q1)
    (h1 : c.available id - c.reserved id ≥ q1) (h2 : c.available id ≥ q2)
    (h3 : c.available id - c.reserved id < q1 + q2) :
    (attemptPouringDrink c item).2 = some (Error.ErrResourceTemporarilyNotAvailable id) ∧
      (∀ id1, (attemptPouringDrink c item).1.available id1 = c.available id1 ∧
        (attemptPouringDrink c item).1.reserved id1 = c.reserved id1) ∧
      (pourDrinkRetry c item).calls = 3 ∧
      (pourDrinkRetry c item).trace =
        [some (Error.ErrResourceTemporarilyNotAvailable id),
         some (Error.ErrResourceTemporarilyNotAvailable id),
         some (Error.ErrResourceTemporarilyNotAvailable id)] ∧
      (∀ k, k < 3 →
        attemptResult c item k = some (Error.ErrResourceTemporarilyNotAvailable id)) ∧
      (∀ id1, (pourDrink c item).1.available id1 = c.available id1 ∧
        (pourDrink c item).1.reserved id1 = c.reserved id1) ∧
      (pourDrink c item).2 =
        { Item := item
          Outcome := GetItemOutcome.GetItemOutcomeNotPrepared
          RejectReasons :=
            [{ RejectReasonMsg :=
                retry.Error.Error [Error.ErrResourceTemporarilyNotAvailable id,
                                   Error.ErrResourceTemporarilyNotAvailable id,
                                   Error.ErrResourceTemporarilyNotAvailable id] }] } := by
  have hobs := (reserveLoop_ok_iff c (pre ++ mid) 0 hq).1 hothers
  have step : ∀ s : coffeeMachineImpl,
      (s.resourceManager = c.resourceManager ∧ ∀ id1, s.reserved id1 = c.reserved id1) →
      attemptPouringDrink s item =
          ((attemptPouringDrink s item).1,
            some (Error.ErrResourceTemporarilyNotAvailable id)) ∧
        ((attemptPouringDrink s item).1.resourceManager = c.resourceManager ∧
          ∀ id1, (attemptPouringDrink s item).1.reserved id1 = c.reserved id1) := by
    intro s hs
    obtain ⟨hs1, hs2⟩ := hs
    have ha := available_congr hs1 id
    have hr := hs2 id
    have hobs1 : ∀ i ∈ pre ++ mid, s.stocked i.ID = true ∧
        s.available i.ID - s.reserved i.ID ≥ required (pre ++ mid) i.ID := by
      intro i hi
      rw [stocked_congr hs1 i.ID, available_congr hs1 i.ID, hs2 i.ID]
      exact hobs i hi
    obtain ⟨r1, r2, r3⟩ := attemptPouringDrink_twice_listed s item id q1 q2 pre mid post
      hitem hother hq hobs1 (fun id1 => by rw [hs2 id1]; exact hres id1) (le_of_lt hq1)
      (by omega) (by omega) (by omega)
    exact ⟨Prod.ext rfl r1, by rw [r2, hs1], fun id1 => by rw [r3 id1, hs2 id1]⟩
  obtain ⟨a1, p1⟩ := step c ⟨rfl, fun _ => rfl⟩
  obtain ⟨a2, p2⟩ := step _ p1
  obtain ⟨a3, p3⟩ := step _ p2
  have hretry : pourDrinkRetry c item =
      { state := attemptState c item 3
        errorLog := [Error.ErrResourceTemporarilyNotAvailable id,
                     Error.ErrResourceTemporarilyNotAvailable id,
                     Error.ErrResourceTemporarilyNotAvailable id]
        succeeded := false } := by
    unfold pourDrinkRetry retry.Do
    rw [doLoop_retry _ _ _ _ _ _ _ a1 rfl, doLoop_retry _ _ _ _ _ _ _ a2 rfl,
      doLoop_retry _ _ _ _ _ _ _ a3 rfl]
    rfl
  have hfin : (attemptState c item 3).resourceManager = c.resourceManager ∧
      ∀ id1, (attemptState c item 3).reserved id1 = c.reserved id1 := p3
  refine ⟨by rw [a1], fun id1 => ⟨available_congr p1.1 id1, p1.2 id1⟩, ?_, ?_, ?_, ?_, ?_⟩
  · rw [hretry]; rfl
  · rw [hretry]; rfl
  · intro k hk
    have hk3 : k = 0 ∨ k = 1 ∨ k = 2 := by omega
    rcases hk3 with rfl | rfl | rfl
    · show (attemptPouringDrink c item).2 = _
      rw [a1]
    · show (attemptPouringDrink (attemptPouringDrink c item).1 item).2 = _
      rw [a2]
    · show (attemptPouringDrink
        (attemptPouringDrink (attemptPouringDrink c item).1 item).1 item).2 = _
      rw [a3]
  · intro id1
    simp only [pourDrink, hretry]
    exact ⟨available_congr hfin.1 id1, hfin.2 id1⟩
  · simp [pourDrink, hretry, retry.Outcome.err, toPourDrinkResponse, GoError.Error]

/-- C26, witness: stock water 10 and the order [water 6, water 6]. -/
theorem pourDrink_contends_with_itself_witness :
    (pourDrink
      (New { ReservationManager := { reservations := [] }
             ResourceManager := { availableResources := [("water", 10)] }
             NumOfOutlets := 1 })
      { ID := "tea", Ingredients := [{ ID := "water", Quantity := 6 },
                                      { ID := "water", Quantity := 6 }] }).2 =
      { Item := { ID := "tea", Ingredients := [{ ID := "water", Quantity := 6 },
                                                { ID := "water", Quantity := 6 }] }
        Outcome := GetItemOutcome.GetItemOutcomeNotPrepared
        RejectReasons :=
          [{ RejectReasonMsg :=
              retry.Error.Error [Error.ErrResourceTemporarilyNotAvailable "water",
                                 Error.ErrResourceTemporarilyNotAvailable "water",
                                 Error.ErrResourceTemporarilyNotAvailable "water"] }] } :=
  (pourDrink_contends_with_itself
      (New { ReservationManager := { reservations := [] }
             ResourceManager := { availableResources := [("water", 10)] }
             NumOfOutlets := 1 })
      { ID := "tea", Ingredients := [{ ID := "water", Quantity := 6 },
                                      { ID := "water", Quantity := 6 }] }
      "water" 6 6 [] [] [] rfl (by decide) (by decide) (by decide)
      (fun id => index_nonneg_of_entries (by decide) id)
      (by decide) (by decide) (by decide) (by decide)).2.2.2.2.2.2

end vendingmachine

/-! ## The registry of per-ingredient mutexes -/

namespace vendingmachine

theorem lookupMutex_append (m : List (String × MutexRef)) (k : String) (mu : MutexRef)
    (id : String) :
    lookupMutex (m ++ [(k, mu)]) id =
      match lookupMutex m id with
      | some x => some x
      | none => if k = id then some mu else none := by
  induction m with
  | nil => simp [lookupMutex]
  | cons p m ih =>
    obtain ⟨a, x⟩ := p
    by_cases h : a = id
    · simp [lookupMutex, h]
    · simp [lookupMutex, h, ih]

theorem getOrCreateMutex_of_some (c : coffeeMachineImpl) (i : Ingredient) (mu : MutexRef)
    (h : lookupMutex c.mutexesMap i.ID = some mu) : getOrCreateMutex c i = (c, mu) := by
  unfold getOrCreateMutex
  rw [h]

theorem getOrCreateMutex_of_none (c : coffeeMachineImpl) (i : Ingredient)
    (h : lookupMutex c.mutexesMap i.ID = none) :
    getOrCreateMutex c i =
      ({ c with mutexesMap := c.mutexesMap ++ [(i.ID, c.mutexesMap.length)] },
       c.mutexesMap.length) := by
  unfold getOrCreateMutex
  rw [h]

theorem getOrCreateMutex_lookup (c : coffeeMachineImpl) (i : Ingredient) :
    lookupMutex (getOrCreateMutex c i).1.mutexesMap i.ID = some (getOrCreateMutex c i).2 := by
  cases h : lookupMutex c.mutexesMap i.ID with
  | some mu => rw [getOrCreateMutex_of_some c i mu h]; exact h
  | none =>
    rw [getOrCreateMutex_of_none c i h]
    simp [lookupMutex_append, h]

theorem getOrCreateMutex_keeps (c : coffeeMachineImpl) (i : Ingredient) (id : String)
    (mu : MutexRef) (h : lookupMutex c.mutexesMap id = some mu) :
    lookupMutex (getOrCreateMutex c i).1.mutexesMap id = some mu := by
  cases hi : lookupMutex c.mutexesMap i.ID with
  | some x => rw [getOrCreateMutex_of_some c i x hi]; exact h
  | none =>
    rw [getOrCreateMutex_of_none c i hi]
    simp [lookupMutex_append, h]

theorem getOrCreateMutex_grows (c : coffeeMachineImpl) (i : Ingredient) :
    ∃ added, (getOrCreateMutex c i).1.mutexesMap = c.mutexesMap ++ added := by
  cases hi : lookupMutex c.mutexesMap i.ID with
  | some x => exact ⟨[], by rw [getOrCreateMutex_of_some c i x hi]; simp⟩
  | none => exact ⟨[(i.ID, c.mutexesMap.length)], by rw [getOrCreateMutex_of_none c i hi]⟩

theorem getOrCreateMutexes_keeps (c : coffeeMachineImpl) (calls : List Ingredient)
    (id : String) (mu : MutexRef) (h : lookupMutex c.mutexesMap id = some mu) :
    lookupMutex (getOrCreateMutexes c calls).mutexesMap id = some mu := by
  induction calls generalizing c with
  | nil => exact h
  | cons i calls ih =>
    rw [getOrCreateMutexes]
    exact ih _ (getOrCreateMutex_keeps c i id mu h)

theorem getOrCreateMutexes_grows (c : coffeeMachineImpl) (calls : List Ingredient) :
    ∃ added, (getOrCreateMutexes c calls).mutexesMap = c.mutexesMap ++ added := by
  induction calls generalizing c with
  | nil => exact ⟨[], by simp [getOrCreateMutexes]⟩
  | cons i calls ih =>
    obtain ⟨a1, h1⟩ := getOrCreateMutex_grows c i
    obtain ⟨a2, h2⟩ := ih (getOrCreateMutex c i).1
    rw [getOrCreateMutexes]
    exact ⟨a1 ++ a2, by rw [h2, h1, List.append_assoc]⟩

/-- C22: `getOrCreateMutex` keeps one lock per ingredient id.  For an id
already in the registry it returns the registered lock and leaves the machine,
registry included, as it was.  For a new id it appends exactly one entry, for
that id and the lock it returns, and the lookup of every other id is what it
was.  After any sequence of calls the registry is the old one followed by the
added entries, so every id that had a lock still has that same lock; and two
calls for the same ingredient id, with any calls in between, return the same
lock. -/
theorem getOrCreateMutex_one_lock_per_id (c : coffeeMachineImpl) (ingredient : Ingredient) :
    (∀ mutex, lookupMutex c.mutexesMap ingredient.ID = some mutex →
      getOrCreateMutex c ingredient = (c, mutex)) ∧
    (lookupMutex c.mutexesMap ingredient.ID = none →
      (getOrCreateMutex c ingredient).1.mutexesMap =
          c.mutexesMap ++ [(ingredient.ID, (getOrCreateMutex c ingredient).2)] ∧
        lookupMutex (getOrCreateMutex c ingredient).1.mutexesMap ingredient.ID =
          some (getOrCreateMutex c ingredient).2 ∧
        ∀ id, id ≠ ingredient.ID →
          lookupMutex (getOrCreateMutex c ingredient).1.mutexesMap id =
            lookupMutex c.mutexesMap id) ∧
    (∀ calls : List Ingredient,
      (∃ added, (getOrCreateMutexes c calls).mutexesMap = c.mutexesMap ++ added) ∧
      ∀ id mutex, lookupMutex c.mutexesMap id = some mutex →
        lookupMutex (getOrCreateMutexes c calls).mutexesMap id = some mutex) ∧
    (∀ (calls : List Ingredient) (other : Ingredient), other.ID = ingredient.ID →
      (getOrCreateMutex (getOrCreateMutexes (getOrCreateMutex c ingredient).1 calls) other).2 =
        (getOrCreateMutex c ingredient).2) := by
  refine ⟨fun mutex h => getOrCreateMutex_of_some c ingredient mutex h, ?_, ?_, ?_⟩
  · intro h
    refine ⟨by rw [getOrCreateMutex_of_none c ingredient h],
      getOrCreateMutex_lookup c ingredient, ?_⟩
    intro id hid
    rw [getOrCreateMutex_of_none c ingredient h]
    simp only [lookupMutex_append]
    cases lookupMutex c.mutexesMap id with
    | some x => rfl
    | none => simp [Ne.symm hid]
  · intro calls
    exact ⟨getOrCreateMutexes_grows c calls,
      fun id mutex h => getOrCreateMutexes_keeps c calls id mutex h⟩
  · intro calls other hother
    have h1 := getOrCreateMutexes_keeps (getOrCreateMutex c ingredient).1 calls
      ingredient.ID _ (getOrCreateMutex_lookup c ingredient)
    rw [← hother] at h1
    rw [getOrCreateMutex_of_some _ other _ h1]

end vendingmachine

/-! ## The lock discipline of `Refill` -/

namespace vendingmachine

theorem underLock_reserveIngredientIfPossibleOps (c : coffeeMachineImpl)
    (ingredient : Ingredient) :
    underLock (getOrCreateMutex c ingredient).2 false
      (reserveIngredientIfPossibleOps c ingredient) = true := by
  unfold reserveIngredientIfPossibleOps
  cases resourcemanager.GetIngredient c.resourceManager { IngredientID := ingredient.ID } with
  | error e => simp [underLock]
  | ok a =>
    cases reservationmanager.Get c.reservationManager { IngredientID := ingredient.ID } with
    | error e => simp [underLock]
    | ok r =>
      simp only []
      split_ifs <;> simp [underLock]

/-- C23 does not hold of the code: `Refill` locks the ingredient's mutex and
unlocks it at once, and calls `UpdateIngredient` afterwards, with the mutex
released, whereas `consumeIngredient` and `reserveIngredientIfPossible` make
all their store calls between `Lock` and the deferred `Unlock`.  So a refill
is not serialized with a reserve step on the same ingredient: on stock water
10, with a worker reserving water 6 and a refill of water 5 side by side,
the schedule refill, refill, worker, worker, refill, worker, worker, worker
is admissible and in it the refill's `UpdateIngredient` is made while the
worker holds water's mutex, between the worker's `GetIngredient` and its
`Create`. -/
theorem Refill_update_outside_lock :
    (∀ (c : coffeeMachineImpl) (ingredient : Ingredient),
      underLock (getOrCreateMutex c ingredient).2 false (RefillOps c ingredient) = false ∧
      underLock (getOrCreateMutex c ingredient).2 false
        (consumeIngredientOps c ingredient) = true ∧
      underLock (getOrCreateMutex c ingredient).2 false
        (reserveIngredientIfPossibleOps c ingredient) = true) ∧
    Goroutines.run
        { holder := []
          pending :=
            [reserveIngredientIfPossibleOps
               (New { ReservationManager := { reservations := [] }
                      ResourceManager := { availableResources := [("water", 10)] }
                      NumOfOutlets := 2 })
               { ID := "water", Quantity := 6 },
             RefillOps
               (New { ReservationManager := { reservations := [] }
                      ResourceManager := { availableResources := [("water", 10)] }
                      NumOfOutlets := 2 })
               { ID := "water", Quantity := 5 }] }
        [1, 1, 0, 0, 1, 0, 0, 0] =
      some
        [{ goroutine := 1, op := .Lock 0, holder := [] },
         { goroutine := 1, op := .Unlock 0, holder := [(0, 1)] },
         { goroutine := 0, op := .Lock 0, holder := [] },
         { goroutine := 0, op := .GetIngredient { IngredientID := "water" },
           holder := [(0, 0)] },
         { goroutine := 1,
           op := .UpdateIngredient
             { IngredientID := "water"
               UpdateType := resourcemanager.UpdateTypeRefill
               ResourceQuantity := 5 },
           holder := [(0, 0)] },
         { goroutine := 0, op := .Get { IngredientID := "water" }, holder := [(0, 0)] },
         { goroutine := 0, op := .Create { IngredientID := "water", ReserveQuantity := 6 },
           holder := [(0, 0)] },
         { goroutine := 0, op := .Unlock 0, holder := [(0, 0)] }] ∧
    Observed.besideHolder 0
        { goroutine := 1,
          op := .UpdateIngredient
            { IngredientID := "water"
              UpdateType := resourcemanager.UpdateTypeRefill
              ResourceQuantity := 5 },
          holder := [(0, 0)] } = true ∧
    Goroutines.run
        { holder := []
          pending :=
            [reserveIngredientIfPossibleOps
               (New { ReservationManager := { reservations := [] }
                      ResourceManager := { availableResources := [("water", 10)] }
                      NumOfOutlets := 2 })
               { ID := "water", Quantity := 6 },
             consumeIngredientOps
               (New { ReservationManager := { reservations := [] }
                      ResourceManager := { availableResources := [("water", 10)] }
                      NumOfOutlets := 2 })
               { ID := "water", Quantity := 5 }] }
        [1, 0] = none := by
  refine ⟨fun c ingredient => ⟨?_, ?_, underLock_reserveIngredientIfPossibleOps c ingredient⟩,
    by decide, by decide, by decide⟩
  · simp [RefillOps, underLock]
  · simp [consumeIngredientOps, underLock]

end vendingmachine

/-! ## The stores on machine integers -/

namespace GoInt

theorem wrap_of_inRange (x : Int) (h : inRange x) : wrap x = x := by
  unfold inRange MinInt MaxInt at h
  unfold wrap
  omega

theorem inRange_wrap (x : Int) : inRange (wrap x) := by
  unfold inRange MinInt MaxInt wrap
  omega

theorem inRange_of_bounds {x : Int} (h0 : 0 ≤ x) (h1 : x ≤ MaxInt) : inRange x := by
  unfold MaxInt at h1
  unfold inRange MinInt MaxInt
  omega

end GoInt

namespace resourcemanager

/-- The two embeddings of `UpdateIngredient` agree on a call whose
subtraction or addition stays in the range of `int`. -/
theorem UpdateIngredient_wrapping_eq (m : repositoryImpl) (req : UpdateRequest)
    (hc : req.UpdateType = UpdateTypeConsume →
      GoInt.inRange (m.availableResources.index req.IngredientID - req.ResourceQuantity))
    (hr : req.UpdateType = UpdateTypeRefill →
      GoInt.inRange (m.availableResources.index req.IngredientID + req.ResourceQuantity)) :
    wrapping.UpdateIngredient m req = UpdateIngredient m req := by
  unfold wrapping.UpdateIngredient UpdateIngredient
  split_ifs with h1 h2
  · rw [GoInt.wrap_of_inRange _ (hc h1)]
  · rw [GoInt.wrap_of_inRange _ (hr h2)]
  · rfl

/-- A call with a non-negative delta on a store of quantities between 0 and
`math.MaxInt`, a refill not going beyond `math.MaxInt`: the two embeddings
agree and the quantities stay between 0 and `math.MaxInt`. -/
theorem UpdateIngredient_wrapping_bounds (m : repositoryImpl) (req : UpdateRequest)
    (hd : 0 ≤ req.ResourceQuantity)
    (hm : ∀ id, 0 ≤ m.availableResources.index id ∧ m.availableResources.index id ≤ GoInt.MaxInt)
    (hfit : req.UpdateType = UpdateTypeRefill →
      m.availableResources.index req.IngredientID + req.ResourceQuantity ≤ GoInt.MaxInt) :
    wrapping.UpdateIngredient m req = UpdateIngredient m req ∧
      ∀ id, 0 ≤ (wrapping.UpdateIngredient m req).1.availableResources.index id ∧
        (wrapping.UpdateIngredient m req).1.availableResources.index id ≤ GoInt.MaxInt := by
  have h0 := hm req.IngredientID
  by_cases hcons : req.UpdateType = UpdateTypeConsume
  · cases hc : m.availableResources.commaOk req.IngredientID with
    | none =>
      have e1 : wrapping.UpdateIngredient m req =
          (m, Except.error (Error.ErrResourceNotAvailable req.IngredientID)) := by
        simp [wrapping.UpdateIngredient, hcons, hc]
      have e2 : UpdateIngredient m req =
          (m, Except.error (Error.ErrResourceNotAvailable req.IngredientID)) := by
        simp [UpdateIngredient, hcons, hc]
      rw [e1, e2]
      exact ⟨rfl, hm⟩
    | some val =>
      have hidx := GoMap.index_eq_of_commaOk hc
      by_cases hlt : val < req.ResourceQuantity
      · have e1 : wrapping.UpdateIngredient m req =
            (m, Except.error (Error.ErrResourceNotAvailable req.IngredientID)) := by
          simp [wrapping.UpdateIngredient, hcons, hc, hlt]
        have e2 : UpdateIngredient m req =
            (m, Except.error (Error.ErrResourceNotAvailable req.IngredientID)) := by
          simp [UpdateIngredient, hcons, hc, hlt]
        rw [e1, e2]
        exact ⟨rfl, hm⟩
      · have hin : GoInt.inRange
            (m.availableResources.index req.IngredientID - req.ResourceQuantity) :=
          GoInt.inRange_of_bounds (by omega) (by omega)
        have heq := UpdateIngredient_wrapping_eq m req (fun _ => hin)
          (fun h => by
            rw [hcons] at h
            exact absurd h (by decide))
        have e2 : (UpdateIngredient m req).1 =
            { availableResources :=
                m.availableResources.assign req.IngredientID
                  (m.availableResources.index req.IngredientID - req.ResourceQuantity) } := by
          simp [UpdateIngredient, hcons, hc, hlt]
        refine ⟨heq, fun id => ?_⟩
        rw [heq, e2]
        have h1 := hm id
        simp only [GoMap.index_assign]
        split_ifs <;> omega
  · by_cases hrf : req.UpdateType = UpdateTypeRefill
    · have hb := hfit hrf
      have hin : GoInt.inRange
          (m.availableResources.index req.IngredientID + req.ResourceQuantity) :=
        GoInt.inRange_of_bounds (by omega) hb
      have heq := UpdateIngredient_wrapping_eq m req (fun h => absurd h hcons) (fun _ => hin)
      have e2 : (UpdateIngredient m req).1 =
          { availableResources :=
              m.availableResources.assign req.IngredientID
                (m.availableResources.index req.IngredientID + req.ResourceQuantity) } := by
        have hne : ¬ UpdateTypeRefill = UpdateTypeConsume := by decide
        simp [UpdateIngredient, hrf, hne]
      refine ⟨heq, fun id => ?_⟩
      rw [heq, e2]
      have h1 := hm id
      simp only [GoMap.index_assign]
      split_ifs <;> omega
    · have heq := UpdateIngredient_wrapping_eq m req (fun h => absurd h hcons)
        (fun h => absurd h hrf)
      have e2 : (UpdateIngredient m req).1 = m := by
        simp [UpdateIngredient, hcons, hrf]
      refine ⟨heq, fun id => ?_⟩
      rw [heq, e2]
      exact hm id

theorem runUpdates_wrapping_bounds (m : repositoryImpl) (reqs : List UpdateRequest)
    (hd : ∀ req ∈ reqs, 0 ≤ req.ResourceQuantity)
    (hm : ∀ id, 0 ≤ m.availableResources.index id ∧ m.availableResources.index id ≤ GoInt.MaxInt)
    (hfit : wrapping.refillsFit m reqs = true) :
    wrapping.runUpdates m reqs = runUpdates m reqs ∧
      ∀ id, 0 ≤ (wrapping.runUpdates m reqs).availableResources.index id ∧
        (wrapping.runUpdates m reqs).availableResources.index id ≤ GoInt.MaxInt := by
  induction reqs generalizing m with
  | nil => exact ⟨rfl, hm⟩
  | cons req reqs ih =>
    simp only [wrapping.refillsFit, Bool.and_eq_true, decide_eq_true_eq] at hfit
    obtain ⟨hf1, hf2⟩ := hfit
    obtain ⟨e1, b1⟩ := UpdateIngredient_wrapping_bounds m req
      (hd req (List.mem_cons_self _ _)) hm hf1
    obtain ⟨e2, b2⟩ := ih (wrapping.UpdateIngredient m req).1
      (fun r hr => hd r (List.mem_cons_of_mem _ hr)) b1 hf2
    simp only [wrapping.runUpdates, runUpdates, List.foldl_cons] at e2 b2 ⊢
    refine ⟨?_, b2⟩
    rw [e2, e1]

end resourcemanager

namespace resourcemanager

theorem UpdateIngredient_wrapping_consume_fail (m : repositoryImpl) (id : String) (d : Int)
    (h : m.availableResources.index id < d) :
    wrapping.UpdateIngredient m
        { IngredientID := id, UpdateType := UpdateTypeConsume, ResourceQuantity := d }
      = (m, Except.error (Error.ErrResourceNotAvailable id)) := by
  unfold wrapping.UpdateIngredient
  cases hc : m.availableResources.commaOk id with
  | none => simp [hc]
  | some val =>
    have hidx := GoMap.index_eq_of_commaOk hc
    have hlt : val < d := by omega
    simp [hc, hlt]

/-- C10 as stated fails: the addition of a refill wraps around.  From the
empty store, a refill of 10 of water followed by a refill of `math.MaxInt`,
both non-negative, leaves water at -9223372036854775799. -/
theorem runUpdates_quantity_nonneg_counterexample :
    (∀ req ∈ ([{ IngredientID := "water", UpdateType := UpdateTypeRefill,
                 ResourceQuantity := 10 },
               { IngredientID := "water", UpdateType := UpdateTypeRefill,
                 ResourceQuantity := 9223372036854775807 }] : List UpdateRequest),
        0 ≤ req.ResourceQuantity) ∧
      (wrapping.runUpdates New
        [{ IngredientID := "water", UpdateType := UpdateTypeRefill, ResourceQuantity := 10 },
         { IngredientID := "water", UpdateType := UpdateTypeRefill,
           ResourceQuantity := 9223372036854775807 }]).availableResources.index "water"
        = -9223372036854775799 := by
  decide

/-- C10, amended: starting from the empty inventory store, after every finite
sequence of `UpdateIngredient` calls (refill and consume) with non-negative
deltas in which no refill takes a quantity beyond `math.MaxInt`, the quantity
of every ingredient is at least 0 (and at most `math.MaxInt`, no operation
having wrapped); and, bound or no bound, a consume call whose delta exceeds
the current quantity of its ingredient fails with `ErrResourceNotAvailable`
and leaves the store as it is. -/
theorem runUpdates_quantity_nonneg_in_range (reqs : List UpdateRequest)
    (hd : ∀ req ∈ reqs, 0 ≤ req.ResourceQuantity)
    (hfit : wrapping.refillsFit New reqs = true) :
    (∀ id, 0 ≤ (wrapping.runUpdates New reqs).availableResources.index id ∧
      (wrapping.runUpdates New reqs).availableResources.index id ≤ GoInt.MaxInt) ∧
    wrapping.runUpdates New reqs = runUpdates New reqs ∧
    (∀ (before : List UpdateRequest) id d,
      (wrapping.runUpdates New before).availableResources.index id < d →
      wrapping.UpdateIngredient (wrapping.runUpdates New before)
          { IngredientID := id, UpdateType := UpdateTypeConsume, ResourceQuantity := d }
        = (wrapping.runUpdates New before,
            Except.error (Error.ErrResourceNotAvailable id))) := by
  have hnew : ∀ id, 0 ≤ New.availableResources.index id ∧
      New.availableResources.index id ≤ GoInt.MaxInt := by
    intro id
    simp [New, GoMap.index, GoMap.commaOk, GoInt.MaxInt]
  obtain ⟨e, b⟩ := runUpdates_wrapping_bounds New reqs hd hnew hfit
  exact ⟨b, e, fun before id d h => UpdateIngredient_wrapping_consume_fail _ id d h⟩

/-- C10, witness: refill 5 of water, consume 3, try to consume 4 (which fails):
2 of water are left. -/
theorem runUpdates_quantity_nonneg_in_range_witness :
    (0 : Int) ≤ (wrapping.runUpdates New
      [{ IngredientID := "water", UpdateType := UpdateTypeRefill, ResourceQuantity := 5 },
       { IngredientID := "water", UpdateType := UpdateTypeConsume, ResourceQuantity := 3 },
       { IngredientID := "water", UpdateType := UpdateTypeConsume, ResourceQuantity := 4 }]
      ).availableResources.index "water" ∧
    (wrapping.runUpdates New
      [{ IngredientID := "water", UpdateType := UpdateTypeRefill, ResourceQuantity := 5 },
       { IngredientID := "water", UpdateType := UpdateTypeConsume, ResourceQuantity := 3 },
       { IngredientID := "water", UpdateType := UpdateTypeConsume, ResourceQuantity := 4 }]
      ).availableResources.index "water" = 2 :=
  ⟨((runUpdates_quantity_nonneg_in_range
      [{ IngredientID := "water", UpdateType := UpdateTypeRefill, ResourceQuantity := 5 },
       { IngredientID := "water", UpdateType := UpdateTypeConsume, ResourceQuantity := 3 },
       { IngredientID := "water", UpdateType := UpdateTypeConsume, ResourceQuantity := 4 }]
      (by decide) (by decide)).1 "water").1, by decide⟩

/-- C14 as stated fails: with 10 of water in the store, a refill of
`math.MaxInt` (non-negative) succeeds and returns -9223372036854775799, not
`old + d`, and that is what a following `GetIngredient` reads. -/
theorem UpdateIngredient_refill_counterexample :
    (0 : Int) ≤ 9223372036854775807 ∧
      (wrapping.UpdateIngredient { availableResources := [("water", 10)] }
        { IngredientID := "water", UpdateType := UpdateTypeRefill,
          ResourceQuantity := 9223372036854775807 }).2
        = Except.ok { ID := "water", Quantity := -9223372036854775799 } ∧
      GetIngredient
        (wrapping.UpdateIngredient { availableResources := [("water", 10)] }
          { IngredientID := "water", UpdateType := UpdateTypeRefill,
            ResourceQuantity := 9223372036854775807 }).1
        { IngredientID := "water" }
        = Except.ok { ID := "water", Quantity := -9223372036854775799 } := by
  decide

/-- C14, amended: for every inventory state, ingredient id and delta `d`,
`UpdateIngredient` in refill mode never fails and returns the ingredient with
the quantity `old + d` wrapped to the range of `int`, where `old` is zero for
an ingredient never touched; when `d` is non-negative and `old + d` does not
exceed `math.MaxInt`, that quantity is `old + d`, and a following
`GetIngredient` for the same id succeeds with quantity `old + d`;
refill(water, 5) on the empty store followed by get(water) gives 5. -/
theorem UpdateIngredient_refill_in_range (m : repositoryImpl) (id : String) (d : Int)
    (hold : GoInt.inRange (m.availableResources.index id)) (hd : 0 ≤ d)
    (hfit : m.availableResources.index id + d ≤ GoInt.MaxInt) :
    (∀ d1, (wrapping.UpdateIngredient m
        { IngredientID := id, UpdateType := UpdateTypeRefill, ResourceQuantity := d1 }).2
      = Except.ok { ID := id, Quantity := GoInt.wrap (m.availableResources.index id + d1) }) ∧
    (wrapping.UpdateIngredient m
        { IngredientID := id, UpdateType := UpdateTypeRefill, ResourceQuantity := d }).2
      = Except.ok { ID := id, Quantity := m.availableResources.index id + d } ∧
    GetIngredient
        (wrapping.UpdateIngredient m
          { IngredientID := id, UpdateType := UpdateTypeRefill, ResourceQuantity := d }).1
        { IngredientID := id }
      = Except.ok { ID := id, Quantity := m.availableResources.index id + d } ∧
    (m.availableResources.commaOk id = none → m.availableResources.index id = 0) ∧
    GetIngredient
        (wrapping.UpdateIngredient New
          { IngredientID := "water", UpdateType := UpdateTypeRefill, ResourceQuantity := 5 }).1
        { IngredientID := "water" }
      = Except.ok { ID := "water", Quantity := 5 } := by
  have hne : ¬ UpdateTypeRefill = UpdateTypeConsume := by decide
  have hin : GoInt.inRange (m.availableResources.index id + d) := by
    unfold GoInt.inRange at hold ⊢
    exact ⟨by omega, hfit⟩
  have hw := GoInt.wrap_of_inRange _ hin
  refine ⟨?_, ?_, ?_, ?_, by decide⟩
  · intro d1
    simp [wrapping.UpdateIngredient, hne]
  · simp [wrapping.UpdateIngredient, hne, hw]
  · simp [wrapping.UpdateIngredient, GetIngredient, hne, hw]
  · intro h
    simp [GoMap.index, h]

/-- C14, witness: milk was never touched, so a refill of 7 gives 7. -/
theorem UpdateIngredient_refill_in_range_witness :
    (wrapping.UpdateIngredient { availableResources := [("water", 10)] }
        { IngredientID := "milk", UpdateType := UpdateTypeRefill, ResourceQuantity := 7 }).2
      = Except.ok { ID := "milk", Quantity := 7 } :=
  (UpdateIngredient_refill_in_range { availableResources := [("water", 10)] } "milk" 7
    (by decide) (by decide) (by decide)).2.1

end resourcemanager

namespace reservationmanager

/-- The two embeddings of `Create` agree when the sum stays in the range of
`int`. -/
theorem Create_wrapping_eq (r : repositoryImpl) (request : CreateReservationRequest)
    (h : GoInt.inRange (r.reservations.index request.IngredientID + request.ReserveQuantity)) :
    wrapping.Create r request = Create r request := by
  unfold wrapping.Create Create
  rw [GoInt.wrap_of_inRange _ h]

/-- The two embeddings of `Delete` agree when the difference stays in the
range of `int`. -/
theorem Delete_wrapping_eq (r : repositoryImpl) (request : DeleteReservationRequest)
    (h : GoInt.inRange (r.reservations.index request.IngredientID - request.DeleteQuantity)) :
    wrapping.Delete r request = Delete r request := by
  unfold wrapping.Delete Delete
  rw [GoInt.wrap_of_inRange _ h]

theorem applyCall_wrapping_bounds (r : repositoryImpl) (call : Call)
    (hq : 0 ≤ call.quantity)
    (hr : ∀ id, 0 ≤ r.reservations.index id ∧ r.reservations.index id ≤ GoInt.MaxInt)
    (hfit : wrapping.createsFit r [call] = true) :
    wrapping.applyCall r call = applyCall r call ∧
      ∀ id, 0 ≤ (wrapping.applyCall r call).reservations.index id ∧
        (wrapping.applyCall r call).reservations.index id ≤ GoInt.MaxInt := by
  cases call with
  | create request =>
    have h0 := hr request.IngredientID
    simp only [Call.quantity] at hq
    simp only [wrapping.createsFit, Bool.and_true, decide_eq_true_eq] at hfit
    have heq := Create_wrapping_eq r request (GoInt.inRange_of_bounds (by omega) hfit)
    simp only [wrapping.applyCall, applyCall, heq, true_and]
    intro id
    have h1 := hr id
    simp only [Create, GoMap.index_assign]
    split <;> omega
  | delete request =>
    have h0 := hr request.IngredientID
    simp only [Call.quantity] at hq
    by_cases hgt : request.DeleteQuantity > r.reservations.index request.IngredientID
    · have e1 : wrapping.Delete r request =
          (r, some (Error.ErrInsufficientResource request.IngredientID)) := by
        simp [wrapping.Delete, hgt]
      have e2 : Delete r request =
          (r, some (Error.ErrInsufficientResource request.IngredientID)) := by
        simp [Delete, hgt]
      simp only [wrapping.applyCall, applyCall, e1, e2, true_and]
      exact hr
    · have heq := Delete_wrapping_eq r request
        (GoInt.inRange_of_bounds (by omega) (by omega))
      simp only [wrapping.applyCall, applyCall, heq, true_and]
      intro id
      have h1 := hr id
      simp only [Delete, hgt, if_false, GoMap.index_assign]
      split <;> omega

theorem createsFit_cons (r : repositoryImpl) (call : Call) (calls : List Call) :
    wrapping.createsFit r (call :: calls) =
      (wrapping.createsFit r [call] && wrapping.createsFit (wrapping.applyCall r call) calls) := by
  cases call <;> simp [wrapping.createsFit, wrapping.applyCall]

theorem runCalls_wrapping_bounds (r : repositoryImpl) (calls : List Call)
    (hq : ∀ call ∈ calls, 0 ≤ call.quantity)
    (hr : ∀ id, 0 ≤ r.reservations.index id ∧ r.reservations.index id ≤ GoInt.MaxInt)
    (hfit : wrapping.createsFit r calls = true) :
    wrapping.runCalls r calls = runCalls r calls ∧
      ∀ id, 0 ≤ (wrapping.runCalls r calls).reservations.index id ∧
        (wrapping.runCalls r calls).reservations.index id ≤ GoInt.MaxInt := by
  induction calls generalizing r with
  | nil => exact ⟨rfl, hr⟩
  | cons call calls ih =>
    rw [createsFit_cons, Bool.and_eq_true] at hfit
    obtain ⟨hf1, hf2⟩ := hfit
    obtain ⟨e1, b1⟩ := applyCall_wrapping_bounds r call
      (hq call (List.mem_cons_self _ _)) hr hf1
    obtain ⟨e2, b2⟩ := ih (wrapping.applyCall r call)
      (fun x hx => hq x (List.mem_cons_of_mem _ hx)) b1 hf2
    simp only [wrapping.runCalls, runCalls, List.foldl_cons] at e2 b2 ⊢
    refine ⟨?_, b2⟩
    rw [e2, e1]

/-- C12 as stated fails: the addition of `Create` wraps around.  From the
empty store, `Create` of `math.MaxInt` followed by `Create` of 1, both
non-negative, leaves the counter at -9223372036854775808. -/
theorem runCalls_reserved_nonneg_counterexample :
    (∀ call ∈ [Call.create { IngredientID := "water", ReserveQuantity := 9223372036854775807 },
               Call.create { IngredientID := "water", ReserveQuantity := 1 }],
        0 ≤ call.quantity) ∧
      (wrapping.runCalls New
        [Call.create { IngredientID := "water", ReserveQuantity := 9223372036854775807 },
         Call.create { IngredientID := "water", ReserveQuantity := 1 }]).reservations.index
          "water" = -9223372036854775808 := by
  decide

/-- C12, amended: starting from the empty reservation store, after every
finite sequence of `Create` and `Delete` calls with non-negative quantities in
which no `Create` takes a counter beyond `math.MaxInt`, the reserved counter
of every ingredient is at least 0 (and at most `math.MaxInt`, no operation
having wrapped). -/
theorem runCalls_reserved_nonneg_in_range (calls : List Call)
    (hq : ∀ call ∈ calls, 0 ≤ call.quantity)
    (hfit : wrapping.createsFit New calls = true) (id : String) :
    0 ≤ (wrapping.runCalls New calls).reservations.index id ∧
      (wrapping.runCalls New calls).reservations.index id ≤ GoInt.MaxInt ∧
      wrapping.runCalls New calls = runCalls New calls := by
  have hnew : ∀ id, 0 ≤ New.reservations.index id ∧
      New.reservations.index id ≤ GoInt.MaxInt := by
    intro id1
    simp [New, GoMap.index, GoMap.commaOk, GoInt.MaxInt]
  obtain ⟨e, b⟩ := runCalls_wrapping_bounds New calls hq hnew hfit
  exact ⟨(b id).1, (b id).2, e⟩

/-- C12, witness: reserve 5 of water, release 3, try to release 4 (which
fails): 2 remain reserved. -/
theorem runCalls_reserved_nonneg_in_range_witness :
    (0 : Int) ≤ (wrapping.runCalls New
      [Call.create { IngredientID := "water", ReserveQuantity := 5 },
       Call.delete { IngredientID := "water", DeleteQuantity := 3 },
       Call.delete { IngredientID := "water", DeleteQuantity := 4 }]).reservations.index "water" ∧
    (wrapping.runCalls New
      [Call.create { IngredientID := "water", ReserveQuantity := 5 },
       Call.delete { IngredientID := "water", DeleteQuantity := 3 },
       Call.delete { IngredientID := "water", DeleteQuantity := 4 }]).reservations.index "water"
      = 2 :=
  ⟨(runCalls_reserved_nonneg_in_range
      [Call.create { IngredientID := "water", ReserveQuantity := 5 },
       Call.delete { IngredientID := "water", DeleteQuantity := 3 },
       Call.delete { IngredientID := "water", DeleteQuantity := 4 }]
      (by decide) (by decide) "water").1, by decide⟩

/-- C16 as stated fails: on a counter of `math.MaxInt`, `Create` of 1 leaves
the counter at -9223372036854775808, not at `math.MaxInt + 1`. -/
theorem Create_spec_counterexample :
    (wrapping.Create { reservations := [("water", 9223372036854775807)] }
        { IngredientID := "water", ReserveQuantity := 1 }).1.reservations.index "water"
      = -9223372036854775808 ∧
    (wrapping.Create { reservations := [("water", 9223372036854775807)] }
        { IngredientID := "water", ReserveQuantity := 1 }).1.reservations.index "water"
      ≠ 9223372036854775807 + 1 := by
  decide

/-- C16, amended: for every reservation-store state, ingredient id and
quantity `q`, `Create` never fails, sets the reserved counter of that
ingredient to `old + q` wrapped to the range of `int` (`old` is zero for an
untouched ingredient) and leaves every other counter as it was; it has no
access to the inventory, so no availability is checked.  When `old + q` is in
the range of `int`, the counter increases by exactly `q`. -/
theorem Create_spec_in_range (r : repositoryImpl) (id : String) (q : Int)
    (hfit : GoInt.inRange (r.reservations.index id + q)) :
    (∀ q1, (wrapping.Create r { IngredientID := id, ReserveQuantity := q1 }).2 = none ∧
      (wrapping.Create r { IngredientID := id, ReserveQuantity := q1 }).1.reservations.index id
        = GoInt.wrap (r.reservations.index id + q1) ∧
      ∀ id1, id1 ≠ id →
        (wrapping.Create r { IngredientID := id, ReserveQuantity := q1 }).1.reservations.index id1
          = r.reservations.index id1) ∧
    (wrapping.Create r { IngredientID := id, ReserveQuantity := q }).1.reservations.index id
      = r.reservations.index id + q ∧
    (r.reservations.commaOk id = none →
      (wrapping.Create r { IngredientID := id, ReserveQuantity := q }).1.reservations.index id
        = q) := by
  have hw := GoInt.wrap_of_inRange _ hfit
  unfold wrapping.Create
  refine ⟨fun q1 => ⟨rfl, by simp, ?_⟩, by simp [hw], ?_⟩
  · intro id1 h
    have : ¬ id = id1 := fun e => h e.symm
    simp [this]
  · intro h
    have h0 : r.reservations.index id = 0 := by simp [GoMap.index, h]
    rw [h0, zero_add] at hw
    simp [h0, hw]

/-- C16, witness: reserving 5 of an ingredient the empty store has never seen
gives a counter of 5. -/
theorem Create_spec_in_range_witness :
    (wrapping.Create New
        { IngredientID := "1234", ReserveQuantity := 5 }).1.reservations.index "1234" = 5 :=
  (Create_spec_in_range New "1234" 5 (by decide)).2.2 (by decide)

end reservationmanager

/-! ## Interleaved orders on machine integers -/

namespace vendingmachine

theorem reserve_wrapping_eq (c : coffeeMachineImpl) (i : Ingredient) (hb : c.Bounded)
    (hq : 0 ≤ i.Quantity) :
    wrapping.reserveIngredientIfPossible c i = reserveIngredientIfPossible c i := by
  obtain ⟨⟨a0, a1⟩, ⟨r0, r1⟩⟩ := hb i.ID
  unfold coffeeMachineImpl.available at a0 a1
  unfold coffeeMachineImpl.reserved at r0 r1
  have hw : GoInt.wrap (c.resourceManager.availableResources.index i.ID
      - c.reservationManager.reservations.index i.ID)
      = c.resourceManager.availableResources.index i.ID
        - c.reservationManager.reservations.index i.ID := by
    apply GoInt.wrap_of_inRange
    unfold GoInt.MaxInt at a1 r1
    unfold GoInt.inRange GoInt.MinInt GoInt.MaxInt
    omega
  unfold wrapping.reserveIngredientIfPossible reserveIngredientIfPossible
  simp only [resourcemanager.GetIngredient, reservationmanager.Get,
    getOrCreateMutex_resourceManager, getOrCreateMutex_reservationManager]
  cases h : c.resourceManager.availableResources.commaOk i.ID with
  | none => rfl
  | some a =>
    simp only [hw]
    by_cases hcond : c.resourceManager.availableResources.index i.ID
        - c.reservationManager.reservations.index i.ID ≥ i.Quantity
    · have hcr := reservationmanager.Create_wrapping_eq c.reservationManager
        { IngredientID := i.ID, ReserveQuantity := i.Quantity }
        (GoInt.inRange_of_bounds (by simp only []; omega) (by simp only []; omega))
      simp only [hcond, if_true, hcr]
    · simp only [hcond, if_false]

theorem delete_wrapping_eq (c : coffeeMachineImpl) (i : Ingredient) (hb : c.Bounded)
    (hq : 0 ≤ i.Quantity) :
    wrapping.deleteReservation c i = deleteReservation c i := by
  obtain ⟨_, ⟨r0, r1⟩⟩ := hb i.ID
  unfold coffeeMachineImpl.reserved at r0 r1
  have hd : reservationmanager.wrapping.Delete c.reservationManager
      { IngredientID := i.ID, DeleteQuantity := i.Quantity } =
      reservationmanager.Delete c.reservationManager
        { IngredientID := i.ID, DeleteQuantity := i.Quantity } := by
    by_cases hgt : i.Quantity > c.reservationManager.reservations.index i.ID
    · simp [reservationmanager.wrapping.Delete, reservationmanager.Delete, hgt]
    · exact reservationmanager.Delete_wrapping_eq _ _
        (GoInt.inRange_of_bounds (by simp only []; omega) (by simp only []; omega))
  unfold wrapping.deleteReservation deleteReservation
  simp only [getOrCreateMutex_reservationManager, hd]

theorem bounded_index (c : coffeeMachineImpl) (hb : c.Bounded) :
    ∀ id, 0 ≤ c.resourceManager.availableResources.index id ∧
      c.resourceManager.availableResources.index id ≤ GoInt.MaxInt :=
  fun id => (hb id).1

theorem consume_wrapping_eq (c : coffeeMachineImpl) (i : Ingredient) (hb : c.Bounded)
    (hq : 0 ≤ i.Quantity) :
    wrapping.consumeIngredient c i = consumeIngredient c i := by
  have hne : ¬ resourcemanager.UpdateTypeConsume = resourcemanager.UpdateTypeRefill := by
    decide
  have hu := (resourcemanager.UpdateIngredient_wrapping_bounds c.resourceManager
    { IngredientID := i.ID, UpdateType := resourcemanager.UpdateTypeConsume,
      ResourceQuantity := i.Quantity } hq (bounded_index c hb)
    (fun h => absurd h hne)).1
  unfold wrapping.consumeIngredient consumeIngredient
  simp only [getOrCreateMutex_resourceManager, hu]

theorem Refill_wrapping_eq (c : coffeeMachineImpl) (i : Ingredient) (hb : c.Bounded)
    (hq : 0 ≤ i.Quantity) (hfit : c.available i.ID + i.Quantity ≤ GoInt.MaxInt) :
    wrapping.Refill c i = Refill c i := by
  have hu := (resourcemanager.UpdateIngredient_wrapping_bounds c.resourceManager
    { IngredientID := i.ID, UpdateType := resourcemanager.UpdateTypeRefill,
      ResourceQuantity := i.Quantity } hq (bounded_index c hb) (fun _ => hfit)).1
  unfold wrapping.Refill Refill
  simp only [getOrCreateMutex_resourceManager, hu]

end vendingmachine

namespace vendingmachine

theorem reserve_upper (c : coffeeMachineImpl) (i : Ingredient)
    (hup : ∀ id, c.available id ≤ GoInt.MaxInt ∧ c.reserved id ≤ GoInt.MaxInt) :
    ∀ id, (reserveIngredientIfPossible c i).1.available id ≤ GoInt.MaxInt ∧
      (reserveIngredientIfPossible c i).1.reserved id ≤ GoInt.MaxInt := by
  intro id
  have ha := available_congr (reserve_resourceManager c i) id
  obtain ⟨u1, u2⟩ := hup id
  refine ⟨by rw [ha]; exact u1, ?_⟩
  cases hr : (reserveIngredientIfPossible c i).2 with
  | none =>
    rw [reserve_reserved_of_ok c i hr id]
    obtain ⟨_, hcond⟩ := (reserve_ok_iff c i).1 hr
    by_cases hid : i.ID = id
    · subst hid
      simp only [if_true]
      omega
    · simp only [hid, if_false]
      omega
  | some err =>
    rw [reserved_congr (reserve_reservationManager_of_fail c i (by rw [hr]; simp)) id]
    exact u2

theorem consume_upper (c : coffeeMachineImpl) (i : Ingredient) (hq : 0 ≤ i.Quantity)
    (hup : ∀ id, c.available id ≤ GoInt.MaxInt ∧ c.reserved id ≤ GoInt.MaxInt) :
    ∀ id, (consumeIngredient c i).1.available id ≤ GoInt.MaxInt ∧
      (consumeIngredient c i).1.reserved id ≤ GoInt.MaxInt := by
  intro id
  obtain ⟨u1, u2⟩ := hup id
  refine ⟨?_, by rw [reserved_congr (consume_reservationManager c i) id]; exact u2⟩
  cases hr : (consumeIngredient c i).2 with
  | none =>
    rw [consume_available_of_ok c i hr id]
    split <;> omega
  | some err =>
    rw [available_congr (consume_resourceManager_of_fail c i (by rw [hr]; simp)) id]
    exact u1

theorem delete_upper (c : coffeeMachineImpl) (i : Ingredient) (hq : 0 ≤ i.Quantity)
    (hup : ∀ id, c.available id ≤ GoInt.MaxInt ∧ c.reserved id ≤ GoInt.MaxInt) :
    ∀ id, (deleteReservation c i).1.available id ≤ GoInt.MaxInt ∧
      (deleteReservation c i).1.reserved id ≤ GoInt.MaxInt := by
  intro id
  obtain ⟨u1, u2⟩ := hup id
  refine ⟨by rw [available_congr (delete_resourceManager c i) id]; exact u1, ?_⟩
  cases hr : (deleteReservation c i).2 with
  | none =>
    rw [delete_reserved_of_ok c i hr id]
    split <;> omega
  | some err =>
    rw [reserved_congr (delete_reservationManager_of_fail c i (by rw [hr]; simp)) id]
    exact u2

theorem Refill_upper (c : coffeeMachineImpl) (i : Ingredient)
    (hfit : c.available i.ID + i.Quantity ≤ GoInt.MaxInt)
    (hup : ∀ id, c.available id ≤ GoInt.MaxInt ∧ c.reserved id ≤ GoInt.MaxInt) :
    ∀ id, (Refill c i).1.available id ≤ GoInt.MaxInt ∧
      (Refill c i).1.reserved id ≤ GoInt.MaxInt := by
  intro id
  obtain ⟨u1, u2⟩ := hup id
  refine ⟨?_, by rw [reserved_congr (Refill_reservationManager c i) id]; exact u2⟩
  rw [Refill_available]
  by_cases hid : i.ID = id
  · subst hid
    simp only [if_true]
    exact hfit
  · simp only [hid, if_false]
    omega

/-- On a bounded machine the transition of an order with positive quantities
is the same in the two embeddings, and it keeps the upper bounds. -/
theorem stepOrder_wrapping_eq (c : coffeeMachineImpl) (o : Order) (hb : c.Bounded)
    (hpos : ∀ ing ∈ o.item.Ingredients, 0 < ing.Quantity) :
    wrapping.stepOrder c o = o.step c ∧
      ∀ id, (o.step c).1.available id ≤ GoInt.MaxInt ∧
        (o.step c).1.reserved id ≤ GoInt.MaxInt := by
  have hup : ∀ id, c.available id ≤ GoInt.MaxInt ∧ c.reserved id ≤ GoInt.MaxInt :=
    fun id => ⟨(hb id).1.2, (hb id).2.2⟩
  obtain ⟨item, phase⟩ := o
  simp only [] at hpos
  cases phase with
  | reserving idx =>
    simp only [wrapping.stepOrder, Order.step]
    cases hk : item.Ingredients[idx]? with
    | none => exact ⟨rfl, hup⟩
    | some ing =>
      have hq := le_of_lt (hpos ing (mem_of_getElem _ _ _ hk))
      have hu := reserve_upper c ing hup
      simp only [reserve_wrapping_eq c ing hb hq, true_and]
      cases hr : reserveIngredientIfPossible c ing with
      | mk c1 e =>
        rw [hr] at hu
        cases e <;> exact hu
  | consuming idx =>
    simp only [wrapping.stepOrder, Order.step]
    cases hk : item.Ingredients[idx]? with
    | none => exact ⟨rfl, hup⟩
    | some ing =>
      have hq := le_of_lt (hpos ing (mem_of_getElem _ _ _ hk))
      have hu := consume_upper c ing hq hup
      simp only [consume_wrapping_eq c ing hb hq, true_and]
      cases hr : consumeIngredient c ing with
      | mk c1 e =>
        rw [hr] at hu
        cases e <;> exact hu
  | deleting reservedItemsIdx idx err =>
    simp only [wrapping.stepOrder, Order.step]
    cases hk : (item.Ingredients.take reservedItemsIdx)[idx]? with
    | none => exact ⟨rfl, hup⟩
    | some ing =>
      have hq := le_of_lt (hpos ing
        (List.mem_of_mem_take (mem_of_getElem _ _ _ hk)))
      have hu := delete_upper c ing hq hup
      simp only [delete_wrapping_eq c ing hb hq, true_and]
      cases hr : deleteReservation c ing with
      | mk c1 e =>
        rw [hr] at hu
        cases e <;> exact hu
  | done err => exact ⟨rfl, hup⟩

theorem Shared.held_sum_nonneg {s : Shared} (hinv : s.Inv) (id : String) : 0 ≤ s.held id := by
  apply List.sum_nonneg
  intro v hv
  obtain ⟨o, ho, rfl⟩ := List.mem_map.mp hv
  exact o.held_nonneg (hinv.positive o ho) id

theorem Shared.Inv.bounded {s : Shared} (hinv : s.Inv)
    (hup : ∀ id, s.machine.available id ≤ GoInt.MaxInt ∧ s.machine.reserved id ≤ GoInt.MaxInt) :
    s.machine.Bounded := by
  intro id
  have h1 := hinv.owed_le id
  have h2 := Shared.owed_sum_nonneg hinv id
  have h3 := hinv.reserved_eq id
  have h4 := Shared.held_sum_nonneg hinv id
  exact ⟨⟨by omega, (hup id).1⟩, ⟨by omega, (hup id).2⟩⟩

/-- One admissible event whose refill, if it is one, does not go beyond
`math.MaxInt`: the two embeddings agree and the upper bounds are kept. -/
theorem applyEvent_wrapping_eq {s : Shared} (hinv : s.Inv)
    (hup : ∀ id, s.machine.available id ≤ GoInt.MaxInt ∧ s.machine.reserved id ≤ GoInt.MaxInt)
    (e : Event) (he : e.admissible) (hfit : wrapping.refillsFit s [e] = true) :
    wrapping.applyEvent s e = s.apply e ∧
      ∀ id, (s.apply e).machine.available id ≤ GoInt.MaxInt ∧
        (s.apply e).machine.reserved id ≤ GoInt.MaxInt := by
  have hb := hinv.bounded hup
  cases e with
  | step i =>
    simp only [wrapping.applyEvent, Shared.apply]
    cases hi : s.orders[i]? with
    | none => exact ⟨rfl, hup⟩
    | some o =>
      obtain ⟨e1, u1⟩ := stepOrder_wrapping_eq s.machine o hb
        (hinv.positive o (mem_of_getElem _ _ _ hi))
      simp only [e1, true_and]
      exact u1
  | submit item => exact ⟨rfl, hup⟩
  | refill ing =>
    simp only [Event.admissible] at he
    simp only [wrapping.refillsFit, Bool.and_true, decide_eq_true_eq] at hfit
    simp only [wrapping.applyEvent, Shared.apply, Refill_wrapping_eq s.machine ing hb he hfit,
      true_and]
    exact Refill_upper s.machine ing hfit hup

theorem refillsFit_cons (s : Shared) (e : Event) (events : List Event) :
    wrapping.refillsFit s (e :: events) =
      (wrapping.refillsFit s [e] && wrapping.refillsFit (wrapping.applyEvent s e) events) := by
  cases e <;> simp [wrapping.refillsFit]

/-- Every interleaving of admissible events in which no refill goes beyond
`math.MaxInt` runs the same in the two embeddings and keeps the upper
bounds. -/
theorem runEvents_wrapping_eq {s : Shared} (hinv : s.Inv)
    (hup : ∀ id, s.machine.available id ≤ GoInt.MaxInt ∧ s.machine.reserved id ≤ GoInt.MaxInt)
    (events : List Event) (hadm : ∀ e ∈ events, e.admissible)
    (hfit : wrapping.refillsFit s events = true) :
    wrapping.runEvents s events = s.run events ∧
      ∀ id, (s.run events).machine.available id ≤ GoInt.MaxInt ∧
        (s.run events).machine.reserved id ≤ GoInt.MaxInt := by
  induction events generalizing s with
  | nil => exact ⟨rfl, hup⟩
  | cons e events ih =>
    rw [refillsFit_cons, Bool.and_eq_true] at hfit
    obtain ⟨hf1, hf2⟩ := hfit
    have he := hadm e (List.mem_cons_self _ _)
    obtain ⟨e1, u1⟩ := applyEvent_wrapping_eq hinv hup e he hf1
    rw [e1] at hf2
    obtain ⟨e2, u2⟩ := ih (hinv.apply e he) u1
      (fun x hx => hadm x (List.mem_cons_of_mem _ hx)) hf2
    simp only [wrapping.runEvents, Shared.run, List.foldl_cons] at e2 u2 ⊢
    rw [e1]
    exact ⟨e2, u2⟩

end vendingmachine

namespace vendingmachine

/-- C5 as stated fails: the addition of a refill wraps around.  From water 10
with nothing reserved, an order for water 6 is submitted and reserves its
water, a refill of `math.MaxInt` of water (non-negative) follows, and the
order goes on to its consume step: the stock stands at -9223372036854775799,
below zero, and the consume step of the order, which has reserved all its
requirements, fails with `ErrResourceNotAvailable`. -/
theorem interleaved_consume_counterexample :
    (∀ e ∈ [Event.submit { ID := "tea", Ingredients := [{ ID := "water", Quantity := 6 }] },
            Event.step 0,
            Event.refill { ID := "water", Quantity := 9223372036854775807 },
            Event.step 0],
        e.admissible) ∧
    (wrapping.runEvents
        { machine := New { ReservationManager := { reservations := [] }
                           ResourceManager := { availableResources := [("water", 10)] }
                           NumOfOutlets := 2 }
          orders := [] }
        [Event.submit { ID := "tea", Ingredients := [{ ID := "water", Quantity := 6 }] },
         Event.step 0,
         Event.refill { ID := "water", Quantity := 9223372036854775807 },
         Event.step 0]).orders =
      [{ item := { ID := "tea", Ingredients := [{ ID := "water", Quantity := 6 }] }
         phase := Phase.consuming 0 }] ∧
    (wrapping.runEvents
        { machine := New { ReservationManager := { reservations := [] }
                           ResourceManager := { availableResources := [("water", 10)] }
                           NumOfOutlets := 2 }
          orders := [] }
        [Event.submit { ID := "tea", Ingredients := [{ ID := "water", Quantity := 6 }] },
         Event.step 0,
         Event.refill { ID := "water", Quantity := 9223372036854775807 },
         Event.step 0]).machine.available "water" = -9223372036854775799 ∧
    (wrapping.consumeIngredient
        (wrapping.runEvents
          { machine := New { ReservationManager := { reservations := [] }
                             ResourceManager := { availableResources := [("water", 10)] }
                             NumOfOutlets := 2 }
            orders := [] }
          [Event.submit { ID := "tea", Ingredients := [{ ID := "water", Quantity := 6 }] },
           Event.step 0,
           Event.refill { ID := "water", Quantity := 9223372036854775807 },
           Event.step 0]).machine
        { ID := "water", Quantity := 6 }).2
      = some (Error.ErrResourceNotAvailable "water") := by
  decide

/-- C5, amended: start with no order in flight, all reserved counters zero
and all available quantities non-negative, and let any number of orders with
positive quantities run their reserve, consume and reservation-delete steps as
atomic transitions in any interleaving, together with refills of non-negative
amounts none of which takes an available quantity beyond `math.MaxInt`.  Then
in every reachable state the consume step of an order that has reserved all
its requirements succeeds; the quantities reserved and not yet consumed by all
orders together are covered by the available quantity of each ingredient; and
no available quantity is below zero.  All of it on machine integers: no
operation of such a run wraps around. -/
theorem interleaved_consume_never_fails_in_range (c : coffeeMachineImpl)
    (hres : ∀ id, c.reserved id = 0)
    (hav : ∀ id, 0 ≤ c.available id ∧ c.available id ≤ GoInt.MaxInt)
    (events : List Event) (hadm : ∀ e ∈ events, e.admissible)
    (hfit : wrapping.refillsFit { machine := c, orders := [] } events = true) :
    (∀ (i : Nat) (o : Order) (k : Nat) (ing : Ingredient),
      (wrapping.runEvents { machine := c, orders := [] } events).orders[i]? = some o →
      o.phase = Phase.consuming k → o.item.Ingredients[k]? = some ing →
      (wrapping.consumeIngredient
        (wrapping.runEvents { machine := c, orders := [] } events).machine ing).2 = none) ∧
    (∀ id, (wrapping.runEvents { machine := c, orders := [] } events).owed id
      ≤ (wrapping.runEvents { machine := c, orders := [] } events).machine.available id) ∧
    (∀ id, 0 ≤ (wrapping.runEvents { machine := c, orders := [] } events).machine.available id ∧
      (wrapping.runEvents { machine := c, orders := [] } events).machine.available id
        ≤ GoInt.MaxInt) ∧
    wrapping.runEvents { machine := c, orders := [] } events
      = Shared.run { machine := c, orders := [] } events := by
  have hinit := Shared.Inv.init c hres (fun id => (hav id).1)
  have hup0 : ∀ id, c.available id ≤ GoInt.MaxInt ∧ c.reserved id ≤ GoInt.MaxInt := by
    intro id
    refine ⟨(hav id).2, ?_⟩
    rw [hres id]
    decide
  obtain ⟨heq, hup⟩ := runEvents_wrapping_eq hinit hup0 events hadm hfit
  have hinv := hinit.run_events events hadm
  have hb := hinv.bounded hup
  rw [heq]
  refine ⟨?_, hinv.owed_le, fun id => (hb id).1, rfl⟩
  intro i o k ing hi hph hk
  have hpos := hinv.positive o (mem_of_getElem _ _ _ hi)
  rw [consume_wrapping_eq _ ing hb (le_of_lt (hpos ing (mem_of_getElem _ _ _ hk)))]
  exact consume_ok_of_inv hinv hi hph hk

/-- C5, witness: two orders compete for 10 of water, which is refilled by 5
meanwhile; the first reserves 6, the second is turned away, and the consume
step of the first succeeds. -/
theorem interleaved_consume_never_fails_in_range_witness :
    (wrapping.consumeIngredient
      (wrapping.runEvents
        { machine := New { ReservationManager := { reservations := [] }
                           ResourceManager := { availableResources := [("water", 10)] }
                           NumOfOutlets := 2 }
          orders := [] }
        [Event.submit { ID := "tea", Ingredients := [{ ID := "water", Quantity := 6 }] },
         Event.submit { ID := "chai", Ingredients := [{ ID := "water", Quantity := 11 }] },
         Event.step 0, Event.step 1, Event.refill { ID := "water", Quantity := 5 },
         Event.step 0]).machine
      { ID := "water", Quantity := 6 }).2 = none :=
  (interleaved_consume_never_fails_in_range
      (New { ReservationManager := { reservations := [] }
             ResourceManager := { availableResources := [("water", 10)] }
             NumOfOutlets := 2 })
      (fun _ => rfl)
      (fun id => ⟨index_nonneg_of_entries (by decide) id, by
        by_cases h : id = "water"
        · subst h; decide
        · have h1 : ¬ "water" = id := fun e => h e.symm
          simp [coffeeMachineImpl.available, New, GoMap.index, GoMap.commaOk, h1,
            GoInt.MaxInt]⟩)
      [Event.submit { ID := "tea", Ingredients := [{ ID := "water", Quantity := 6 }] },
       Event.submit { ID := "chai", Ingredients := [{ ID := "water", Quantity := 11 }] },
       Event.step 0, Event.step 1, Event.refill { ID := "water", Quantity := 5 },
       Event.step 0]
      (by decide) (by decide)).1 0
    { item := { ID := "tea", Ingredients := [{ ID := "water", Quantity := 6 }] }
      phase := Phase.consuming 0 }
    0 { ID := "water", Quantity := 6 } (by decide) rfl (by decide)

end vendingmachine
